import Mathlib

/-!
# iodine: the Rack bridge of `ext/iodine/iodine_http.c`

A shallow embedding of `iodine_http.c`.  The response side: the interpretation of the value
returned by the Rack application (`ruby2c_response_send`, `for_each_header_data`,
`for_each_body_string`), the upgrade review (`ruby2c_review_upgrade`), the request driver
(`iodine_handle_request_in_GVL`) and the action performed once the GVL is released
(`iodine_perform_handle_action`).  The request side: the environment built by `copy2env`
and `iodine_copy2env_task` from the templates of `initialize_env_template`.  Around them:
the two timeouts computed by `iodine_http_listen` and the connection callbacks registered by
`iodine_ws_attach` and `iodine_sse_attach`.

Ruby values are a small inductive universe, C side effects are an explicit, ordered list of
`Effect`s, and everything the file calls but does not define (the facil.io engine, the Ruby
method dispatch, `fio_atol`) is a field of `Ext` or of `ReqExt`.
-/

namespace Iodine

/-! ## Ruby values -/

/-- Byte strings: the contents of a Ruby `String` or of a C buffer. -/
abbrev Bytes := List Char

/-- The Ruby objects the bridge can meet.  `obj` stands for every object that is neither
`nil`, a Fixnum, a String, an Array nor a Hash (an IO, a body proxy, a Symbol, a Proc ...):
`each` is what the object yields to a block when it responds to `each`, and `close` tells
whether it responds to `close`. -/
inductive VALUE where
  | Qnil : VALUE
  | fixnum (n : Int) : VALUE
  | str (s : Bytes) : VALUE
  | ary (xs : List VALUE) : VALUE
  | hash (kvs : List (VALUE × VALUE)) : VALUE
  | obj (id : Nat) (each : Option (List VALUE)) (close : Bool) : VALUE

/-- The type tags `TYPE(v)` is compared with in this file. -/
inductive ruby_value_type where
  | T_NIL
  | T_FIXNUM
  | T_STRING
  | T_ARRAY
  | T_HASH
  | T_OBJECT
  deriving DecidableEq, Repr

open ruby_value_type

/-- The macro `TYPE(v)` of the Ruby C API. -/
def TYPE : VALUE → ruby_value_type
  | .Qnil => T_NIL
  | .fixnum _ => T_FIXNUM
  | .str _ => T_STRING
  | .ary _ => T_ARRAY
  | .hash _ => T_HASH
  | .obj _ _ _ => T_OBJECT

/-- The test `v != Qnil`. -/
def not_nil : VALUE → Bool
  | .Qnil => false
  | _ => true

/-- The call `rb_respond_to(v, close_method_id)`: of the core classes modelled here none
defines `close`; an `obj` says so itself. -/
def rb_respond_to_close : VALUE → Bool
  | .obj _ _ c => c
  | _ => false

/-- The call `rb_respond_to(v, each_method_id)`: `Array` and `Hash` define `each`, `String`,
`Integer` and `nil` do not; an `obj` says so itself. -/
def rb_respond_to_each : VALUE → Bool
  | .ary _ => true
  | .hash _ => true
  | .obj _ e _ => e.isSome
  | _ => false

/-- The values `v.each` yields to its block, in order: the elements of an Array, the
`[key, value]` pairs of a Hash, the declared chunks of an `obj`. -/
def rb_each : VALUE → List VALUE
  | .ary xs => xs
  | .hash kvs => kvs.map (fun p => VALUE.ary [p.1, p.2])
  | .obj _ (some ys) _ => ys
  | _ => []

/-- The call `rb_ary_entry(ary, i)` on the elements of an Array: `nil` when out of range. -/
def rb_ary_entry (xs : List VALUE) (i : Nat) : VALUE :=
  xs.getD i .Qnil

/-- Whether a Hash key is the String `key`. -/
def key_is (key : Bytes) : VALUE → Bool
  | .str s => s == key
  | _ => false

/-- The call `rb_hash_aref(hash, key)` for a String key: `nil` when the key is absent. -/
def rb_hash_aref (kvs : List (VALUE × VALUE)) (key : Bytes) : VALUE :=
  match kvs.find? (fun p => key_is key p.1) with
  | some p => p.2
  | none => .Qnil

/-- The call `rb_hash_delete(hash, key)` for a String key. -/
def rb_hash_delete (kvs : List (VALUE × VALUE)) (key : Bytes) : List (VALUE × VALUE) :=
  kvs.filter (fun p => !key_is key p.1)

/-! ## Effects, handles and the outside world -/

/-- The objects handed to `IodineStore.add` / `IodineStore.remove`, by the C variable
holding them. -/
inductive StoreRef where
  | env
  | rbresponse
  | response_headers
  deriving DecidableEq, Repr

/-- What the bridge does to the outside world, in program order. -/
inductive Effect where
  | rb_close (id : Nat)
  | log_body_not_string
  | fiobj_str_write (chunk : Bytes)
  | http_set_header (name value : Bytes)
  | http_finish
  | http_send_body (data : Bytes)
  | http_sendfile2 (path : Bytes) (sent : Bool)
  | http_send_error (status : Nat)
  | http_hijack
  | iodine_tcp_attch_uuid
  | iodine_connection_new
  | http_upgrade2ws
  | http_upgrade2sse
  | rb_call_hijack
  | rb_call_hijack_cb
  | rack_io_create
  | rack_io_close
  | rb_call_app
  | store_add (r : StoreRef)
  | store_remove (r : StoreRef)
  | delete_content_encoding
  deriving DecidableEq, Repr

/-- The enum `iodine_http_response_type_enum`. -/
inductive iodine_http_response_type_enum where
  | IODINE_HTTP_NONE
  | IODINE_HTTP_SENDBODY
  | IODINE_HTTP_XSENDFILE
  | IODINE_HTTP_EMPTY
  | IODINE_HTTP_ERROR
  deriving DecidableEq, Repr

/-- The enum `iodine_upgrade_type_enum`. -/
inductive iodine_upgrade_type_enum where
  | IODINE_UPGRADE_NONE
  | IODINE_UPGRADE_WEBSOCKET
  | IODINE_UPGRADE_SSE
  deriving DecidableEq, Repr

open iodine_http_response_type_enum iodine_upgrade_type_enum

/-- The part of the engine's `http_s` the response side reads and writes: the response
status, a `uintptr_t`. -/
structure http_s where
  status : Nat
  deriving DecidableEq, Repr

/-- The struct `iodine_http_request_handle_s`; `body = none` is the unset `FIOBJ` (0). -/
structure iodine_http_request_handle_s where
  h : http_s
  body : Option Bytes
  type : iodine_http_response_type_enum
  upgrade : iodine_upgrade_type_enum
  deriving DecidableEq, Repr

/-- What `IodineCaller.call2(h->udata, call, env)` leaves behind: the value the application
returned (`none` for `nil`, otherwise the elements of the returned Array) and the environment
Hash as the application left it. -/
structure AppCall where
  rbresponse : Option (List VALUE)
  env : List (VALUE × VALUE)

/-- Everything `iodine_http.c` calls but does not define. -/
structure Ext where
  /-- The number parser `fio_atol` of facil.io applied to the bytes of a String. -/
  fio_atol : Bytes → Int
  /-- The result of `IodineCaller.call(v, iodine_to_s_method_id)`. -/
  to_s : VALUE → VALUE
  /-- Whether `iodine_connection_new` returned `Qnil`. -/
  connection_new_nil : Bool
  /-- Whether `http_sendfile2` failed (returned non-zero) for the given path. -/
  sendfile2_fails : Bytes → Bool
  /-- The length of the outgoing `content-encoding` header as `fiobj_obj2cstr` reports it. -/
  content_encoding_len : Nat

/-- The conversion of a C `long` to the `uintptr_t` status field (`FIX2ULONG`, and the
implicit conversion of the `int64_t` result of `fio_atol`). -/
def to_uintptr (n : Int) : Nat :=
  (n % 18446744073709551616).toNat

/-- The test `(intptr_t)status < 300`. -/
def intptr_lt_300 (status : Nat) : Bool :=
  decide (status < 300) || decide (9223372036854775808 ≤ status)

/-! ## String constants set by `iodine_init_http` -/

def XSENDFILE : Bytes := "X-Sendfile".toList
def CONTENT_LENGTH_HEADER : Bytes := "Content-Length".toList
def IODINE_R_HIJACK_IO_KEY : Bytes := "rack.hijack_io".toList
def IODINE_R_HIJACK : Bytes := "rack.hijack".toList
def IODINE_R_HIJACK_CB : Bytes := "iodine.hijack_cb".toList
def RACK_UPGRADE : Bytes := "rack.upgrade".toList
def UPGRADE_TCP : Bytes := "upgrade.tcp".toList

/-! ## Response headers -/

/-- The function `tolower` of the C locale on one byte. -/
def tolower (c : Char) : Char :=
  if 65 ≤ c.toNat ∧ c.toNat ≤ 90 then Char.ofNat (c.toNat + 32) else c

/-- The inner loop of `for_each_header_data`:
`while (pos_e < val_len && val_s[pos_e] != '\n') pos_e++;`, returning the final `pos_e`.
The first argument bounds the number of iterations. -/
def scan_newline (val_s : Bytes) (val_len : Nat) : Nat → Nat → Nat
  | 0, pos_e => pos_e
  | fuel + 1, pos_e =>
    if pos_e < val_len ∧ val_s.get? pos_e ≠ some '\n' then
      scan_newline val_s val_len fuel (pos_e + 1)
    else pos_e

/-- The outer loop of `for_each_header_data`, `while (pos_e < val_len) ...`, returning the
values passed to `http_set_header` in order.  The first argument bounds the number of
iterations; the arguments after it are `pos_s` and `pos_e`. -/
def header_values (val_s : Bytes) (val_len : Nat) : Nat → Nat → Nat → List Bytes
  | 0, _, _ => []
  | fuel + 1, pos_s, pos_e =>
    if pos_e < val_len then
      let pos_e1 := scan_newline val_s val_len val_len pos_e
      ((val_s.drop pos_s).take (pos_e1 - pos_s)) ::
        header_values val_s val_len fuel (pos_e1 + 1) (pos_e1 + 1)
    else []

/-- The return values of an `rb_hash_foreach` callback. -/
inductive st_retval where
  | ST_CONTINUE
  | ST_STOP
  deriving DecidableEq, Repr

open st_retval

/-- The callback `for_each_header_data(key, val, h)`: the lines it writes with
`http_set_header` and whether the iteration goes on.  Lengths are taken to fit the C `int`
they are stored in. -/
def for_each_header_data (ext : Ext) (key val : VALUE) : st_retval × List Effect :=
  let key1 := if TYPE key ≠ T_STRING then ext.to_s key else key
  match key1 with
  | .str key_s =>
    let val1 := if TYPE val ≠ T_STRING then ext.to_s val else val
    match val1 with
    | .str val_s =>
      let name := key_s.map tolower
      (ST_CONTINUE,
        (header_values val_s val_s.length (val_s.length + 1) 0 0).map
          (fun v => Effect.http_set_header name v))
    | _ => (ST_STOP, [])
  | _ => (ST_CONTINUE, [])

/-- The call `rb_hash_foreach(response_headers, for_each_header_data, h)`: the callback runs
on every entry in order until it answers `ST_STOP`. -/
def rb_hash_foreach_headers (ext : Ext) : List (VALUE × VALUE) → List Effect
  | [] => []
  | (k, v) :: rest =>
    match for_each_header_data ext k v with
    | (ST_CONTINUE, effs) => effs ++ rb_hash_foreach_headers ext rest
    | (ST_STOP, effs) => effs

/-! ## Response body -/

/-- The call `IodineCaller.call(v, close_method_id)`. -/
def call_close : VALUE → List Effect
  | .obj id _ _ => [Effect.rb_close id]
  | _ => []

/-- The block `for_each_body_string(str, body_)`: the buffer after the chunk, and what the
block did. -/
def for_each_body_string (str : VALUE) (body_ : Bytes) : Bytes × List Effect :=
  match str with
  | .str s =>
    if s.length ≠ 0 then (body_ ++ s, [Effect.fiobj_str_write s]) else (body_, [])
  | _ => (body_, [Effect.log_body_not_string])

/-- The call `rb_block_call(body, each_method_id, 0, NULL, for_each_body_string, buf)` on the
values `body.each` yields. -/
def rb_block_call_each : List VALUE → Bytes → Bytes × List Effect
  | [], buf => (buf, [])
  | y :: ys, buf =>
    let r := for_each_body_string y buf
    let r2 := rb_block_call_each ys r.1
    (r2.1, r.2 ++ r2.2)

/-- The second half of `ruby2c_response_send`, from `if (TYPE(body) == T_STRING)` to the
end, on the body left by the Array test: a String is copied (a buffer is only created for a
non-empty one), a value responding to `each` is drained into a fresh buffer and then closed
if it responds to `close`, anything else gives -1. -/
def response_send_body (handle : iodine_http_request_handle_s) (body : VALUE) :
    Int × iodine_http_request_handle_s × List Effect :=
  match body with
  | .str s =>
    (0, { handle with
            body := if s.length ≠ 0 then some s else handle.body,
            type := IODINE_HTTP_SENDBODY }, [])
  | _ =>
    if rb_respond_to_each body then
      let r := rb_block_call_each (rb_each body) []
      (0, { handle with body := some r.1, type := IODINE_HTTP_SENDBODY },
        r.2 ++ (if rb_respond_to_close body then call_close body else []))
    else (-1, handle, [])

/-- The function `ruby2c_response_send(handle, rbresponse, env)`: its return value (0 or -1),
the handle afterwards and the effects.  After the Array test (an empty Array sets
`IODINE_HTTP_EMPTY`, a one-element Array is replaced by its element) control always falls
through to `response_send_body`. -/
def ruby2c_response_send (handle : iodine_http_request_handle_s) (rbresponse : List VALUE) :
    Int × iodine_http_request_handle_s × List Effect :=
  let body := rb_ary_entry rbresponse 2
  if handle.h.status < 200 ∨ handle.h.status = 204 ∨ handle.h.status = 304 then
    (0, { handle with type := IODINE_HTTP_NONE },
      if rb_respond_to_close body then call_close body else [])
  else
    match body with
    | .ary [] => response_send_body { handle with type := IODINE_HTTP_EMPTY } body
    | .ary [x] => response_send_body handle x
    | _ => response_send_body handle body

/-! ## Upgrades -/

/-- The function `iodine_ws_attach(h, handler, env)`: nothing is registered with the engine
when the connection object could not be created. -/
def iodine_ws_attach (ext : Ext) : List Effect :=
  if ext.connection_new_nil then [Effect.iodine_connection_new]
  else [Effect.iodine_connection_new, Effect.http_upgrade2ws]

/-- The function `iodine_sse_attach(h, handler, env)`. -/
def iodine_sse_attach (ext : Ext) : List Effect :=
  if ext.connection_new_nil then [Effect.iodine_connection_new]
  else [Effect.iodine_connection_new, Effect.http_upgrade2sse]

/-- The label `upgraded:` of `ruby2c_review_upgrade`: close the response body if it is not
`nil` and responds to `close`, and return 1. -/
def upgraded (rbresponse : List VALUE) : Int × List Effect :=
  let handler := rb_ary_entry rbresponse 2
  (1, if not_nil handler && rb_respond_to_close handler then call_close handler else [])

/-- The label `tcp_ip_upgrade:` of `ruby2c_review_upgrade`, up to its `goto upgraded`. -/
def tcp_ip_upgrade : List Effect :=
  [Effect.http_hijack, Effect.http_finish, Effect.iodine_tcp_attch_uuid]

/-- The function `ruby2c_review_upgrade(req, rbresponse, env)`: its return value (1 when the
request was upgraded, 0 otherwise) and the effects. -/
def ruby2c_review_upgrade (ext : Ext) (req : iodine_http_request_handle_s)
    (rbresponse : List VALUE) (env : List (VALUE × VALUE)) : Int × List Effect :=
  if not_nil (rb_hash_aref env IODINE_R_HIJACK_CB) then
    (1, [Effect.http_finish, Effect.rb_call_hijack, Effect.rb_call_hijack_cb] ++
      (upgraded rbresponse).2)
  else if not_nil (rb_hash_aref env IODINE_R_HIJACK_IO_KEY) then
    upgraded rbresponse
  else if not_nil (rb_hash_aref env UPGRADE_TCP) then
    (1, tcp_ip_upgrade ++ (upgraded rbresponse).2)
  else
    match req.upgrade with
    | IODINE_UPGRADE_WEBSOCKET =>
      if not_nil (rb_hash_aref env RACK_UPGRADE) then
        (1, iodine_ws_attach ext ++ (upgraded rbresponse).2)
      else (0, [])
    | IODINE_UPGRADE_SSE =>
      if not_nil (rb_hash_aref env RACK_UPGRADE) then
        (1, iodine_sse_attach ext ++ (upgraded rbresponse).2)
      else (0, [])
    | IODINE_UPGRADE_NONE =>
      if not_nil (rb_hash_aref env RACK_UPGRADE) then
        (1, tcp_ip_upgrade ++ (upgraded rbresponse).2)
      else (0, [])

/-! ## The request driver -/

/-- The assignment `h->status = status`. -/
def set_status (handle : iodine_http_request_handle_s) (status : Nat) :
    iodine_http_request_handle_s :=
  { handle with h := { status := status } }

/-- The label `external_done:` of `iodine_handle_request_in_GVL`. -/
def external_done (handle : iodine_http_request_handle_s) (effs : List Effect) :
    iodine_http_request_handle_s × List Effect :=
  ({ handle with type := IODINE_HTTP_NONE },
    effs ++ [Effect.store_remove StoreRef.rbresponse, Effect.store_remove StoreRef.env])

/-- The label `err_not_found:` of `iodine_handle_request_in_GVL`. -/
def err_not_found (handle : iodine_http_request_handle_s) (effs : List Effect) :
    iodine_http_request_handle_s × List Effect :=
  ({ set_status handle 404 with type := IODINE_HTTP_ERROR },
    effs ++ [Effect.store_remove StoreRef.rbresponse, Effect.store_remove StoreRef.env])

/-- The label `internal_error:` of `iodine_handle_request_in_GVL`. -/
def internal_error (handle : iodine_http_request_handle_s) (effs : List Effect) :
    iodine_http_request_handle_s × List Effect :=
  ({ set_status handle 500 with type := IODINE_HTTP_ERROR },
    effs ++ [Effect.store_remove StoreRef.rbresponse, Effect.store_remove StoreRef.env])

/-- The status conversion at the head of `iodine_handle_request_in_GVL`: a String goes
through `fio_atol`, a Fixnum through `FIX2ULONG`, anything else is refused (`none`). -/
def response_status (ext : Ext) (tmp : VALUE) : Option Nat :=
  match tmp with
  | .str data => some (to_uintptr (ext.fio_atol data))
  | .fixnum n => some (to_uintptr n)
  | _ => none

/-- The test `support_xsendfile && (xfiles = rb_hash_aref(response_headers, XSENDFILE)) !=
Qnil && TYPE(xfiles) == T_STRING`, giving the bytes of `xfiles` when it holds. -/
def xsendfile_path (support_xsendfile : Bool) (response_headers : List (VALUE × VALUE)) :
    Option Bytes :=
  if support_xsendfile then
    match rb_hash_aref response_headers XSENDFILE with
    | .str xfiles => some xfiles
    | _ => none
  else none

/-- The effects of `iodine_handle_request_in_GVL` from its entry to the registration of the
response: `copy2env` (which registers `env` with the store), `IodineRackIO.create`, the call
of the application, `IodineRackIO.close`, and, unless the flag is false (the application
returned `nil`), `IodineStore.add(rbresponse)`. -/
def effs_call (registered : Bool) : List Effect :=
  [Effect.store_add StoreRef.env, Effect.rack_io_create, Effect.rb_call_app,
    Effect.rack_io_close] ++
    (if registered then [Effect.store_add StoreRef.rbresponse] else [])

/-- The function `iodine_handle_request_in_GVL(handle)`.  `udata` is the application
(`none` when `h->udata` is 0) given by what calling it leaves behind; `support_xsendfile`
is the static flag of that name.  The result is the handle afterwards and the effects. -/
def iodine_handle_request_in_GVL (ext : Ext) (support_xsendfile : Bool)
    (udata : Option AppCall) (handle : iodine_http_request_handle_s) :
    iodine_http_request_handle_s × List Effect :=
  match udata with
  | none => err_not_found handle []
  | some app =>
    match app.rbresponse with
    | none => internal_error handle (effs_call false)
    | some rbresponse =>
      match response_status ext (rb_ary_entry rbresponse 0) with
      | none => internal_error handle (effs_call true)
      | some st =>
        let handle1 := set_status handle st
        match rb_ary_entry rbresponse 1 with
        | .hash response_headers =>
          match xsendfile_path support_xsendfile response_headers with
          | some xfiles =>
            let headers1 :=
              rb_hash_delete (rb_hash_delete response_headers XSENDFILE) CONTENT_LENGTH_HEADER
            ({ handle1 with body := some xfiles, type := IODINE_HTTP_XSENDFILE },
              effs_call true ++ [Effect.store_add StoreRef.response_headers] ++
                rb_hash_foreach_headers ext headers1 ++
                [Effect.store_remove StoreRef.response_headers])
          | none =>
            let effs2 := effs_call true ++ rb_hash_foreach_headers ext response_headers
            let up : Int × List Effect :=
              if intptr_lt_300 st then ruby2c_review_upgrade ext handle1 rbresponse app.env
              else (0, [])
            if up.1 ≠ 0 then external_done handle1 (effs2 ++ up.2)
            else
              let r := ruby2c_response_send handle1 rbresponse
              if r.1 ≠ 0 then internal_error r.2.1 (effs2 ++ up.2 ++ r.2.2)
              else
                (r.2.1, effs2 ++ up.2 ++ r.2.2 ++
                  [Effect.store_remove StoreRef.rbresponse, Effect.store_remove StoreRef.env])
        | _ => internal_error handle1 (effs_call true)

/-- The bytes `fiobj_obj2cstr(body)` gives for the handle's body.  The function belongs to
the engine; for an unset body (the `FIOBJ` 0) it is taken to report length 0. -/
def fiobj_obj2cstr (body : Option Bytes) : Bytes :=
  body.getD []

/-- The function `iodine_perform_handle_action(handle)`. -/
def iodine_perform_handle_action (ext : Ext) (handle : iodine_http_request_handle_s) :
    List Effect :=
  match handle.type with
  | IODINE_HTTP_SENDBODY => [Effect.http_send_body (fiobj_obj2cstr handle.body)]
  | IODINE_HTTP_XSENDFILE =>
    (if ext.content_encoding_len = 7 then [Effect.delete_content_encoding] else []) ++
      (if ext.sendfile2_fails (fiobj_obj2cstr handle.body) then
        [Effect.http_sendfile2 (fiobj_obj2cstr handle.body) false, Effect.http_send_error 404]
      else [Effect.http_sendfile2 (fiobj_obj2cstr handle.body) true])
  | IODINE_HTTP_EMPTY => [Effect.http_finish]
  | IODINE_HTTP_NONE => []
  | IODINE_HTTP_ERROR => [Effect.http_send_error handle.h.status]

/-- The engine callback `on_rack_request(h)`: the handle after the GVL part and every
effect of the request, in order. -/
def on_rack_request (ext : Ext) (support_xsendfile : Bool) (udata : Option AppCall)
    (h : http_s) : iodine_http_request_handle_s × List Effect :=
  let handle : iodine_http_request_handle_s :=
    { h := h, body := none, type := IODINE_HTTP_NONE, upgrade := IODINE_UPGRADE_NONE }
  let r := iodine_handle_request_in_GVL ext support_xsendfile udata handle
  (r.1, r.2 ++ iodine_perform_handle_action ext r.1)

/-- The engine callback `on_rack_upgrade(h, proto, len)`. -/
def on_rack_upgrade (ext : Ext) (support_xsendfile : Bool) (udata : Option AppCall)
    (h : http_s) (proto : Bytes) (len : Nat) : iodine_http_request_handle_s × List Effect :=
  let upgrade :=
    if len = 9 ∧ (proto.get? 1 = some 'e' ∨ proto.get? 1 = some 'E') then
      IODINE_UPGRADE_WEBSOCKET
    else if len = 3 ∧ proto.get? 0 = some 's' then IODINE_UPGRADE_SSE
    else IODINE_UPGRADE_NONE
  let handle : iodine_http_request_handle_s :=
    { h := h, body := none, type := IODINE_HTTP_NONE, upgrade := upgrade }
  let r := iodine_handle_request_in_GVL ext support_xsendfile udata handle
  (r.1, r.2 ++ iodine_perform_handle_action ext r.1)

/-! ## Counting what answers a request -/

/-- The engine calls that complete the response handle of a request: a finished response,
a sent body, a file that was sent, an error status, a WebSocket or SSE upgrade. -/
def Effect.is_terminal : Effect → Bool
  | .http_finish => true
  | .http_send_body _ => true
  | .http_sendfile2 _ sent => sent
  | .http_send_error _ => true
  | .http_upgrade2ws => true
  | .http_upgrade2sse => true
  | _ => false

/-- The number of terminal engine calls in a run. -/
def terminal_count (effs : List Effect) : Nat :=
  effs.countP Effect.is_terminal

/-- The number of `close` calls made on Ruby objects in a run. -/
def close_count (effs : List Effect) : Nat :=
  effs.countP (fun e => match e with
    | .rb_close _ => true
    | _ => false)

/-! ## A sample outside world -/

/-- Modelled from the spec: the function `fio_atol` of facil.io (`fio.c`, not part of
`iodine_http.c`) on a numeric string, read as the value of its leading decimal digits. -/
def fio_atol_decimal (s : Bytes) : Int :=
  Int.ofNat ((s.takeWhile Char.isDigit).foldl (fun acc c => 10 * acc + (c.toNat - 48)) 0)

/-- A sample outside world for evaluating concrete runs: decimal `fio_atol`, a `to_s` that
renders `nil` as the empty String and a Fixnum in decimal and leaves other values alone, a
connection object that is always created and a file that is always found. -/
def sample_ext : Ext :=
  { fio_atol := fio_atol_decimal
    to_s := fun v => match v with
      | .Qnil => .str []
      | .fixnum n =>
        .str (if n < 0 then '-' :: Nat.toDigits 10 n.natAbs else Nat.toDigits 10 n.natAbs)
      | w => w
    connection_new_nil := false
    sendfile2_fails := fun _ => false
    content_encoding_len := 0 }

/-! ## Reference definitions for stating the results -/

/-- Reference for the header scan, in the words of the specification: the segments of the
value split on newline, where an empty value has no segment and one trailing newline does
not open a further segment. -/
def split_header_value (v : Bytes) : List Bytes :=
  if v = [] then [] else (if v.getLast? = some '\n' then v.dropLast else v).splitOn '\n'

/-! ## The request side: `copy2env` -/

/-- A value of the engine's request headers Hash `h->headers`: a String, or an Array of
Strings when the header came more than once. -/
inductive FIOBJ where
  | str (s : Bytes)
  | ary (xs : List Bytes)
  deriving DecidableEq, Repr

/-- The request side of the engine's `http_s`, as `copy2env` reads it: method, path, query
(`none` when `h->query` is 0), protocol version, the result of `http_peer_addr(h)` (empty
when the engine has no address) and the headers Hash in iteration order, keyed by name. -/
structure http_request_s where
  method : Bytes
  path : Bytes
  query : Option Bytes
  version : Bytes
  peer_addr : Bytes
  headers : List (Bytes × FIOBJ)
  deriving DecidableEq, Repr

/-- What `copy2env` gets from the engine and from memory without this file defining it.
A C string view (`fio_str_info_s`) is given by its bytes `data[0 .. len)`, `none` standing
for a NULL `data` pointer (with `len` 0). -/
structure ReqExt where
  /-- The view `fiobj_obj2cstr(0)` of a missing object. -/
  cstr_null : Option Bytes
  /-- The view `fiobj_obj2cstr(o)` of an Array. -/
  cstr_ary : List Bytes → Option Bytes
  /-- The bytes that follow the literal `"x-forwarded-proto"` and its NUL in memory: the
  call `fio_siphash("x-forwarded-proto", 27)` hashes 27 bytes of a 17-byte literal. -/
  after_xforward_literal : Bytes

/-- The call `fiobj_obj2cstr(o)` on a request-side object. -/
def obj2cstr (rx : ReqExt) : Option FIOBJ → Option Bytes
  | none => rx.cstr_null
  | some (.str s) => some s
  | some (.ary xs) => rx.cstr_ary xs

/-- The call `fiobj_hash_get2(headers, fio_siphash(name, len))`: the value stored under the
hashed bytes, hashes being taken as free of collisions. -/
def fiobj_hash_get2 (headers : List (Bytes × FIOBJ)) (name : Bytes) : Option FIOBJ :=
  (headers.find? (fun p => p.1 == name)).map (fun p => p.2)

/-- The call `fiobj_hash_delete2(headers, fio_siphash(name, len))`. -/
def fiobj_hash_delete2 (headers : List (Bytes × FIOBJ)) (name : Bytes) :
    List (Bytes × FIOBJ) :=
  headers.filter (fun p => !(p.1 == name))

/-- The call `rb_hash_aset(hash, key, val)` for a String key: the value of an existing key
is replaced in place, a new key is appended. -/
def rb_hash_aset (kvs : List (VALUE × VALUE)) (key : Bytes) (val : VALUE) :
    List (VALUE × VALUE) :=
  if kvs.any (fun p => key_is key p.1) then
    kvs.map (fun p => if key_is key p.1 then (p.1, val) else p)
  else kvs ++ [(VALUE.str key, val)]

/-! ### Constants set by `iodine_init_http` and Ruby's special objects -/

def REQUEST_METHOD : Bytes := "REQUEST_METHOD".toList
def PATH_INFO : Bytes := "PATH_INFO".toList
def QUERY_STRING : Bytes := "QUERY_STRING".toList
def SERVER_NAME : Bytes := "SERVER_NAME".toList
def SERVER_PORT : Bytes := "SERVER_PORT".toList
def CONTENT_LENGTH : Bytes := "CONTENT_LENGTH".toList
def CONTENT_TYPE : Bytes := "CONTENT_TYPE".toList
def SERVER_PROTOCOL : Bytes := "SERVER_PROTOCOL".toList
def HTTP_VERSION : Bytes := "HTTP_VERSION".toList
def REMOTE_ADDR : Bytes := "REMOTE_ADDR".toList
def R_URL_SCHEME : Bytes := "rack.url_scheme".toList
def XSENDFILE_TYPE : Bytes := "sendfile.type".toList
def XSENDFILE_TYPE_HEADER : Bytes := "HTTP_X_SENDFILE_TYPE".toList
def RACK_UPGRADE_Q : Bytes := "rack.upgrade?".toList

/-- The String `HTTP_SCHEME`. -/
def HTTP_SCHEME : VALUE := VALUE.str "http".toList

/-- The String `HTTPS_SCHEME`. -/
def HTTPS_SCHEME : VALUE := VALUE.str "https".toList

/-- The empty String `QUERY_ESTRING`. -/
def QUERY_ESTRING : VALUE := VALUE.str []

/-- The objects `true`, `false`, `$stderr` and the Symbols `:websocket` and `:sse`; the
numbers only tell them apart. -/
def Qtrue : VALUE := VALUE.obj 20 none false
def Qfalse : VALUE := VALUE.obj 0 none false
def rb_stderr : VALUE := VALUE.obj 2 (some []) true
def RACK_UPGRADE_WEBSOCKET : VALUE := VALUE.obj 101 none false
def RACK_UPGRADE_SSE : VALUE := VALUE.obj 102 none false

/-! ### The templates of `initialize_env_template` -/

/-- The Hash `env_template_no_upgrade` as `initialize_env_template` fills it; the values of
the standard keys are placeholders (the String `QUERY_STRING`).  The flag tells whether
`iodine_http_listen` was given a public folder, which adds the two X-Sendfile entries and
sets `support_xsendfile`. -/
def env_template_no_upgrade (support_xsendfile : Bool) : List (VALUE × VALUE) :=
  [(VALUE.str RACK_UPGRADE_Q, VALUE.Qnil),
   (VALUE.str RACK_UPGRADE, VALUE.Qnil),
   (VALUE.str "rack.version".toList, VALUE.ary [VALUE.fixnum 1, VALUE.fixnum 3]),
   (VALUE.str "SCRIPT_NAME".toList, VALUE.str []),
   (VALUE.str "rack.errors".toList, rb_stderr),
   (VALUE.str "rack.hijack?".toList, Qtrue),
   (VALUE.str "rack.multiprocess".toList, Qtrue),
   (VALUE.str "rack.multithread".toList, Qtrue),
   (VALUE.str "rack.run_once".toList, Qfalse),
   (VALUE.str R_URL_SCHEME, HTTP_SCHEME),
   (VALUE.str HTTP_VERSION, VALUE.str QUERY_STRING),
   (VALUE.str IODINE_R_HIJACK, VALUE.str QUERY_STRING),
   (VALUE.str PATH_INFO, VALUE.str QUERY_STRING),
   (VALUE.str QUERY_STRING, VALUE.str QUERY_STRING),
   (VALUE.str REMOTE_ADDR, VALUE.str QUERY_STRING),
   (VALUE.str REQUEST_METHOD, VALUE.str QUERY_STRING),
   (VALUE.str SERVER_NAME, VALUE.str QUERY_STRING),
   (VALUE.str SERVER_PORT, QUERY_ESTRING),
   (VALUE.str SERVER_PROTOCOL, VALUE.str QUERY_STRING)] ++
  (if support_xsendfile then
    [(VALUE.str XSENDFILE_TYPE, VALUE.str XSENDFILE),
     (VALUE.str XSENDFILE_TYPE_HEADER, VALUE.str XSENDFILE)]
   else [])

/-- The Hash `env_template_websockets`: a copy of the first template, taken before any
listener is set up, with `rack.upgrade?` set to `:websocket`. -/
def env_template_websockets : List (VALUE × VALUE) :=
  rb_hash_aset (env_template_no_upgrade false) RACK_UPGRADE_Q RACK_UPGRADE_WEBSOCKET

/-- The Hash `env_template_sse`. -/
def env_template_sse : List (VALUE × VALUE) :=
  rb_hash_aset (env_template_no_upgrade false) RACK_UPGRADE_Q RACK_UPGRADE_SSE

/-! ### `iodine_copy2env_task` -/

/-- The macro `to_upper(c)`: `c & ~32` for the bytes `a` to `z`. -/
def to_upper (c : Char) : Char :=
  if 97 ≤ c.toNat ∧ c.toNat ≤ 122 then Char.ofNat (c.toNat &&& 223) else c

/-- The byte stored for a byte of the header name:
`(tmp.data[i] == '-') ? '_' : to_upper(tmp.data[i])`. -/
def hname_byte (c : Char) : Char :=
  if c = '-' then '_' else to_upper c

/-- The loop `for (i = 0; i < tmp.len; ++i) buf[i + 5] = ...` on a buffer of `cap` bytes.
`buf` is the part of the buffer written so far, `i` the index in the name; a write at an
index outside the buffer gives `none`. -/
def hname_fill (cap : Nat) : List Char → Nat → Bytes → Option Bytes
  | [], _, buf => some buf
  | c :: cs, i, buf =>
    if i + 5 < cap then hname_fill cap cs (i + 1) (buf ++ [hname_byte c]) else none

/-- The header name built by `iodine_copy2env_task`: in a heap buffer of `tmp.len + 5` bytes
for a name of more than 59 bytes, in `char buf[64]` otherwise; in both the first five bytes
are `HTTP_` and the String made of the buffer has `tmp.len + 5` bytes. -/
def copy2env_hname (name : Bytes) : Option Bytes :=
  if name.length > 59 then hname_fill (name.length + 5) name 0 "HTTP_".toList
  else hname_fill 64 name 0 "HTTP_".toList

/-- The callback `iodine_copy2env_task(o, env)` for the header `name`: a String value is
stored as a String, an Array as an Array of Strings. -/
def iodine_copy2env_task (env : List (VALUE × VALUE)) (name : Bytes) (o : FIOBJ) :
    Option (List (VALUE × VALUE)) :=
  match copy2env_hname name with
  | none => none
  | some hname =>
    match o with
    | .str s => some (rb_hash_aset env hname (VALUE.str s))
    | .ary xs => some (rb_hash_aset env hname (VALUE.ary (xs.map VALUE.str)))

/-- The call `fiobj_each1(h->headers, 0, iodine_copy2env_task, env)`. -/
def fiobj_each1_copy2env : List (Bytes × FIOBJ) → List (VALUE × VALUE) →
    Option (List (VALUE × VALUE))
  | [], env => some env
  | (name, o) :: rest, env =>
    match iodine_copy2env_task env name o with
    | none => none
    | some env1 => fiobj_each1_copy2env rest env1

/-! ### The steps of `copy2env` -/

/-- The scan `while (*pos && *pos != ':') pos++;` over a NUL-terminated string: the number
of bytes before the first NUL or colon (the end of the list is the terminating NUL). -/
def host_scan : Bytes → Nat
  | [] => 0
  | c :: cs => if c ≠ '\x00' ∧ c ≠ ':' then host_scan cs + 1 else 0

/-- The Host step of `copy2env` on the view `tmp` of the Host header: `SERVER_NAME` and
`SERVER_PORT`.  A NULL `data` pointer is dereferenced by the scan (`none`). -/
def copy2env_host (tmp : Option Bytes) (env : List (VALUE × VALUE)) :
    Option (List (VALUE × VALUE)) :=
  match tmp with
  | none => none
  | some data =>
    let pos := host_scan data
    if data.getD pos '\x00' = '\x00' then
      some (rb_hash_aset (rb_hash_aset env SERVER_NAME (VALUE.str data))
        SERVER_PORT QUERY_ESTRING)
    else
      some (rb_hash_aset (rb_hash_aset env SERVER_NAME (VALUE.str (data.take pos)))
        SERVER_PORT (VALUE.str ((data.drop (pos + 1)).take (data.length - (pos + 1)))))

/-- The byte at index `i` of a NUL-terminated string: the terminator sits at the index equal
to the length, and any index beyond is outside the string (`none`). -/
def cstr_at (s : Bytes) (i : Nat) : Option Char :=
  if i < s.length then s.get? i
  else if i = s.length then some '\x00'
  else none

/-- The value `c | 32`. -/
def or32 (c : Char) : Nat :=
  c.toNat ||| 32

/-- A chain `((*(pos++) | 32) == c1) && ((*(pos++) | 32) == c2) && ...` from `pos`: whether
all bytes matched and the value of `pos` afterwards (the byte that fails is consumed too);
`none` when a byte outside the string is read. -/
def match_chain (s : Bytes) : List Char → Nat → Option (Bool × Nat)
  | [], pos => some (true, pos)
  | c :: cs, pos =>
    match cstr_at s pos with
    | none => none
    | some x => if or32 x = c.toNat then match_chain s cs (pos + 1) else some (false, pos + 1)

/-- How the scan of the `Forwarded` header ends. -/
inductive forwarded_result where
  | out_of_bounds
  | out_of_fuel
  | no_proto
  | HTTPS
  | HTTP
  | raw (token : Bytes)
  deriving DecidableEq, Repr

/-- The body of the `if` once `proto=` was matched and `pos` stands after it: `http` followed
by `s` gives `HTTPS_SCHEME`, `http` followed by anything else gives `HTTP_SCHEME`, otherwise
the bytes up to the next `;` or NUL are taken. -/
def forwarded_token (s : Bytes) (pos : Nat) : forwarded_result :=
  match match_chain s "http".toList pos with
  | none => forwarded_result.out_of_bounds
  | some (true, _) =>
    match cstr_at s (pos + 4) with
    | none => forwarded_result.out_of_bounds
    | some x =>
      if or32 x = 's'.toNat then forwarded_result.HTTPS else forwarded_result.HTTP
  | some (false, _) =>
    if pos ≤ s.length then
      forwarded_result.raw ((s.drop pos).takeWhile (fun c => c != '\x00' && c != ';'))
    else forwarded_result.out_of_bounds

/-- The loop `while (*pos) { if (... proto= ...) { ...; break; } }` of `copy2env` from `pos`;
the first argument bounds the number of iterations. -/
def forwarded_loop (s : Bytes) : Nat → Nat → forwarded_result
  | 0, _ => forwarded_result.out_of_fuel
  | fuel + 1, pos =>
    match cstr_at s pos with
    | none => forwarded_result.out_of_bounds
    | some c =>
      if c = '\x00' then forwarded_result.no_proto
      else
        match match_chain s "proto=".toList pos with
        | none => forwarded_result.out_of_bounds
        | some (true, p) => forwarded_token s p
        | some (false, p) => forwarded_loop s fuel p

/-- The scan of a `Forwarded` header value; every iteration moves `pos` forward, so the
length plus two bounds the iterations. -/
def forwarded_scan (s : Bytes) : forwarded_result :=
  forwarded_loop s (s.length + 2) 0

/-- The 27 bytes hashed for the `X-Forwarded-Proto` lookup. -/
def xforward_key (rx : ReqExt) : Bytes :=
  "x-forwarded-proto".toList ++ '\x00' :: rx.after_xforward_literal

/-- The scheme step of `copy2env`: `X-Forwarded-Proto` first, else `Forwarded`, else the
template's value stays.  A read outside the `Forwarded` value gives `none`. -/
def copy2env_scheme (rx : ReqExt) (headers : List (Bytes × FIOBJ))
    (env : List (VALUE × VALUE)) : Option (List (VALUE × VALUE)) :=
  match fiobj_hash_get2 headers (xforward_key rx) with
  | some o =>
    let data := (obj2cstr rx (some o)).getD []
    if data.length ≥ 5 ∧ (data.take 5).map tolower = "https".toList then
      some (rb_hash_aset env R_URL_SCHEME HTTPS_SCHEME)
    else if data.length = 4 ∧ (data.take 4).map tolower = "http".toList then
      some (rb_hash_aset env R_URL_SCHEME HTTP_SCHEME)
    else some (rb_hash_aset env R_URL_SCHEME (VALUE.str data))
  | none =>
    match fiobj_hash_get2 headers "forwarded".toList with
    | some o =>
      match obj2cstr rx (some o) with
      | none => some env
      | some s =>
        match forwarded_scan s with
        | forwarded_result.out_of_bounds => none
        | forwarded_result.out_of_fuel => none
        | forwarded_result.no_proto => some env
        | forwarded_result.HTTPS => some (rb_hash_aset env R_URL_SCHEME HTTPS_SCHEME)
        | forwarded_result.HTTP => some (rb_hash_aset env R_URL_SCHEME HTTP_SCHEME)
        | forwarded_result.raw token => some (rb_hash_aset env R_URL_SCHEME (VALUE.str token))
    | none => some env

/-- The first part of `copy2env`: the copy of the template chosen by the upgrade class and
the entries taken from the request line and the peer address. -/
def copy2env_basic (support_xsendfile : Bool) (upgrade : iodine_upgrade_type_enum)
    (h : http_request_s) : List (VALUE × VALUE) :=
  let env0 :=
    match upgrade with
    | IODINE_UPGRADE_WEBSOCKET => env_template_websockets
    | IODINE_UPGRADE_SSE => env_template_sse
    | IODINE_UPGRADE_NONE => env_template_no_upgrade support_xsendfile
  let env1 := rb_hash_aset env0 REQUEST_METHOD (VALUE.str h.method)
  let env2 := rb_hash_aset env1 PATH_INFO (VALUE.str h.path)
  let env3 :=
    match h.query with
    | some q => rb_hash_aset env2 QUERY_STRING (if q.length ≠ 0 then VALUE.str q else QUERY_ESTRING)
    | none => rb_hash_aset env2 QUERY_STRING QUERY_ESTRING
  let env4 := rb_hash_aset env3 SERVER_PROTOCOL (VALUE.str h.version)
  let env5 := rb_hash_aset env4 HTTP_VERSION (VALUE.str h.version)
  if h.peer_addr.length ≠ 0 then rb_hash_aset env5 REMOTE_ADDR (VALUE.str h.peer_addr)
  else env5

/-- The `Content-Length` step of `copy2env`: the environment and the request headers
afterwards. -/
def copy2env_content_length (rx : ReqExt) (headers : List (Bytes × FIOBJ))
    (env : List (VALUE × VALUE)) : List (VALUE × VALUE) × List (Bytes × FIOBJ) :=
  match fiobj_hash_get2 headers "content-length".toList with
  | some cl =>
    match obj2cstr rx (some cl) with
    | some data =>
      (rb_hash_aset env CONTENT_LENGTH (VALUE.str data),
        fiobj_hash_delete2 headers "content-length".toList)
    | none => (env, headers)
  | none => (env, headers)

/-- The `Content-Type` step of `copy2env`: only a non-empty value is moved; the third
component is what the step prints to `stderr` (`%s` stops at the first NUL). -/
def copy2env_content_type (rx : ReqExt) (headers : List (Bytes × FIOBJ))
    (env : List (VALUE × VALUE)) :
    List (VALUE × VALUE) × List (Bytes × FIOBJ) × List Bytes :=
  match fiobj_hash_get2 headers "content-type".toList with
  | some ct =>
    match obj2cstr rx (some ct) with
    | some data =>
      if data.length ≠ 0 then
        (rb_hash_aset env CONTENT_TYPE (VALUE.str data),
          fiobj_hash_delete2 headers "content-type".toList,
          ["Content type: ".toList ++ data.takeWhile (fun c => c != '\x00') ++ ['\n']])
      else (env, headers, [])
    | none => (env, headers, [])
  | none => (env, headers, [])

/-- What `copy2env` leaves behind: the environment, the request headers `h->headers` (from
which `Content-Length` and `Content-Type` may have been removed) and the lines printed to
`stderr`. -/
structure copy2env_result where
  env : List (VALUE × VALUE)
  headers : List (Bytes × FIOBJ)
  stderr : List Bytes

/-- The function `copy2env(handle)`; `none` when the C code reads through a NULL pointer or
outside a string.  The registration of the environment with the store is recorded by
`effs_call`. -/
def copy2env (rx : ReqExt) (support_xsendfile : Bool) (upgrade : iodine_upgrade_type_enum)
    (h : http_request_s) : Option copy2env_result :=
  let env1 := copy2env_basic support_xsendfile upgrade h
  match copy2env_host (obj2cstr rx (fiobj_hash_get2 h.headers "host".toList)) env1 with
  | none => none
  | some env2 =>
    let cl := copy2env_content_length rx h.headers env2
    let ct := copy2env_content_type rx cl.2 cl.1
    match copy2env_scheme rx ct.2.1 ct.1 with
    | none => none
    | some env3 =>
      match fiobj_each1_copy2env ct.2.1 env3 with
      | none => none
      | some env4 => some { env := env4, headers := ct.2.1, stderr := ct.2.2 }

/-- A sample engine for evaluating concrete requests: a missing object and an Array have the
empty view, and the bytes after the literal are nine spaces. -/
def sample_rx : ReqExt :=
  { cstr_null := some []
    cstr_ary := fun _ => some []
    after_xforward_literal := "         ".toList }

/-- The number of entries of a Hash stored under the String `key`. -/
def key_count (kvs : List (VALUE × VALUE)) (key : Bytes) : Nat :=
  kvs.countP (fun p => key_is key p.1)

/-- The key of a generic header in the words of the specification: `HTTP_` followed by the
name with each ASCII lowercase letter uppercased, each `-` replaced by `_` and every other
byte unchanged. -/
def spec_header_key (n : Bytes) : Bytes :=
  "HTTP_".toList ++ n.map (fun c => if c = '-' then '_' else if c.isLower then c.toUpper else c)

/-- A sample request: `GET /a?x=1` over HTTP/1.1 for the host `example.com:8080`. -/
def sample_request : http_request_s :=
  { method := "GET".toList
    path := "/a".toList
    query := some "x=1".toList
    version := "HTTP/1.1".toList
    peer_addr := "10.0.0.1".toList
    headers := [("host".toList, FIOBJ.str "example.com:8080".toList),
      ("accept".toList, FIOBJ.ary ["text/html".toList, "text/plain".toList])] }

/-- The sample request with one more header, named `version`. -/
def version_request : http_request_s :=
  { sample_request with
    headers := sample_request.headers ++ [("version".toList, FIOBJ.str "2".toList)] }

/-- The sample request with a body announced by `Content-Length` and `Content-Type`. -/
def post_request : http_request_s :=
  { sample_request with
    method := "POST".toList
    headers := sample_request.headers ++
      [("content-length".toList, FIOBJ.str "5".toList),
        ("content-type".toList, FIOBJ.str "text/plain".toList)] }

/-- The sample request with a `Content-Type` header whose value is empty. -/
def empty_content_type_request : http_request_s :=
  { sample_request with
    headers := sample_request.headers ++ [("content-type".toList, FIOBJ.str [])] }

/-- The key `HTTP_CONTENT_LENGTH`. -/
def HTTP_CONTENT_LENGTH : Bytes := "HTTP_CONTENT_LENGTH".toList

/-- The key `HTTP_CONTENT_TYPE`. -/
def HTTP_CONTENT_TYPE : Bytes := "HTTP_CONTENT_TYPE".toList

/-- The sample request with one more header, `Forwarded`, of the given value. -/
def forwarded_request (v : Bytes) : http_request_s :=
  { sample_request with
    headers := sample_request.headers ++ [("forwarded".toList, FIOBJ.str v)] }

/-- The sample request with one more header, `X-Forwarded-Proto: https`, and no `Forwarded`
header. -/
def xforwarded_proto_request : http_request_s :=
  { sample_request with
    headers := sample_request.headers ++
      [("x-forwarded-proto".toList, FIOBJ.str "https".toList)] }

/-! ## Listening: the two 0-255 settings of `iodine_http_listen` -/

/-- The test `tmp != Qnil && tmp != Qfalse`. -/
def not_nil_nor_false : VALUE → Bool
  | .Qnil => false
  | .obj 0 none false => false
  | _ => true

/-- The pair `Check_Type(tmp, T_FIXNUM); x = FIX2ULONG(tmp);`: anything but a Fixnum raises
a `TypeError` (`none`). -/
def check_fix2ulong : VALUE → Option Nat
  | .fixnum n => some (to_uintptr n)
  | _ => none

/-- The macro `FIX2INT(x)` of the Ruby C API on the machine word `x` read as a `VALUE`: a
word with its low bit set is the Fixnum `x >> 1`; any other word is no Fixnum, and what
Ruby does with it (an exception, or a read through it as the address of an object) is not
a number handed on (`none`). -/
def FIX2INT (x : Nat) : Option Nat :=
  if x % 2 = 1 then some (x / 2) else none

/-- The warning printed for a `ping` above 255. -/
def PING_WARNING : Bytes :=
  "Iodine Warning: Websocket timeout value is over 255 and will be ignored.\n".toList

/-- The warning printed for a `timeout` above 255. -/
def TIMEOUT_WARNING : Bytes :=
  "Iodine Warning: HTTP timeout value is over 255 and is silently ignored.\n".toList

/-- The lines of `iodine_http_listen` that compute the C variable `ping` from the option
(looked up in `opt`, and in `iodine_default_args` when that gives `nil`): its final value
and the warnings printed. -/
def iodine_http_listen_ping (opt_ping default_ping : VALUE) : Option (Nat × List Bytes) :=
  let tmp := match opt_ping with
    | .Qnil => default_ping
    | v => v
  let ping := if not_nil_nor_false tmp then check_fix2ulong tmp else some 0
  match ping with
  | none => none
  | some p => if p > 255 then some (0, [PING_WARNING]) else some (p, [])

/-- The lines of `iodine_http_listen` that compute the C variable `tout` from the option
`timeout`: after `tout = FIX2ULONG(tout)` the variable holds the number itself. -/
def iodine_http_listen_tout (opt_timeout default_timeout : VALUE) :
    Option (Nat × List Bytes) :=
  let tout := match opt_timeout with
    | .Qnil => default_timeout
    | v => v
  let tout1 := if not_nil_nor_false tout then check_fix2ulong tout else some 0
  match tout1 with
  | none => none
  | some t => if t > 255 then some (0, [TIMEOUT_WARNING]) else some (t, [])

/-- The two settings as `http_listen` receives them, and the warnings printed before. -/
structure listen_timeouts where
  timeout : Nat
  ws_timeout : Nat
  warnings : List Bytes
  deriving DecidableEq, Repr

/-- The arguments `.timeout = (tout ? FIX2INT(tout) : tout)` and `.ws_timeout = ping` of the
call of `http_listen` in `iodine_http_listen`, for the four option values involved; `none`
when no number reaches the engine.  The other options are taken to pass their checks. -/
def iodine_http_listen_timeouts (opt_ping default_ping opt_timeout default_timeout : VALUE) :
    Option listen_timeouts :=
  match iodine_http_listen_ping opt_ping default_ping with
  | none => none
  | some (ping, w1) =>
    match iodine_http_listen_tout opt_timeout default_timeout with
    | none => none
    | some (tout, w2) =>
      match (if tout ≠ 0 then FIX2INT tout else some tout) with
      | none => none
      | some timeout => some { timeout := timeout, ws_timeout := ping, warnings := w1 ++ w2 }

/-! ## Upgraded connections: the callbacks registered by `iodine_ws_attach` and
`iodine_sse_attach` -/

/-- The events passed to `iodine_connection_fire_event` in this file. -/
inductive iodine_connection_event_type_e where
  | IODINE_CONNECTION_ON_OPEN
  | IODINE_CONNECTION_ON_MESSAGE
  | IODINE_CONNECTION_ON_DRAINED
  | IODINE_CONNECTION_ON_SHUTDOWN
  | IODINE_CONNECTION_ON_CLOSE
  deriving DecidableEq, Repr

open iodine_connection_event_type_e

/-- The two fields of `iodine_connection_s` (declared in `iodine_connection.h`) that this
file sets: the protocol handle `arg` (`none` is NULL, otherwise the engine's `ws_s *` or
`http_sse_s *`) and the session identifier `uuid`. -/
structure iodine_connection_s where
  arg : Option Nat
  uuid : Int
  deriving DecidableEq, Repr

/-- Modelled from the spec: the function `iodine_connection_new` of `iodine_connection.c`
(not part of `iodine_http.c`): the connection object created at upgrade time holds the
settings it is given, here the protocol handle and the session identifier. -/
def iodine_connection_new (arg : Option Nat) (uuid : Int) : iodine_connection_s :=
  { arg := arg, uuid := uuid }

/-- The connection object `io` of `iodine_ws_attach`,
`iodine_connection_new(.type = IODINE_CONNECTION_WEBSOCKET, .arg = NULL, .handler = handler,
.env = env, .uuid = 0)`; `none` when the call gave `Qnil` and nothing is registered. -/
def iodine_ws_attach_io (ext : Ext) : Option iodine_connection_s :=
  if ext.connection_new_nil then none else some (iodine_connection_new none 0)

/-- The connection object `io` of `iodine_sse_attach`. -/
def iodine_sse_attach_io (ext : Ext) : Option iodine_connection_s :=
  if ext.connection_new_nil then none else some (iodine_connection_new none 0)

/-- What a connection callback does besides writing the connection object: a call of
`iodine_connection_fire_event(io, ev, data)` with the message (bytes and `is_text`) if any
and the fields of `io` at the time of the call, the assignment
`sse->on_ready = iodine_sse_on_ready`, and `fio_force_event(uuid, FIO_EVENT_ON_READY)`. -/
inductive connection_action where
  | fire_event (ev : iodine_connection_event_type_e) (data : Option (Bytes × Bool))
      (io : iodine_connection_s)
  | set_on_ready
  | fio_force_event (uuid : Int)
  deriving DecidableEq, Repr

/-- The callback `iodine_ws_on_message(ws, data, is_text)` on the connection `c` found in
the handle's `udata`. -/
def iodine_ws_on_message (c : iodine_connection_s) (data : Bytes) (is_text : Bool) :
    iodine_connection_s × List connection_action :=
  (c, [connection_action.fire_event IODINE_CONNECTION_ON_MESSAGE (some (data, is_text)) c])

/-- The callback `iodine_ws_on_open(ws)`: `ws_uuid` is what `websocket_uuid(ws)` gives. -/
def iodine_ws_on_open (_c : iodine_connection_s) (ws : Nat) (ws_uuid : Int) :
    iodine_connection_s × List connection_action :=
  let c1 : iodine_connection_s := { arg := some ws, uuid := ws_uuid }
  (c1, [connection_action.fire_event IODINE_CONNECTION_ON_OPEN none c1])

/-- The callback `iodine_ws_on_ready(ws)`. -/
def iodine_ws_on_ready (c : iodine_connection_s) :
    iodine_connection_s × List connection_action :=
  (c, [connection_action.fire_event IODINE_CONNECTION_ON_DRAINED none c])

/-- The callback `iodine_ws_on_shutdown(ws)`. -/
def iodine_ws_on_shutdown (c : iodine_connection_s) :
    iodine_connection_s × List connection_action :=
  (c, [connection_action.fire_event IODINE_CONNECTION_ON_SHUTDOWN none c])

/-- The callback `iodine_ws_on_close(uuid, udata)`; the `uuid` argument is not used. -/
def iodine_ws_on_close (c : iodine_connection_s) (_uuid : Int) :
    iodine_connection_s × List connection_action :=
  (c, [connection_action.fire_event IODINE_CONNECTION_ON_CLOSE none c])

/-- A callback delivered by the engine to a WebSocket connection, with its arguments. -/
inductive ws_callback where
  | on_open (ws : Nat) (ws_uuid : Int)
  | on_message (data : Bytes) (is_text : Bool)
  | on_ready
  | on_shutdown
  | on_close (uuid : Int)
  deriving DecidableEq, Repr

/-- The function the engine calls for a callback, as registered by `http_upgrade2ws` in
`iodine_ws_attach`. -/
def ws_deliver (c : iodine_connection_s) :
    ws_callback → iodine_connection_s × List connection_action
  | .on_open ws ws_uuid => iodine_ws_on_open c ws ws_uuid
  | .on_message data is_text => iodine_ws_on_message c data is_text
  | .on_ready => iodine_ws_on_ready c
  | .on_shutdown => iodine_ws_on_shutdown c
  | .on_close uuid => iodine_ws_on_close c uuid

/-- A sequence of callbacks delivered to one WebSocket connection. -/
def ws_deliver_all : iodine_connection_s → List ws_callback →
    iodine_connection_s × List connection_action
  | c, [] => (c, [])
  | c, cb :: rest =>
    let r := ws_deliver c cb
    let r2 := ws_deliver_all r.1 rest
    (r2.1, r.2 ++ r2.2)

/-- The callback `iodine_sse_on_open(sse)`: `sse_uuid` is what `http_sse2uuid(sse)` gives. -/
def iodine_sse_on_open (_c : iodine_connection_s) (sse : Nat) (sse_uuid : Int) :
    iodine_connection_s × List connection_action :=
  let c1 : iodine_connection_s := { arg := some sse, uuid := sse_uuid }
  (c1, [connection_action.fire_event IODINE_CONNECTION_ON_OPEN none c1,
    connection_action.set_on_ready, connection_action.fio_force_event c1.uuid])

/-- The callback `iodine_sse_on_ready(sse)`. -/
def iodine_sse_on_ready (c : iodine_connection_s) :
    iodine_connection_s × List connection_action :=
  (c, [connection_action.fire_event IODINE_CONNECTION_ON_DRAINED none c])

/-- The callback `iodine_sse_on_shutdown(sse)`. -/
def iodine_sse_on_shutdown (c : iodine_connection_s) :
    iodine_connection_s × List connection_action :=
  (c, [connection_action.fire_event IODINE_CONNECTION_ON_SHUTDOWN none c])

/-- The callback `iodine_sse_on_close(sse)`. -/
def iodine_sse_on_close (c : iodine_connection_s) :
    iodine_connection_s × List connection_action :=
  (c, [connection_action.fire_event IODINE_CONNECTION_ON_CLOSE none c])

/-- A callback delivered by the engine to an SSE connection. -/
inductive sse_callback where
  | on_open (sse : Nat) (sse_uuid : Int)
  | on_ready
  | on_shutdown
  | on_close
  deriving DecidableEq, Repr

/-- The function the engine calls for a callback of an SSE connection, as registered by
`http_upgrade2sse` in `iodine_sse_attach`; the flag tells whether `sse->on_ready` has been
set (it is registered as NULL and set by `iodine_sse_on_open`). -/
def sse_deliver (c : iodine_connection_s) (on_ready_set : Bool) :
    sse_callback → iodine_connection_s × Bool × List connection_action
  | .on_open sse sse_uuid =>
    ((iodine_sse_on_open c sse sse_uuid).1, true, (iodine_sse_on_open c sse sse_uuid).2)
  | .on_ready =>
    if on_ready_set then ((iodine_sse_on_ready c).1, on_ready_set, (iodine_sse_on_ready c).2)
    else (c, on_ready_set, [])
  | .on_shutdown => ((iodine_sse_on_shutdown c).1, on_ready_set, (iodine_sse_on_shutdown c).2)
  | .on_close => ((iodine_sse_on_close c).1, on_ready_set, (iodine_sse_on_close c).2)

/-- A sequence of callbacks delivered to one SSE connection. -/
def sse_deliver_all : iodine_connection_s → Bool → List sse_callback →
    iodine_connection_s × Bool × List connection_action
  | c, b, [] => (c, b, [])
  | c, b, cb :: rest =>
    let r := sse_deliver c b cb
    let r2 := sse_deliver_all r.1 r.2.1 rest
    (r2.1, r2.2.1, r.2.2 ++ r2.2.2)

/-- The events the application handler is notified of, in order, with the connection as it
is at each notification. -/
def fired_events : List connection_action →
    List (iodine_connection_event_type_e × iodine_connection_s)
  | [] => []
  | connection_action.fire_event ev _ io :: rest => (ev, io) :: fired_events rest
  | _ :: rest => fired_events rest

/-- The application event matching a WebSocket callback, in the words of the
specification: Open, Message, Drained, Shutdown, Close. -/
def spec_ws_event : ws_callback → iodine_connection_event_type_e
  | .on_open _ _ => IODINE_CONNECTION_ON_OPEN
  | .on_message _ _ => IODINE_CONNECTION_ON_MESSAGE
  | .on_ready => IODINE_CONNECTION_ON_DRAINED
  | .on_shutdown => IODINE_CONNECTION_ON_SHUTDOWN
  | .on_close _ => IODINE_CONNECTION_ON_CLOSE

/-! # Results

## Helper lemmas: the header scan -/

theorem scan_newline_eq (v : Bytes) : ∀ (fuel p : Nat), v.length - p ≤ fuel →
    scan_newline v v.length fuel p = p + ((v.drop p).takeWhile (fun c => c != '\n')).length := by
  intro fuel
  induction fuel with
  | zero =>
    intro p hp
    have h : v.length ≤ p := by omega
    simp [scan_newline, List.drop_eq_nil_of_le h]
  | succ n ih =>
    intro p hp
    unfold scan_newline
    by_cases hlt : p < v.length
    · have hd : v.drop p = v[p] :: v.drop (p + 1) := List.drop_eq_getElem_cons hlt
      have hg : v.get? p = some v[p] := by
        rw [List.get?_eq_getElem?]; exact List.getElem?_eq_getElem hlt
      by_cases hc : v[p] = '\n'
      · rw [if_neg (by rw [hg, hc]; simp), hd, hc]
        simp
      · rw [if_pos ⟨hlt, by rw [hg]; simpa using hc⟩, ih (p + 1) (by omega), hd,
          List.takeWhile_cons_of_pos (by simpa using hc)]
        simp; omega
    · have h : v.length ≤ p := by omega
      simp [hlt, List.drop_eq_nil_of_le h]

theorem takeWhile_no_newline (l : Bytes) :
    ∀ c ∈ l.takeWhile (fun c => c != '\n'), ¬ ((c == '\n') = true) := by
  intro c hc
  have := List.mem_takeWhile_imp hc
  simpa using this

theorem dropWhile_newline_cases (l : Bytes) :
    l.dropWhile (fun c => c != '\n') = [] ∨
      ∃ r, l.dropWhile (fun c => c != '\n') = '\n' :: r := by
  induction l with
  | nil => left; rfl
  | cons a t ih =>
    by_cases ha : a = '\n'
    · right; exact ⟨t, by simp [List.dropWhile, ha]⟩
    · have h : List.dropWhile (fun c => c != '\n') (a :: t)
          = List.dropWhile (fun c => c != '\n') t := by
        simp [List.dropWhile_cons, ha]
      rw [h]; exact ih

theorem split_header_value_single (seg : Bytes) (hne : seg ≠ [])
    (hseg : ∀ c ∈ seg, ¬ ((c == '\n') = true)) : split_header_value seg = [seg] := by
  have hlast : seg.getLast? ≠ some '\n' := by
    intro h
    have hmem : '\n' ∈ seg := List.mem_of_getLast?_eq_some h
    exact hseg _ hmem (by simp)
  unfold split_header_value
  rw [if_neg hne, if_neg hlast]
  exact List.splitOnP_eq_single _ _ hseg

theorem split_header_value_cons (seg r : Bytes)
    (hseg : ∀ c ∈ seg, ¬ ((c == '\n') = true)) :
    split_header_value (seg ++ '\n' :: r) = seg :: split_header_value r := by
  have hne : seg ++ '\n' :: r ≠ [] := by simp
  unfold split_header_value
  rw [if_neg hne]
  by_cases hr : r = []
  · subst hr
    have h1 : (seg ++ ['\n']).getLast? = some '\n' := by simp
    have h2 : (seg ++ ['\n']).dropLast = seg := by simp
    rw [if_pos h1, h2, if_pos rfl]
    exact List.splitOnP_eq_single _ _ hseg
  · rw [if_neg hr]
    obtain ⟨b, t, rfl⟩ := List.exists_cons_of_ne_nil hr
    have h1 : (seg ++ '\n' :: b :: t).getLast? = (b :: t).getLast? := by
      rw [List.getLast?_append_cons, List.getLast?_cons_cons]
    have h2 : (seg ++ '\n' :: b :: t).dropLast = seg ++ '\n' :: (b :: t).dropLast := by
      rw [List.dropLast_append_cons, List.dropLast_cons_of_ne_nil (by simp)]
    rw [h1, h2]
    by_cases hl : (b :: t).getLast? = some '\n'
    · rw [if_pos hl, if_pos hl]
      exact List.splitOnP_first _ _ hseg '\n' (by simp) _
    · rw [if_neg hl, if_neg hl]
      exact List.splitOnP_first _ _ hseg '\n' (by simp) _

theorem header_values_past_end (v : Bytes) (fuel p : Nat) (hp : v.length ≤ p) :
    header_values v v.length fuel p p = [] := by
  cases fuel with
  | zero => rfl
  | succ n => simp [header_values, Nat.not_lt.mpr hp]

theorem header_values_eq_aux (v : Bytes) : ∀ (fuel p : Nat), p ≤ v.length →
    v.length - p < fuel →
    header_values v v.length fuel p p = split_header_value (v.drop p) := by
  intro fuel
  induction fuel with
  | zero => intro p _ h; omega
  | succ n ih =>
    intro p hp hfuel
    by_cases hlt : p < v.length
    · have hsplit := List.takeWhile_append_dropWhile (fun c => c != '\n') (v.drop p)
      have hscan := scan_newline_eq v v.length p (by omega)
      have hlen : (v.drop p).length = v.length - p := List.length_drop p v
      have hno := takeWhile_no_newline (v.drop p)
      have hcases := dropWhile_newline_cases (v.drop p)
      unfold header_values
      rw [if_pos hlt]
      simp only [hscan, Nat.add_sub_cancel_left]
      generalize (v.drop p).takeWhile (fun c => c != '\n') = seg at hsplit hno ⊢
      generalize (v.drop p).dropWhile (fun c => c != '\n') = dw at hsplit hcases
      have htake : List.take seg.length (v.drop p) = seg := by
        rw [← hsplit]; exact List.take_left _ _
      rw [htake]
      rcases hcases with hd | ⟨r, hd⟩
      · subst hd
        rw [List.append_nil] at hsplit
        have hl : seg.length = v.length - p := by rw [hsplit, hlen]
        rw [header_values_past_end v n _ (by omega), ← hsplit]
        have hne : seg ≠ [] := by
          intro h; rw [h] at hl; simp at hl; omega
        exact (split_header_value_single _ hne hno).symm
      · subst hd
        have hl : seg.length + 1 + r.length = v.length - p := by
          rw [← hlen, ← hsplit]
          simp; omega
        have hdrop : v.drop (p + seg.length + 1) = r := by
          rw [Nat.add_assoc, ← List.drop_drop, ← hsplit, ← List.drop_drop, List.drop_left]
          rfl
        rw [ih _ (by omega) (by omega), hdrop, ← hsplit]
        exact (split_header_value_cons _ _ hno).symm
    · have h : p = v.length := by omega
      subst h
      rw [header_values_past_end v _ _ (le_refl _)]
      simp [split_header_value]

theorem header_values_eq (v : Bytes) :
    header_values v v.length (v.length + 1) 0 0 = split_header_value v := by
  have := header_values_eq_aux v (v.length + 1) 0 (Nat.zero_le _) (by omega)
  simpa using this

theorem splitOnP_no_sep {α : Type} (p : α → Bool) (l : List α) :
    ∀ seg ∈ l.splitOnP p, ∀ c ∈ seg, ¬ (p c = true) := by
  induction l with
  | nil => intro seg hseg c hc; simp at hseg; subst hseg; simp at hc
  | cons x xs ih =>
    intro seg hseg c hc
    rw [List.splitOnP_cons] at hseg
    by_cases hx : p x = true
    · rw [if_pos hx] at hseg
      rcases List.mem_cons.mp hseg with h | h
      · subst h; simp at hc
      · exact ih seg h c hc
    · rw [if_neg hx] at hseg
      cases hs : List.splitOnP p xs with
      | nil => exact absurd hs (List.splitOnP_ne_nil p xs)
      | cons hd tl =>
        rw [hs] at hseg ih
        simp only [List.modifyHead_cons] at hseg
        rcases List.mem_cons.mp hseg with h | h
        · subst h
          rcases List.mem_cons.mp hc with h2 | h2
          · subst h2; exact hx
          · exact ih hd (List.mem_cons_self _ _) c h2
        · exact ih seg (List.mem_cons_of_mem _ h) c hc

theorem tolower_eq_toLower : tolower = Char.toLower := by
  funext c
  simp [tolower, Char.toLower]

/-! ## Response headers -/

/-- C10: for a String name `k` and a String value `v` that is non-empty and does not end in a
newline, `for_each_header_data` continues the iteration and writes exactly the segments of
`v` split on newline, in order, each under the name `k` lowercased; none of the written
values contains a newline. -/
theorem for_each_header_data_splits_on_newline (ext : Ext) (k v : Bytes) (hne : v ≠ [])
    (hlast : v.getLast? ≠ some '\n') :
    for_each_header_data ext (VALUE.str k) (VALUE.str v) =
        (ST_CONTINUE,
          (v.splitOn '\n').map (fun seg => Effect.http_set_header (k.map Char.toLower) seg)) ∧
      ∀ seg ∈ v.splitOn '\n', '\n' ∉ seg := by
  constructor
  · simp only [for_each_header_data, TYPE, ne_eq, not_true_eq_false, if_false,
      header_values_eq, tolower_eq_toLower]
    simp [split_header_value, hne, hlast]
  · intro seg hseg hmem
    exact splitOnP_no_sep _ v seg hseg '\n' hmem (by simp)

theorem for_each_header_data_splits_on_newline_witness :
    ("a\nb".toList ≠ [] ∧ "a\nb".toList.getLast? ≠ some '\n') ∧
      (for_each_header_data sample_ext (VALUE.str "X".toList) (VALUE.str "a\nb".toList) =
        (ST_CONTINUE,
          ("a\nb".toList.splitOn '\n').map
            (fun seg => Effect.http_set_header ("X".toList.map Char.toLower) seg)) ∧
        ∀ seg ∈ "a\nb".toList.splitOn '\n', '\n' ∉ seg) :=
  ⟨⟨by decide, by decide⟩,
    for_each_header_data_splits_on_newline sample_ext "X".toList "a\nb".toList
      (by decide) (by decide)⟩

/-! ## Helper lemmas: the response body and the driver -/

theorem close_count_call_close (v : VALUE) (h : rb_respond_to_close v = true) :
    close_count (call_close v) = 1 := by
  cases v <;> simp_all [rb_respond_to_close, call_close, close_count]

theorem rb_block_call_each_buf (xs : List VALUE) : ∀ buf : Bytes,
    (rb_block_call_each xs buf).1 =
      buf ++ (xs.filterMap (fun x => match x with
        | .str s => some s
        | _ => none)).flatten := by
  induction xs with
  | nil => intro buf; simp [rb_block_call_each]
  | cons y ys ih =>
    intro buf
    cases y <;> simp [rb_block_call_each, for_each_body_string, ih]
    rename_i s
    by_cases hs : s = [] <;> simp [hs]

theorem rb_block_call_each_strs (cs : List Bytes) : ∀ buf : Bytes,
    rb_block_call_each (cs.map VALUE.str) buf =
      (buf ++ cs.flatten,
        (cs.filter (fun c => decide (c.length ≠ 0))).map Effect.fiobj_str_write) := by
  induction cs with
  | nil => intro buf; simp [rb_block_call_each]
  | cons c cs ih =>
    intro buf
    by_cases hc : c = []
    · simp [rb_block_call_each, for_each_body_string, ih, hc]
    · simp [rb_block_call_each, for_each_body_string, ih, hc]

theorem ruby2c_response_send_plain (handle : iodine_http_request_handle_s)
    (rbresponse : List VALUE)
    (hst : ¬ (handle.h.status < 200 ∨ handle.h.status = 204 ∨ handle.h.status = 304))
    (h0 : rb_ary_entry rbresponse 2 ≠ VALUE.ary [])
    (h1 : ∀ y, rb_ary_entry rbresponse 2 ≠ VALUE.ary [y]) :
    ruby2c_response_send handle rbresponse =
      response_send_body handle (rb_ary_entry rbresponse 2) := by
  unfold ruby2c_response_send
  rw [if_neg hst]
  generalize rb_ary_entry rbresponse 2 = body at h0 h1
  cases body with
  | ary xs =>
    match xs with
    | [] => exact absurd rfl h0
    | [y] => exact absurd rfl (h1 y)
    | _ :: _ :: _ => rfl
  | _ => rfl

theorem ruby2c_response_send_unwrap (handle : iodine_http_request_handle_s)
    (rbresponse : List VALUE) (x : VALUE)
    (hst : ¬ (handle.h.status < 200 ∨ handle.h.status = 204 ∨ handle.h.status = 304))
    (h1 : rb_ary_entry rbresponse 2 = VALUE.ary [x]) :
    ruby2c_response_send handle rbresponse = response_send_body handle x := by
  unfold ruby2c_response_send
  simp only [if_neg hst, h1]

theorem ruby2c_response_send_empty_ary (handle : iodine_http_request_handle_s)
    (rbresponse : List VALUE)
    (hst : ¬ (handle.h.status < 200 ∨ handle.h.status = 204 ∨ handle.h.status = 304))
    (h0 : rb_ary_entry rbresponse 2 = VALUE.ary []) :
    ruby2c_response_send handle rbresponse =
      (0, { handle with body := some [], type := IODINE_HTTP_SENDBODY }, []) := by
  unfold ruby2c_response_send
  simp only [if_neg hst, h0]
  rfl

theorem ruby2c_review_upgrade_zero (ext : Ext) (req : iodine_http_request_handle_s)
    (rbresponse : List VALUE) (env : List (VALUE × VALUE))
    (h : (ruby2c_review_upgrade ext req rbresponse env).1 = 0) :
    (ruby2c_review_upgrade ext req rbresponse env).2 = [] := by
  obtain ⟨hh, b, t, u⟩ := req
  unfold ruby2c_review_upgrade at h ⊢
  unfold upgraded at h ⊢
  cases u <;> simp only at h ⊢ <;> split_ifs at h ⊢ <;> simp_all

theorem xsendfile_path_none (sx : Bool) (hdrs : List (VALUE × VALUE))
    (hx : sx = false ∨ TYPE (rb_hash_aref hdrs XSENDFILE) ≠ T_STRING) :
    xsendfile_path sx hdrs = none := by
  unfold xsendfile_path
  rcases hx with h | h
  · simp [h]
  · cases hv : rb_hash_aref hdrs XSENDFILE <;> simp_all [TYPE]

theorem handler_send_path (ext : Ext) (sx : Bool) (app : AppCall)
    (handle : iodine_http_request_handle_s) (xs : List VALUE) (st : Nat)
    (hdrs : List (VALUE × VALUE))
    (hresp : app.rbresponse = some xs)
    (hstat : response_status ext (rb_ary_entry xs 0) = some st)
    (hhdr : rb_ary_entry xs 1 = VALUE.hash hdrs)
    (hx : sx = false ∨ TYPE (rb_hash_aref hdrs XSENDFILE) ≠ T_STRING)
    (hup : intptr_lt_300 st = false ∨
      (ruby2c_review_upgrade ext (set_status handle st) xs app.env).1 = 0) :
    iodine_handle_request_in_GVL ext sx (some app) handle =
      if (ruby2c_response_send (set_status handle st) xs).1 ≠ 0 then
        internal_error (ruby2c_response_send (set_status handle st) xs).2.1
          (effs_call true ++ rb_hash_foreach_headers ext hdrs ++
            (ruby2c_response_send (set_status handle st) xs).2.2)
      else
        ((ruby2c_response_send (set_status handle st) xs).2.1,
          effs_call true ++ rb_hash_foreach_headers ext hdrs ++
            (ruby2c_response_send (set_status handle st) xs).2.2 ++
            [Effect.store_remove StoreRef.rbresponse, Effect.store_remove StoreRef.env]) := by
  have hup2 : (if intptr_lt_300 st = true then
        ruby2c_review_upgrade ext (set_status handle st) xs app.env
      else ((0 : Int), ([] : List Effect))) = (0, []) := by
    rcases hup with h | h
    · simp [h]
    · by_cases hl : intptr_lt_300 st = true
      · rw [if_pos hl]
        exact Prod.ext h (ruby2c_review_upgrade_zero _ _ _ _ h)
      · rw [if_neg hl]
  unfold iodine_handle_request_in_GVL
  simp only [hresp, hstat, hhdr, xsendfile_path_none sx hdrs hx, hup2, ne_eq, not_true_eq_false,
    if_false, List.append_nil]

theorem handler_send_ok (ext : Ext) (sx : Bool) (app : AppCall)
    (handle : iodine_http_request_handle_s) (xs : List VALUE) (st : Nat)
    (hdrs : List (VALUE × VALUE))
    (hresp : app.rbresponse = some xs)
    (hstat : response_status ext (rb_ary_entry xs 0) = some st)
    (hhdr : rb_ary_entry xs 1 = VALUE.hash hdrs)
    (hx : sx = false ∨ TYPE (rb_hash_aref hdrs XSENDFILE) ≠ T_STRING)
    (hup : intptr_lt_300 st = false ∨
      (ruby2c_review_upgrade ext (set_status handle st) xs app.env).1 = 0)
    (hsend : (ruby2c_response_send (set_status handle st) xs).1 = 0) :
    (iodine_handle_request_in_GVL ext sx (some app) handle).1 =
      (ruby2c_response_send (set_status handle st) xs).2.1 := by
  rw [handler_send_path ext sx app handle xs st hdrs hresp hstat hhdr hx hup,
    if_neg (not_not.mpr hsend)]

theorem handler_send_fail (ext : Ext) (sx : Bool) (app : AppCall)
    (handle : iodine_http_request_handle_s) (xs : List VALUE) (st : Nat)
    (hdrs : List (VALUE × VALUE))
    (hresp : app.rbresponse = some xs)
    (hstat : response_status ext (rb_ary_entry xs 0) = some st)
    (hhdr : rb_ary_entry xs 1 = VALUE.hash hdrs)
    (hx : sx = false ∨ TYPE (rb_hash_aref hdrs XSENDFILE) ≠ T_STRING)
    (hup : intptr_lt_300 st = false ∨
      (ruby2c_review_upgrade ext (set_status handle st) xs app.env).1 = 0)
    (hsend : (ruby2c_response_send (set_status handle st) xs).1 ≠ 0) :
    (iodine_handle_request_in_GVL ext sx (some app) handle).1.h.status = 500 ∧
      (iodine_handle_request_in_GVL ext sx (some app) handle).1.type = IODINE_HTTP_ERROR := by
  rw [handler_send_path ext sx app handle xs st hdrs hresp hstat hhdr hx hup, if_pos hsend]
  exact ⟨rfl, rfl⟩

/-! ## The response body -/

/-- C2: for a status below 200 or equal to 204 or 304 and any response, `ruby2c_response_send`
returns 0, changes nothing in the handle but the action, which becomes `IODINE_HTTP_NONE`
(no body buffer is set), and its only effects are the `close` call on the body: one call if
the body responds to `close`, none otherwise.  Return value and handle are the same for any
other response. -/
theorem ruby2c_response_send_bodyless_status (handle : iodine_http_request_handle_s)
    (rbresponse : List VALUE)
    (hst : handle.h.status < 200 ∨ handle.h.status = 204 ∨ handle.h.status = 304) :
    (ruby2c_response_send handle rbresponse).1 = 0 ∧
      (ruby2c_response_send handle rbresponse).2.1 = { handle with type := IODINE_HTTP_NONE } ∧
      (ruby2c_response_send handle rbresponse).2.1.body = handle.body ∧
      (ruby2c_response_send handle rbresponse).2.2 =
        (if rb_respond_to_close (rb_ary_entry rbresponse 2) then
          call_close (rb_ary_entry rbresponse 2) else []) ∧
      close_count (ruby2c_response_send handle rbresponse).2.2 =
        (if rb_respond_to_close (rb_ary_entry rbresponse 2) then 1 else 0) ∧
      ∀ other : List VALUE,
        (ruby2c_response_send handle other).1 = (ruby2c_response_send handle rbresponse).1 ∧
        (ruby2c_response_send handle other).2.1 =
          (ruby2c_response_send handle rbresponse).2.1 := by
  have key : ∀ r : List VALUE, ruby2c_response_send handle r =
      (0, { handle with type := IODINE_HTTP_NONE },
        if rb_respond_to_close (rb_ary_entry r 2) then call_close (rb_ary_entry r 2) else []) := by
    intro r
    unfold ruby2c_response_send
    simp only [if_pos hst]
  refine ⟨by rw [key], by rw [key], by rw [key], by rw [key], ?_, ?_⟩
  · rw [key]
    by_cases hc : rb_respond_to_close (rb_ary_entry rbresponse 2) = true
    · simp only [hc, if_true]; exact close_count_call_close _ hc
    · simp [hc, close_count]
  · intro other
    rw [key, key]
    exact ⟨rfl, rfl⟩

theorem ruby2c_response_send_bodyless_status_witness :
    ((204 : Nat) < 200 ∨ (204 : Nat) = 204 ∨ (204 : Nat) = 304) ∧
      (ruby2c_response_send
          { h := { status := 204 }, body := none, type := IODINE_HTTP_NONE,
            upgrade := IODINE_UPGRADE_NONE }
          [VALUE.fixnum 204, VALUE.hash [], VALUE.ary [VALUE.str "ignored".toList]]).1 = 0 :=
  ⟨by decide,
    (ruby2c_response_send_bodyless_status
      { h := { status := 204 }, body := none, type := IODINE_HTTP_NONE,
        upgrade := IODINE_UPGRADE_NONE }
      [VALUE.fixnum 204, VALUE.hash [], VALUE.ary [VALUE.str "ignored".toList]]
      (by decide)).1⟩

/-- C3 (as stated, refuted): with status 200 the three-element body `["a","b","c"]` is not
rejected: `ruby2c_response_send` returns 0 with action `IODINE_HTTP_SENDBODY` and the buffer
`abc`, and the request ends with status 200 and `http_send_body` of `abc`. -/
theorem three_element_body_is_sent :
    ruby2c_response_send
        { h := { status := 200 }, body := none, type := IODINE_HTTP_NONE,
          upgrade := IODINE_UPGRADE_NONE }
        [VALUE.fixnum 200, VALUE.hash [],
          VALUE.ary [VALUE.str "a".toList, VALUE.str "b".toList, VALUE.str "c".toList]] =
      (0,
        { h := { status := 200 }, body := some "abc".toList, type := IODINE_HTTP_SENDBODY,
          upgrade := IODINE_UPGRADE_NONE },
        [Effect.fiobj_str_write "a".toList, Effect.fiobj_str_write "b".toList,
          Effect.fiobj_str_write "c".toList]) ∧
    on_rack_request sample_ext false
        (some { rbresponse := some [VALUE.fixnum 200, VALUE.hash [],
                  VALUE.ary [VALUE.str "a".toList, VALUE.str "b".toList, VALUE.str "c".toList]],
                env := [] })
        { status := 0 } =
      ({ h := { status := 200 }, body := some "abc".toList, type := IODINE_HTTP_SENDBODY,
         upgrade := IODINE_UPGRADE_NONE },
        [Effect.store_add StoreRef.env, Effect.rack_io_create, Effect.rb_call_app,
          Effect.rack_io_close, Effect.store_add StoreRef.rbresponse,
          Effect.fiobj_str_write "a".toList, Effect.fiobj_str_write "b".toList,
          Effect.fiobj_str_write "c".toList,
          Effect.store_remove StoreRef.rbresponse, Effect.store_remove StoreRef.env,
          Effect.http_send_body "abc".toList]) := by
  decide

/-- C3 (amended): a body that is an Array of two or more elements is not rejected.  With a
status that permits a body `ruby2c_response_send` returns 0 and resolves to
`IODINE_HTTP_SENDBODY` with a buffer holding the String elements of the Array concatenated
in order (other elements are skipped); and when neither X-Sendfile nor an upgrade applies,
the request handler ends with exactly that handle, so with the response's own status and
not with 500 / `IODINE_HTTP_ERROR`. -/
theorem multi_element_body_is_concatenated (ext : Ext) (sx : Bool) (app : AppCall)
    (base : iodine_http_request_handle_s) (rbresponse xs : List VALUE) (st : Nat)
    (hdrs : List (VALUE × VALUE))
    (hst : ¬ (st < 200 ∨ st = 204 ∨ st = 304))
    (hbody : rb_ary_entry rbresponse 2 = VALUE.ary xs) (hlen : 2 ≤ xs.length) :
    ruby2c_response_send (set_status base st) rbresponse =
        (0,
          { set_status base st with
            body := some (xs.filterMap (fun x => match x with
              | .str s => some s
              | _ => none)).flatten,
            type := IODINE_HTTP_SENDBODY },
          (rb_block_call_each xs []).2) ∧
      (app.rbresponse = some rbresponse →
        response_status ext (rb_ary_entry rbresponse 0) = some st →
        rb_ary_entry rbresponse 1 = VALUE.hash hdrs →
        (sx = false ∨ TYPE (rb_hash_aref hdrs XSENDFILE) ≠ T_STRING) →
        (intptr_lt_300 st = false ∨
          (ruby2c_review_upgrade ext (set_status base st) rbresponse app.env).1 = 0) →
        (iodine_handle_request_in_GVL ext sx (some app) base).1 =
          { set_status base st with
            body := some (xs.filterMap (fun x => match x with
              | .str s => some s
              | _ => none)).flatten,
            type := IODINE_HTTP_SENDBODY }) := by
  have hsend : ruby2c_response_send (set_status base st) rbresponse =
      (0,
        { set_status base st with
          body := some (xs.filterMap (fun x => match x with
            | .str s => some s
            | _ => none)).flatten,
          type := IODINE_HTTP_SENDBODY },
        (rb_block_call_each xs []).2) := by
    rw [ruby2c_response_send_plain _ _ (by simpa [set_status] using hst)
      (by rw [hbody]; intro h; injection h with h; subst h; simp at hlen)
      (by intro y; rw [hbody]; intro h; injection h with h; subst h; simp at hlen)]
    rw [hbody]
    simp [response_send_body, rb_respond_to_each, rb_each, rb_respond_to_close,
      rb_block_call_each_buf]
  refine ⟨hsend, ?_⟩
  intro hresp hstat hhdr hx hup
  rw [handler_send_ok ext sx app base rbresponse st hdrs hresp hstat hhdr hx hup
    (by rw [hsend]), hsend]

theorem multi_element_body_is_concatenated_witness :
    (¬ ((200 : Nat) < 200 ∨ (200 : Nat) = 204 ∨ (200 : Nat) = 304) ∧
      2 ≤ [VALUE.str "a".toList, VALUE.str "b".toList].length) ∧
      (iodine_handle_request_in_GVL sample_ext false
          (some { rbresponse := some [VALUE.fixnum 200, VALUE.hash [],
            VALUE.ary [VALUE.str "a".toList, VALUE.str "b".toList]], env := [] })
          { h := { status := 0 }, body := none, type := IODINE_HTTP_NONE,
            upgrade := IODINE_UPGRADE_NONE }).1 =
        { h := { status := 200 }, body := some "ab".toList, type := IODINE_HTTP_SENDBODY,
          upgrade := IODINE_UPGRADE_NONE } :=
  ⟨⟨by decide, by decide⟩,
    (multi_element_body_is_concatenated sample_ext false
      { rbresponse := some [VALUE.fixnum 200, VALUE.hash [],
          VALUE.ary [VALUE.str "a".toList, VALUE.str "b".toList]], env := [] }
      { h := { status := 0 }, body := none, type := IODINE_HTTP_NONE,
        upgrade := IODINE_UPGRADE_NONE }
      [VALUE.fixnum 200, VALUE.hash [],
        VALUE.ary [VALUE.str "a".toList, VALUE.str "b".toList]]
      [VALUE.str "a".toList, VALUE.str "b".toList] 200 []
      (by decide) rfl (by decide)).2 rfl (by decide) rfl (Or.inl rfl)
      (Or.inr (by decide))⟩

/-- C4 (the code at the failing input): for the response `[200, {}, []]` the assignment of
`IODINE_HTTP_EMPTY` is overwritten, because an empty Array responds to `each`:
`ruby2c_response_send` returns 0 with action `IODINE_HTTP_SENDBODY` and an allocated, empty
buffer, and the request is answered with `http_send_body` of zero bytes instead of
`http_finish`. -/
theorem empty_array_body_resolves_to_sendbody :
    ruby2c_response_send
        { h := { status := 200 }, body := none, type := IODINE_HTTP_NONE,
          upgrade := IODINE_UPGRADE_NONE }
        [VALUE.fixnum 200, VALUE.hash [], VALUE.ary []] =
      (0,
        { h := { status := 200 }, body := some [], type := IODINE_HTTP_SENDBODY,
          upgrade := IODINE_UPGRADE_NONE }, []) ∧
    on_rack_request sample_ext false
        (some { rbresponse := some [VALUE.fixnum 200, VALUE.hash [], VALUE.ary []], env := [] })
        { status := 0 } =
      ({ h := { status := 200 }, body := some [], type := IODINE_HTTP_SENDBODY,
         upgrade := IODINE_UPGRADE_NONE },
        [Effect.store_add StoreRef.env, Effect.rack_io_create, Effect.rb_call_app,
          Effect.rack_io_close, Effect.store_add StoreRef.rbresponse,
          Effect.store_remove StoreRef.rbresponse, Effect.store_remove StoreRef.env,
          Effect.http_send_body []]) := by
  decide

/-- C5 (as stated, refuted): with status 200 and `x = [5]`, the body `[x]` is accepted
(return value 0, action `IODINE_HTTP_SENDBODY`) while the body `x` itself is invalid (return
value -1). -/
theorem unwrapping_law_fails_for_nested_singleton :
    (ruby2c_response_send
        { h := { status := 200 }, body := none, type := IODINE_HTTP_NONE,
          upgrade := IODINE_UPGRADE_NONE }
        [VALUE.fixnum 200, VALUE.hash [], VALUE.ary [VALUE.ary [VALUE.fixnum 5]]]).1 = 0 ∧
    (ruby2c_response_send
        { h := { status := 200 }, body := none, type := IODINE_HTTP_NONE,
          upgrade := IODINE_UPGRADE_NONE }
        [VALUE.fixnum 200, VALUE.hash [], VALUE.ary [VALUE.ary [VALUE.fixnum 5]]]).2.1.type =
      IODINE_HTTP_SENDBODY ∧
    (ruby2c_response_send
        { h := { status := 200 }, body := none, type := IODINE_HTTP_NONE,
          upgrade := IODINE_UPGRADE_NONE }
        [VALUE.fixnum 200, VALUE.hash [], VALUE.ary [VALUE.fixnum 5]]).1 = -1 := by
  decide

/-- C5 (amended): unwrapping law for every `x` that is not itself a one-element Array
holding a non-String.  For a status that permits a body and a handle without body buffer (as
both entry points create it), `ruby2c_response_send` gives the same return value, the same
action and the same body bytes for the body `[x]` as for the body `x`. -/
theorem unwrapping_law (handle : iodine_http_request_handle_s) (r1 r2 : List VALUE)
    (x : VALUE)
    (hst : ¬ (handle.h.status < 200 ∨ handle.h.status = 204 ∨ handle.h.status = 304))
    (hbody : handle.body = none)
    (h1 : rb_ary_entry r1 2 = VALUE.ary [x]) (h2 : rb_ary_entry r2 2 = x)
    (hx : ∀ y, x = VALUE.ary [y] → TYPE y = T_STRING) :
    (ruby2c_response_send handle r1).1 = (ruby2c_response_send handle r2).1 ∧
      (ruby2c_response_send handle r1).2.1.type = (ruby2c_response_send handle r2).2.1.type ∧
      fiobj_obj2cstr (ruby2c_response_send handle r1).2.1.body =
        fiobj_obj2cstr (ruby2c_response_send handle r2).2.1.body := by
  rw [ruby2c_response_send_unwrap handle r1 x hst h1]
  by_cases hone : ∃ y, x = VALUE.ary [y]
  · obtain ⟨y, rfl⟩ := hone
    have hy := hx y rfl
    cases y <;> simp [TYPE] at hy
    rename_i s
    rw [ruby2c_response_send_unwrap handle r2 (VALUE.str s) hst h2]
    by_cases hs : s = []
    · simp [response_send_body, rb_respond_to_each, rb_each, rb_block_call_each,
        for_each_body_string, fiobj_obj2cstr, hs, hbody]
    · simp [response_send_body, rb_respond_to_each, rb_each, rb_block_call_each,
        for_each_body_string, fiobj_obj2cstr, hs]
  · by_cases hempty : x = VALUE.ary []
    · subst hempty
      rw [ruby2c_response_send_empty_ary handle r2 hst h2]
      simp [response_send_body, rb_respond_to_each, rb_each, rb_block_call_each,
        rb_respond_to_close]
    · rw [ruby2c_response_send_plain handle r2 hst (by rw [h2]; exact hempty)
        (by intro y hy; rw [h2] at hy; exact hone ⟨y, hy⟩), h2]
      exact ⟨rfl, rfl, rfl⟩

theorem unwrapping_law_witness :
    (¬ ((200 : Nat) < 200 ∨ (200 : Nat) = 204 ∨ (200 : Nat) = 304)) ∧
      (ruby2c_response_send
          { h := { status := 200 }, body := none, type := IODINE_HTTP_NONE,
            upgrade := IODINE_UPGRADE_NONE }
          [VALUE.fixnum 200, VALUE.hash [], VALUE.ary [VALUE.str "hi".toList]]).1 =
        (ruby2c_response_send
          { h := { status := 200 }, body := none, type := IODINE_HTTP_NONE,
            upgrade := IODINE_UPGRADE_NONE }
          [VALUE.fixnum 200, VALUE.hash [], VALUE.str "hi".toList]).1 :=
  ⟨by decide,
    (unwrapping_law
      { h := { status := 200 }, body := none, type := IODINE_HTTP_NONE,
        upgrade := IODINE_UPGRADE_NONE }
      [VALUE.fixnum 200, VALUE.hash [], VALUE.ary [VALUE.str "hi".toList]]
      [VALUE.fixnum 200, VALUE.hash [], VALUE.str "hi".toList]
      (VALUE.str "hi".toList) (by decide) rfl rfl rfl
      (by intro y h; cases h)).1⟩


/-- C6: for a status that permits a body and a body that, after the unwrapping of a
one-element Array, is a value `b` that is not a String, responds to `each` and yields the
String chunks `cs`, `ruby2c_response_send` returns 0 and resolves to `IODINE_HTTP_SENDBODY`
with the buffer `cs` concatenated in yield order; its effects are the buffer writes of the
non-empty chunks followed by the `close` call on `b`, which is made exactly once if `b`
responds to `close` and not at all otherwise. -/
theorem each_body_is_drained_then_closed (handle : iodine_http_request_handle_s)
    (rbresponse : List VALUE) (b : VALUE) (cs : List Bytes)
    (hst : ¬ (handle.h.status < 200 ∨ handle.h.status = 204 ∨ handle.h.status = 304))
    (hbody : rb_ary_entry rbresponse 2 = VALUE.ary [b] ∨
      (rb_ary_entry rbresponse 2 = b ∧ ∀ y, b ≠ VALUE.ary [y]))
    (hstr : TYPE b ≠ T_STRING) (heach : rb_respond_to_each b = true)
    (hyield : rb_each b = cs.map VALUE.str) :
    (ruby2c_response_send handle rbresponse).1 = 0 ∧
      (ruby2c_response_send handle rbresponse).2.1 =
        { handle with body := some cs.flatten, type := IODINE_HTTP_SENDBODY } ∧
      (ruby2c_response_send handle rbresponse).2.2 =
        (cs.filter (fun c => decide (c.length ≠ 0))).map Effect.fiobj_str_write ++
          (if rb_respond_to_close b then call_close b else []) ∧
      close_count (ruby2c_response_send handle rbresponse).2.2 =
        (if rb_respond_to_close b then 1 else 0) := by
  have htail : response_send_body handle b =
      (0, { handle with body := some cs.flatten, type := IODINE_HTTP_SENDBODY },
        (cs.filter (fun c => decide (c.length ≠ 0))).map Effect.fiobj_str_write ++
          (if rb_respond_to_close b then call_close b else [])) := by
    cases b with
    | str s => exact absurd rfl hstr
    | _ => simp [response_send_body, heach, hyield, rb_block_call_each_strs]
  have hsend : ruby2c_response_send handle rbresponse =
      (0, { handle with body := some cs.flatten, type := IODINE_HTTP_SENDBODY },
        (cs.filter (fun c => decide (c.length ≠ 0))).map Effect.fiobj_str_write ++
          (if rb_respond_to_close b then call_close b else [])) := by
    rcases hbody with h | ⟨h, hne⟩
    · rw [ruby2c_response_send_unwrap handle rbresponse b hst h, htail]
    · by_cases hempty : b = VALUE.ary []
      · subst hempty
        rw [ruby2c_response_send_empty_ary handle rbresponse hst h]
        cases cs with
        | nil => simp [rb_respond_to_close]
        | cons c cs => simp [rb_each] at hyield
      · rw [ruby2c_response_send_plain handle rbresponse hst (by rw [h]; exact hempty)
          (by intro y hy; rw [h] at hy; exact hne y hy), h, htail]
  refine ⟨by rw [hsend], by rw [hsend], by rw [hsend], ?_⟩
  rw [hsend]
  have hw : close_count
      ((cs.filter (fun c => decide (c.length ≠ 0))).map Effect.fiobj_str_write) = 0 := by
    simp [close_count, List.countP_eq_zero]
  by_cases hc : rb_respond_to_close b = true
  · simp only [hc, if_true]
    unfold close_count at hw ⊢
    rw [List.countP_append, hw]
    simpa [close_count] using close_count_call_close b hc
  · simp only [hc]
    simp [close_count] at hw ⊢

theorem each_body_is_drained_then_closed_witness :
    (¬ ((200 : Nat) < 200 ∨ (200 : Nat) = 204 ∨ (200 : Nat) = 304) ∧
      TYPE (VALUE.obj 7 (some [VALUE.str "ab".toList, VALUE.str "c".toList]) true) ≠ T_STRING ∧
      rb_respond_to_each
        (VALUE.obj 7 (some [VALUE.str "ab".toList, VALUE.str "c".toList]) true) = true) ∧
      ruby2c_response_send
          { h := { status := 200 }, body := none, type := IODINE_HTTP_NONE,
            upgrade := IODINE_UPGRADE_NONE }
          [VALUE.fixnum 200, VALUE.hash [],
            VALUE.obj 7 (some [VALUE.str "ab".toList, VALUE.str "c".toList]) true] =
        (0,
          { h := { status := 200 }, body := some "abc".toList, type := IODINE_HTTP_SENDBODY,
            upgrade := IODINE_UPGRADE_NONE },
          [Effect.fiobj_str_write "ab".toList, Effect.fiobj_str_write "c".toList,
            Effect.rb_close 7]) := by
  have h := each_body_is_drained_then_closed
    { h := { status := 200 }, body := none, type := IODINE_HTTP_NONE,
      upgrade := IODINE_UPGRADE_NONE }
    [VALUE.fixnum 200, VALUE.hash [],
      VALUE.obj 7 (some [VALUE.str "ab".toList, VALUE.str "c".toList]) true]
    (VALUE.obj 7 (some [VALUE.str "ab".toList, VALUE.str "c".toList]) true)
    ["ab".toList, "c".toList]
    (by decide) (Or.inr ⟨rfl, by intro y h; cases h⟩) (by decide) rfl rfl
  exact ⟨⟨by decide, by decide, rfl⟩, Prod.ext h.1 (Prod.ext h.2.1 h.2.2.1)⟩

theorem response_send_body_invalid_iff (handle : iodine_http_request_handle_s) (b : VALUE) :
    (response_send_body handle b).1 = -1 ↔
      TYPE b ≠ T_STRING ∧ rb_respond_to_each b = false := by
  cases b <;> simp [response_send_body, TYPE, rb_respond_to_each]
  rename_i id e c
  cases e <;> simp

/-- C7: `ruby2c_response_send` returns -1 exactly when the status permits a body (it is at
least 200 and neither 204 nor 304) and the body, after the unwrapping of a one-element
Array, is neither a String nor a value responding to `each`; and whenever the request
handler reaches `ruby2c_response_send` and gets -1, the request ends with status 500 and
action `IODINE_HTTP_ERROR`. -/
theorem invalid_response_iff (ext : Ext) (sx : Bool) (app : AppCall)
    (base : iodine_http_request_handle_s) (rbresponse : List VALUE) (st : Nat)
    (hdrs : List (VALUE × VALUE)) :
    ((ruby2c_response_send (set_status base st) rbresponse).1 = -1 ↔
      (¬ (st < 200 ∨ st = 204 ∨ st = 304) ∧
        ∃ b, (rb_ary_entry rbresponse 2 = VALUE.ary [b] ∨
            (rb_ary_entry rbresponse 2 = b ∧ ∀ y, rb_ary_entry rbresponse 2 ≠ VALUE.ary [y])) ∧
          TYPE b ≠ T_STRING ∧ rb_respond_to_each b = false)) ∧
      (app.rbresponse = some rbresponse →
        response_status ext (rb_ary_entry rbresponse 0) = some st →
        rb_ary_entry rbresponse 1 = VALUE.hash hdrs →
        (sx = false ∨ TYPE (rb_hash_aref hdrs XSENDFILE) ≠ T_STRING) →
        (intptr_lt_300 st = false ∨
          (ruby2c_review_upgrade ext (set_status base st) rbresponse app.env).1 = 0) →
        (ruby2c_response_send (set_status base st) rbresponse).1 = -1 →
        (iodine_handle_request_in_GVL ext sx (some app) base).1.h.status = 500 ∧
          (iodine_handle_request_in_GVL ext sx (some app) base).1.type = IODINE_HTTP_ERROR) := by
  constructor
  · by_cases hst : (st < 200 ∨ st = 204 ∨ st = 304)
    · have h0 : (ruby2c_response_send (set_status base st) rbresponse).1 = 0 := by
        unfold ruby2c_response_send
        rw [if_pos (by simpa [set_status] using hst)]
      rw [h0]
      constructor
      · intro h; exact absurd h (by decide)
      · intro h; exact absurd hst h.1
    · have hst2 : ¬ ((set_status base st).h.status < 200 ∨ (set_status base st).h.status = 204 ∨
          (set_status base st).h.status = 304) := by simpa [set_status] using hst
      by_cases hone : ∃ y, rb_ary_entry rbresponse 2 = VALUE.ary [y]
      · obtain ⟨y, hy⟩ := hone
        rw [ruby2c_response_send_unwrap _ rbresponse y hst2 hy, response_send_body_invalid_iff]
        constructor
        · intro h; exact ⟨hst, y, Or.inl hy, h⟩
        · rintro ⟨_, b, hb | ⟨_, hb⟩, hstr, heach⟩
          · rw [hy] at hb
            injection hb with hb; injection hb with hb; subst hb
            exact ⟨hstr, heach⟩
          · exact absurd hy (hb y)
      · have hone2 : ∀ y, rb_ary_entry rbresponse 2 ≠ VALUE.ary [y] :=
          fun y hy => hone ⟨y, hy⟩
        by_cases hempty : rb_ary_entry rbresponse 2 = VALUE.ary []
        · rw [ruby2c_response_send_empty_ary _ rbresponse hst2 hempty]
          constructor
          · intro h; exact absurd h (by simp)
          · rintro ⟨_, b, hb | ⟨hb, _⟩, _, heach⟩
            · exact absurd hb (hone2 b)
            · rw [hempty] at hb; subst hb
              simp [rb_respond_to_each] at heach
        · rw [ruby2c_response_send_plain _ rbresponse hst2 hempty hone2,
            response_send_body_invalid_iff]
          constructor
          · intro h; exact ⟨hst, _, Or.inr ⟨rfl, hone2⟩, h⟩
          · rintro ⟨_, b, hb | ⟨hb, _⟩, hstr, heach⟩
            · exact absurd hb (hone2 b)
            · rw [hb]; exact ⟨hstr, heach⟩
  · intro hresp hstat hhdr hx hup hsend
    exact handler_send_fail ext sx app base rbresponse st hdrs hresp hstat hhdr hx hup
      (by rw [hsend]; decide)

theorem invalid_response_iff_witness :
    (response_status sample_ext (rb_ary_entry [VALUE.fixnum 200, VALUE.hash [], VALUE.fixnum 5] 0)
        = some 200 ∧
      (ruby2c_response_send
        (set_status
          { h := { status := 0 }, body := none, type := IODINE_HTTP_NONE,
            upgrade := IODINE_UPGRADE_NONE } 200)
        [VALUE.fixnum 200, VALUE.hash [], VALUE.fixnum 5]).1 = -1) ∧
      ((iodine_handle_request_in_GVL sample_ext false
          (some { rbresponse := some [VALUE.fixnum 200, VALUE.hash [], VALUE.fixnum 5],
                  env := [] })
          { h := { status := 0 }, body := none, type := IODINE_HTTP_NONE,
            upgrade := IODINE_UPGRADE_NONE }).1.h.status = 500 ∧
        (iodine_handle_request_in_GVL sample_ext false
          (some { rbresponse := some [VALUE.fixnum 200, VALUE.hash [], VALUE.fixnum 5],
                  env := [] })
          { h := { status := 0 }, body := none, type := IODINE_HTTP_NONE,
            upgrade := IODINE_UPGRADE_NONE }).1.type = IODINE_HTTP_ERROR) :=
  ⟨⟨by decide, by decide⟩,
    (invalid_response_iff sample_ext false
      { rbresponse := some [VALUE.fixnum 200, VALUE.hash [], VALUE.fixnum 5], env := [] }
      { h := { status := 0 }, body := none, type := IODINE_HTTP_NONE,
        upgrade := IODINE_UPGRADE_NONE }
      [VALUE.fixnum 200, VALUE.hash [], VALUE.fixnum 5] 200 []).2
      rfl (by decide) rfl (Or.inl rfl) (Or.inr (by decide)) (by decide)⟩


theorem ruby2c_response_send_congr (handle : iodine_http_request_handle_s)
    (xs ys : List VALUE) (h2 : rb_ary_entry xs 2 = rb_ary_entry ys 2) :
    ruby2c_response_send handle xs = ruby2c_response_send handle ys := by
  unfold ruby2c_response_send
  rw [h2]

theorem ruby2c_review_upgrade_congr (ext : Ext) (req : iodine_http_request_handle_s)
    (xs ys : List VALUE) (env : List (VALUE × VALUE))
    (h2 : rb_ary_entry xs 2 = rb_ary_entry ys 2) :
    ruby2c_review_upgrade ext req xs env = ruby2c_review_upgrade ext req ys env := by
  unfold ruby2c_review_upgrade upgraded
  rw [h2]

theorem handler_congr (ext : Ext) (sx : Bool) (env : List (VALUE × VALUE))
    (handle : iodine_http_request_handle_s) (xs ys : List VALUE)
    (h0 : response_status ext (rb_ary_entry xs 0) = response_status ext (rb_ary_entry ys 0))
    (h1 : rb_ary_entry xs 1 = rb_ary_entry ys 1)
    (h2 : rb_ary_entry xs 2 = rb_ary_entry ys 2) :
    iodine_handle_request_in_GVL ext sx (some { rbresponse := some xs, env := env }) handle =
      iodine_handle_request_in_GVL ext sx (some { rbresponse := some ys, env := env })
        handle := by
  unfold iodine_handle_request_in_GVL
  simp only [h0, h1, ruby2c_response_send_congr _ xs ys h2,
    ruby2c_review_upgrade_congr ext _ xs ys env h2]

theorem handler_bad_status (ext : Ext) (sx : Bool) (env : List (VALUE × VALUE))
    (handle : iodine_http_request_handle_s) (xs : List VALUE)
    (h : response_status ext (rb_ary_entry xs 0) = none) :
    iodine_handle_request_in_GVL ext sx (some { rbresponse := some xs, env := env }) handle =
      internal_error handle (effs_call true) := by
  unfold iodine_handle_request_in_GVL
  simp only [h]

theorem handler_bad_headers (ext : Ext) (sx : Bool) (env : List (VALUE × VALUE))
    (handle : iodine_http_request_handle_s) (xs : List VALUE)
    (h : TYPE (rb_ary_entry xs 1) ≠ T_HASH) :
    (iodine_handle_request_in_GVL ext sx (some { rbresponse := some xs, env := env })
        handle).1 = { set_status handle 500 with type := IODINE_HTTP_ERROR } ∧
      ∀ e ∈ (iodine_handle_request_in_GVL ext sx (some { rbresponse := some xs, env := env })
        handle).2, e ∈ effs_call true ++
          [Effect.store_remove StoreRef.rbresponse, Effect.store_remove StoreRef.env] := by
  unfold iodine_handle_request_in_GVL
  cases hs : response_status ext (rb_ary_entry xs 0) with
  | none => simp only [hs]; exact ⟨rfl, fun e he => he⟩
  | some st =>
    cases h1 : rb_ary_entry xs 1 with
    | hash kvs => rw [h1] at h; exact absurd rfl h
    | _ => simp only [hs, h1]; exact ⟨rfl, fun e he => he⟩


theorem ruby2c_review_upgrade_no_marker (ext : Ext) (req : iodine_http_request_handle_s)
    (rbresponse : List VALUE) (env : List (VALUE × VALUE))
    (hcb : not_nil (rb_hash_aref env IODINE_R_HIJACK_CB) = false)
    (hio : not_nil (rb_hash_aref env IODINE_R_HIJACK_IO_KEY) = false)
    (htcp : not_nil (rb_hash_aref env UPGRADE_TCP) = false)
    (hup : not_nil (rb_hash_aref env RACK_UPGRADE) = false) :
    ruby2c_review_upgrade ext req rbresponse env = (0, []) := by
  obtain ⟨hh, b, t, u⟩ := req
  unfold ruby2c_review_upgrade
  cases u <;> simp [hcb, hio, htcp, hup]

/-! ## The status and the shape of the response -/

/-- C9 (as stated, refuted): the four-element return value `[200, {}, "ok", "extra"]` does
not end with status 500 / `IODINE_HTTP_ERROR` but with status 200 and the body `ok`; and the
two-element return value `[204, {}]` ends with status 204 and `IODINE_HTTP_NONE`. -/
theorem four_element_response_is_served :
    (iodine_handle_request_in_GVL sample_ext false
        (some { rbresponse := some [VALUE.fixnum 200, VALUE.hash [], VALUE.str "ok".toList,
                  VALUE.str "extra".toList], env := [] })
        { h := { status := 0 }, body := none, type := IODINE_HTTP_NONE,
          upgrade := IODINE_UPGRADE_NONE }).1 =
      { h := { status := 200 }, body := some "ok".toList, type := IODINE_HTTP_SENDBODY,
        upgrade := IODINE_UPGRADE_NONE } ∧
    (iodine_handle_request_in_GVL sample_ext false
        (some { rbresponse := some [VALUE.fixnum 204, VALUE.hash []], env := [] })
        { h := { status := 0 }, body := none, type := IODINE_HTTP_NONE,
          upgrade := IODINE_UPGRADE_NONE }).1 =
      { h := { status := 204 }, body := none, type := IODINE_HTTP_NONE,
        upgrade := IODINE_UPGRADE_NONE } := by
  decide

/-- C9 (amended): the request ends with status 500 and action `IODINE_HTTP_ERROR` for every
callback return value that is `nil`, that is a sequence of fewer than two elements, or whose
second element is not a Hash.  The length of the sequence is not checked otherwise: elements
after the third are ignored, and a two-element sequence is read as if its third element were
`nil`. -/
theorem malformed_response_is_500 (ext : Ext) (sx : Bool) (env : List (VALUE × VALUE))
    (handle : iodine_http_request_handle_s) :
    iodine_handle_request_in_GVL ext sx (some { rbresponse := none, env := env }) handle =
        ({ set_status handle 500 with type := IODINE_HTTP_ERROR },
          [Effect.store_add StoreRef.env, Effect.rack_io_create, Effect.rb_call_app,
            Effect.rack_io_close,
            Effect.store_remove StoreRef.rbresponse, Effect.store_remove StoreRef.env]) ∧
      (∀ xs : List VALUE, xs.length < 2 →
        (iodine_handle_request_in_GVL ext sx (some { rbresponse := some xs, env := env })
          handle).1 = { set_status handle 500 with type := IODINE_HTTP_ERROR }) ∧
      (∀ xs : List VALUE, TYPE (rb_ary_entry xs 1) ≠ T_HASH →
        (iodine_handle_request_in_GVL ext sx (some { rbresponse := some xs, env := env })
          handle).1 = { set_status handle 500 with type := IODINE_HTTP_ERROR }) ∧
      (∀ (a b c : VALUE) (extra : List VALUE),
        iodine_handle_request_in_GVL ext sx
            (some { rbresponse := some (a :: b :: c :: extra), env := env }) handle =
          iodine_handle_request_in_GVL ext sx
            (some { rbresponse := some [a, b, c], env := env }) handle) ∧
      (∀ a b : VALUE,
        iodine_handle_request_in_GVL ext sx
            (some { rbresponse := some [a, b], env := env }) handle =
          iodine_handle_request_in_GVL ext sx
            (some { rbresponse := some [a, b, VALUE.Qnil], env := env }) handle) := by
  refine ⟨rfl, ?_, ?_, ?_, ?_⟩
  · intro xs hlen
    refine (handler_bad_headers ext sx env handle xs ?_).1
    match xs, hlen with
    | [], _ => simp [rb_ary_entry, TYPE]
    | [_], _ => simp [rb_ary_entry, TYPE]
  · intro xs h
    exact (handler_bad_headers ext sx env handle xs h).1
  · intro a b c extra
    exact handler_congr ext sx env handle _ _ rfl rfl rfl
  · intro a b
    exact handler_congr ext sx env handle _ _ rfl rfl rfl

theorem malformed_response_is_500_witness :
    ([VALUE.fixnum 200].length < 2 ∧
      TYPE (rb_ary_entry [VALUE.fixnum 200, VALUE.str "x".toList, VALUE.ary []] 1) ≠ T_HASH) ∧
      (iodine_handle_request_in_GVL sample_ext false
          (some { rbresponse := some [VALUE.fixnum 200], env := [] })
          { h := { status := 0 }, body := none, type := IODINE_HTTP_NONE,
            upgrade := IODINE_UPGRADE_NONE }).1 =
        { h := { status := 500 }, body := none, type := IODINE_HTTP_ERROR,
          upgrade := IODINE_UPGRADE_NONE } ∧
      (iodine_handle_request_in_GVL sample_ext false
          (some { rbresponse := some [VALUE.fixnum 200, VALUE.str "x".toList, VALUE.ary []],
                  env := [] })
          { h := { status := 0 }, body := none, type := IODINE_HTTP_NONE,
            upgrade := IODINE_UPGRADE_NONE }).1 =
        { h := { status := 500 }, body := none, type := IODINE_HTTP_ERROR,
          upgrade := IODINE_UPGRADE_NONE } :=
  ⟨⟨by decide, by decide⟩,
    (malformed_response_is_500 sample_ext false []
      { h := { status := 0 }, body := none, type := IODINE_HTTP_NONE,
        upgrade := IODINE_UPGRADE_NONE }).2.1 [VALUE.fixnum 200] (by decide),
    (malformed_response_is_500 sample_ext false []
      { h := { status := 0 }, body := none, type := IODINE_HTTP_NONE,
        upgrade := IODINE_UPGRADE_NONE }).2.2.1
      [VALUE.fixnum 200, VALUE.str "x".toList, VALUE.ary []] (by decide)⟩

/-! ## Helper lemmas: counting terminal engine calls -/

theorem terminal_count_append (a b : List Effect) :
    terminal_count (a ++ b) = terminal_count a + terminal_count b := by
  simp [terminal_count, List.countP_append]

theorem terminal_count_eq_zero (l : List Effect) (h : ∀ e ∈ l, Effect.is_terminal e = false) :
    terminal_count l = 0 := by
  unfold terminal_count
  rw [List.countP_eq_zero]
  intro e he
  simp [h e he]

theorem for_each_header_data_not_terminal (ext : Ext) (k v : VALUE) :
    ∀ e ∈ (for_each_header_data ext k v).2, Effect.is_terminal e = false := by
  intro e he
  unfold for_each_header_data at he
  simp only at he
  generalize (if TYPE k ≠ T_STRING then ext.to_s k else k) = key1 at he
  cases key1 with
  | str key_s =>
    simp only at he
    generalize (if TYPE v ≠ T_STRING then ext.to_s v else v) = val1 at he
    cases val1 with
    | str val_s =>
      simp only [List.mem_map] at he
      obtain ⟨w, _, rfl⟩ := he
      rfl
    | _ => simp at he
  | _ => simp at he

theorem terminal_count_foreach (ext : Ext) (kvs : List (VALUE × VALUE)) :
    terminal_count (rb_hash_foreach_headers ext kvs) = 0 := by
  induction kvs with
  | nil => rfl
  | cons p rest ih =>
    obtain ⟨k, v⟩ := p
    unfold rb_hash_foreach_headers
    have h := for_each_header_data_not_terminal ext k v
    cases hr : for_each_header_data ext k v with
    | mk ret effs =>
      rw [hr] at h
      cases ret
      · simp only [terminal_count_append, ih, terminal_count_eq_zero effs h]
      · simp only [terminal_count_eq_zero effs h]

theorem call_close_not_terminal (v : VALUE) :
    ∀ e ∈ (if rb_respond_to_close v then call_close v else []), Effect.is_terminal e = false := by
  intro e he
  cases v with
  | obj id each close =>
    simp [call_close, rb_respond_to_close] at he
    obtain ⟨_, rfl⟩ := he
    rfl
  | _ => simp [call_close, rb_respond_to_close] at he

theorem for_each_body_string_not_terminal (y : VALUE) (buf : Bytes) :
    ∀ e ∈ (for_each_body_string y buf).2, Effect.is_terminal e = false := by
  intro e he
  cases y with
  | str s =>
    unfold for_each_body_string at he
    simp only at he
    split_ifs at he
    · simp at he; subst he; rfl
    · simp at he
  | _ =>
    simp [for_each_body_string] at he
    subst he; rfl

theorem rb_block_call_each_not_terminal (ys : List VALUE) : ∀ buf : Bytes,
    ∀ e ∈ (rb_block_call_each ys buf).2, Effect.is_terminal e = false := by
  induction ys with
  | nil => intro buf e he; simp [rb_block_call_each] at he
  | cons y ys ih =>
    intro buf e he
    simp only [rb_block_call_each, List.mem_append] at he
    rcases he with he | he
    · exact for_each_body_string_not_terminal y buf e he
    · exact ih _ e he

theorem response_send_body_non_string (handle : iodine_http_request_handle_s) (b : VALUE)
    (hb : TYPE b ≠ T_STRING) :
    response_send_body handle b =
      if rb_respond_to_each b then
        (0, { handle with body := some (rb_block_call_each (rb_each b) []).1,
                          type := IODINE_HTTP_SENDBODY },
          (rb_block_call_each (rb_each b) []).2 ++
            (if rb_respond_to_close b then call_close b else []))
      else (-1, handle, []) := by
  cases b with
  | str s => exact absurd rfl hb
  | _ => rfl

theorem response_send_body_facts (handle : iodine_http_request_handle_s) (b : VALUE) :
    terminal_count (response_send_body handle b).2.2 = 0 ∧
      ((response_send_body handle b).1 = 0 →
        (response_send_body handle b).2.1.type = IODINE_HTTP_SENDBODY) := by
  by_cases hb : TYPE b = T_STRING
  · cases b <;> simp [TYPE] at hb
    exact ⟨rfl, fun _ => rfl⟩
  · rw [response_send_body_non_string handle b hb]
    by_cases he : rb_respond_to_each b = true
    · rw [if_pos he]
      refine ⟨?_, fun _ => rfl⟩
      show terminal_count (_ ++ _) = 0
      rw [terminal_count_append,
        terminal_count_eq_zero _ (rb_block_call_each_not_terminal _ _),
        terminal_count_eq_zero _ (call_close_not_terminal _)]
    · rw [if_neg he]
      exact ⟨rfl, fun h => absurd h (by simp)⟩

theorem ruby2c_response_send_facts (handle : iodine_http_request_handle_s)
    (xs : List VALUE) :
    terminal_count (ruby2c_response_send handle xs).2.2 = 0 ∧
      ((ruby2c_response_send handle xs).1 = 0 →
        ((handle.h.status < 200 ∨ handle.h.status = 204 ∨ handle.h.status = 304) →
          (ruby2c_response_send handle xs).2.1.type = IODINE_HTTP_NONE) ∧
        (¬ (handle.h.status < 200 ∨ handle.h.status = 204 ∨ handle.h.status = 304) →
          (ruby2c_response_send handle xs).2.1.type = IODINE_HTTP_SENDBODY)) := by
  by_cases hst : (handle.h.status < 200 ∨ handle.h.status = 204 ∨ handle.h.status = 304)
  · have hs : ruby2c_response_send handle xs =
        (0, { handle with type := IODINE_HTTP_NONE },
          if rb_respond_to_close (rb_ary_entry xs 2) then call_close (rb_ary_entry xs 2)
          else []) := by
      unfold ruby2c_response_send
      simp only [if_pos hst]
    rw [hs]
    exact ⟨terminal_count_eq_zero _ (call_close_not_terminal _),
      fun _ => ⟨fun _ => rfl, fun h => absurd hst h⟩⟩
  · by_cases hone : ∃ y, rb_ary_entry xs 2 = VALUE.ary [y]
    · obtain ⟨y, hy⟩ := hone
      rw [ruby2c_response_send_unwrap handle xs y hst hy]
      exact ⟨(response_send_body_facts _ _).1,
        fun h => ⟨fun h2 => absurd h2 hst, fun _ => (response_send_body_facts _ _).2 h⟩⟩
    · by_cases hempty : rb_ary_entry xs 2 = VALUE.ary []
      · rw [ruby2c_response_send_empty_ary handle xs hst hempty]
        exact ⟨rfl, fun _ => ⟨fun h2 => absurd h2 hst, fun _ => rfl⟩⟩
      · rw [ruby2c_response_send_plain handle xs hst hempty (fun y hy => hone ⟨y, hy⟩)]
        exact ⟨(response_send_body_facts _ _).1,
          fun h => ⟨fun h2 => absurd h2 hst, fun _ => (response_send_body_facts _ _).2 h⟩⟩

theorem terminal_count_perform (ext : Ext) (handle : iodine_http_request_handle_s) :
    terminal_count (iodine_perform_handle_action ext handle) =
      if handle.type = IODINE_HTTP_NONE then 0 else 1 := by
  obtain ⟨h, b, t, u⟩ := handle
  cases t
  · rfl
  · rfl
  · simp only [iodine_perform_handle_action]
    rw [terminal_count_append]
    by_cases h7 : ext.content_encoding_len = 7 <;>
      by_cases hf : ext.sendfile2_fails (fiobj_obj2cstr b) = true <;>
      simp [h7, hf, terminal_count, Effect.is_terminal]
  · rfl
  · rfl

theorem terminal_count_upgraded (xs : List VALUE) : terminal_count (upgraded xs).2 = 0 := by
  unfold upgraded
  apply terminal_count_eq_zero
  intro e he
  simp only at he
  by_cases h : (not_nil (rb_ary_entry xs 2) && rb_respond_to_close (rb_ary_entry xs 2)) = true
  · rw [if_pos h] at he
    have h2 : rb_respond_to_close (rb_ary_entry xs 2) = true := by
      simp only [Bool.and_eq_true] at h; exact h.2
    exact call_close_not_terminal (rb_ary_entry xs 2) e (by rw [if_pos h2]; exact he)
  · rw [if_neg h] at he
    simp at he

theorem terminal_count_attach (ext : Ext) :
    terminal_count (iodine_ws_attach ext) = (if ext.connection_new_nil then 0 else 1) ∧
      terminal_count (iodine_sse_attach ext) = (if ext.connection_new_nil then 0 else 1) := by
  unfold iodine_ws_attach iodine_sse_attach
  cases ext.connection_new_nil <;> exact ⟨rfl, rfl⟩

/-- The number of terminal engine calls of `ruby2c_review_upgrade`, path by path. -/
theorem terminal_count_review (ext : Ext) (req : iodine_http_request_handle_s)
    (xs : List VALUE) (env : List (VALUE × VALUE)) :
    terminal_count (ruby2c_review_upgrade ext req xs env).2 =
      if not_nil (rb_hash_aref env IODINE_R_HIJACK_CB) then 1
      else if not_nil (rb_hash_aref env IODINE_R_HIJACK_IO_KEY) then 0
      else if not_nil (rb_hash_aref env UPGRADE_TCP) then 1
      else if not_nil (rb_hash_aref env RACK_UPGRADE) then
        (if req.upgrade = IODINE_UPGRADE_NONE then 1
         else if ext.connection_new_nil then 0 else 1)
      else 0 := by
  obtain ⟨hh, b, t, u⟩ := req
  unfold ruby2c_review_upgrade
  by_cases hcb : not_nil (rb_hash_aref env IODINE_R_HIJACK_CB) = true
  · simp only [if_pos hcb, terminal_count_append, terminal_count_upgraded]
    rfl
  · simp only [if_neg hcb]
    by_cases hio : not_nil (rb_hash_aref env IODINE_R_HIJACK_IO_KEY) = true
    · simp only [if_pos hio, terminal_count_upgraded]
    · simp only [if_neg hio]
      by_cases htcp : not_nil (rb_hash_aref env UPGRADE_TCP) = true
      · simp only [if_pos htcp, terminal_count_append, terminal_count_upgraded]
        rfl
      · simp only [if_neg htcp]
        by_cases hup : not_nil (rb_hash_aref env RACK_UPGRADE) = true
        · have htcp1 : terminal_count tcp_ip_upgrade = 1 := rfl
          cases u <;>
            simp [if_pos hup, terminal_count_append, terminal_count_upgraded,
              (terminal_count_attach ext).1, (terminal_count_attach ext).2, htcp1]
        · cases u <;> simp only [if_neg hup] <;> rfl

theorem terminal_count_review_le (ext : Ext) (req : iodine_http_request_handle_s)
    (xs : List VALUE) (env : List (VALUE × VALUE)) :
    terminal_count (ruby2c_review_upgrade ext req xs env).2 ≤ 1 := by
  rw [terminal_count_review]
  split_ifs <;> omega


theorem terminal_count_labels (handle : iodine_http_request_handle_s) (effs : List Effect) :
    terminal_count (internal_error handle effs).2 = terminal_count effs ∧
      terminal_count (err_not_found handle effs).2 = terminal_count effs ∧
      terminal_count (external_done handle effs).2 = terminal_count effs := by
  simp only [internal_error, err_not_found, external_done, terminal_count_append]
  exact ⟨rfl, rfl, rfl⟩

theorem terminal_count_effs_call (b : Bool) : terminal_count (effs_call b) = 0 := by
  cases b <;> rfl

/-- The terminal engine calls made inside the GVL: none unless the handler ends with
`IODINE_HTTP_NONE`, and never more than one. -/
theorem handler_terminal_count (ext : Ext) (sx : Bool) (udata : Option AppCall)
    (handle : iodine_http_request_handle_s) :
    ((iodine_handle_request_in_GVL ext sx udata handle).1.type ≠ IODINE_HTTP_NONE →
        terminal_count (iodine_handle_request_in_GVL ext sx udata handle).2 = 0) ∧
      terminal_count (iodine_handle_request_in_GVL ext sx udata handle).2 ≤ 1 := by
  unfold iodine_handle_request_in_GVL
  cases udata with
  | none =>
    simp only [(terminal_count_labels _ _).2.1]
    refine ⟨fun _ => ?_, ?_⟩ <;> first | rfl | trivial
  | some app =>
    simp only
    cases hresp : app.rbresponse with
    | none =>
      simp only [(terminal_count_labels _ _).1, terminal_count_effs_call]
      refine ⟨fun _ => ?_, ?_⟩ <;> first | rfl | trivial
    | some xs =>
      simp only
      cases hstat : response_status ext (rb_ary_entry xs 0) with
      | none =>
        simp only [(terminal_count_labels _ _).1, terminal_count_effs_call]
        refine ⟨fun _ => ?_, ?_⟩ <;> first | rfl | trivial
      | some st =>
        simp only
        cases hhdr : rb_ary_entry xs 1 with
        | hash hdrs =>
          simp only
          cases hxs : xsendfile_path sx hdrs with
          | some xfiles =>
            simp only [terminal_count_append, terminal_count_effs_call, terminal_count_foreach]
            refine ⟨fun _ => ?_, ?_⟩ <;> first | rfl | trivial
          | none =>
            simp only
            by_cases hup : (if intptr_lt_300 st = true then
                ruby2c_review_upgrade ext (set_status handle st) xs app.env
                else ((0 : Int), ([] : List Effect))).1 ≠ 0
            · rw [if_pos hup]
              simp only [(terminal_count_labels _ _).2.2, terminal_count_append,
                terminal_count_effs_call, terminal_count_foreach]
              refine ⟨fun h => absurd rfl h, ?_⟩
              by_cases hl : intptr_lt_300 st = true
              · simp only [if_pos hl, Nat.zero_add]
                exact terminal_count_review_le _ _ _ _
              · simp only [if_neg hl]; decide
            · rw [if_neg hup]
              have hup0 : (if intptr_lt_300 st = true then
                  ruby2c_review_upgrade ext (set_status handle st) xs app.env
                  else ((0 : Int), ([] : List Effect))).2 = [] := by
                by_cases hl : intptr_lt_300 st = true
                · rw [if_pos hl] at hup ⊢
                  exact ruby2c_review_upgrade_zero _ _ _ _ (not_not.mp hup)
                · rw [if_neg hl]
              have hsend := (ruby2c_response_send_facts (set_status handle st) xs).1
              by_cases hs : (ruby2c_response_send (set_status handle st) xs).1 ≠ 0
              · simp only [if_pos hs, (terminal_count_labels _ _).1, terminal_count_append,
                  terminal_count_effs_call, terminal_count_foreach, hup0, hsend]
                refine ⟨fun _ => ?_, ?_⟩ <;> first | rfl | trivial
              · simp only [if_neg hs, terminal_count_append,
                  terminal_count_effs_call, terminal_count_foreach, hup0, hsend]
                refine ⟨fun _ => ?_, ?_⟩ <;> first | rfl | trivial
        | _ =>
          simp only [(terminal_count_labels _ _).1, terminal_count_effs_call]
          refine ⟨fun _ => ?_, ?_⟩ <;> first | rfl | trivial


theorem handler_upgrade_path (ext : Ext) (sx : Bool) (app : AppCall)
    (handle : iodine_http_request_handle_s) (xs : List VALUE) (st : Nat)
    (hdrs : List (VALUE × VALUE))
    (hresp : app.rbresponse = some xs)
    (hstat : response_status ext (rb_ary_entry xs 0) = some st)
    (hhdr : rb_ary_entry xs 1 = VALUE.hash hdrs)
    (hx : sx = false ∨ TYPE (rb_hash_aref hdrs XSENDFILE) ≠ T_STRING)
    (hlt : intptr_lt_300 st = true)
    (hup : (ruby2c_review_upgrade ext (set_status handle st) xs app.env).1 ≠ 0) :
    iodine_handle_request_in_GVL ext sx (some app) handle =
      external_done (set_status handle st)
        (effs_call true ++ rb_hash_foreach_headers ext hdrs ++
          (ruby2c_review_upgrade ext (set_status handle st) xs app.env).2) := by
  unfold iodine_handle_request_in_GVL
  simp only [hresp, hstat, hhdr, xsendfile_path_none sx hdrs hx, hlt, if_true, if_pos hup]

/-! ## Terminal network actions -/

/-- C1 (as stated, refuted): for the response `[204, {}, []]` without any upgrade marker the
whole request, `iodine_handle_request_in_GVL` followed by `iodine_perform_handle_action`,
consists of store bookkeeping only: the action is `IODINE_HTTP_NONE` and no terminal engine
call is made at all. -/
theorem bodyless_status_has_no_terminal_action :
    on_rack_request sample_ext false
        (some { rbresponse := some [VALUE.fixnum 204, VALUE.hash [], VALUE.ary []], env := [] })
        { status := 0 } =
      ({ h := { status := 204 }, body := none, type := IODINE_HTTP_NONE,
         upgrade := IODINE_UPGRADE_NONE },
        [Effect.store_add StoreRef.env, Effect.rack_io_create, Effect.rb_call_app,
          Effect.rack_io_close, Effect.store_add StoreRef.rbresponse,
          Effect.store_remove StoreRef.rbresponse, Effect.store_remove StoreRef.env]) ∧
    terminal_count
        (on_rack_request sample_ext false
          (some { rbresponse := some [VALUE.fixnum 204, VALUE.hash [], VALUE.ary []],
                  env := [] })
          { status := 0 }).2 = 0 := by
  decide

/-- C1 (amended): for every request and every callback result, `iodine_handle_request_in_GVL`
followed by `iodine_perform_handle_action` makes at most one terminal engine call, and
exactly one whenever the resolved action is not `IODINE_HTTP_NONE` (buffered body, file,
error status).  With `IODINE_HTTP_NONE` it makes none when a body-less status (below 200,
204 or 304) is answered without an upgrade and none on the `rack.hijack_io` path, and it
makes exactly one, inside the GVL, on the `iodine.hijack_cb` and `upgrade.tcp` paths. -/
theorem at_most_one_terminal_action (ext : Ext) (sx : Bool) (udata : Option AppCall)
    (handle : iodine_http_request_handle_s) (app : AppCall) (xs : List VALUE) (st : Nat)
    (hdrs : List (VALUE × VALUE)) :
    terminal_count
        ((iodine_handle_request_in_GVL ext sx udata handle).2 ++
          iodine_perform_handle_action ext
            (iodine_handle_request_in_GVL ext sx udata handle).1) ≤ 1 ∧
      ((iodine_handle_request_in_GVL ext sx udata handle).1.type ≠ IODINE_HTTP_NONE →
        terminal_count
          ((iodine_handle_request_in_GVL ext sx udata handle).2 ++
            iodine_perform_handle_action ext
              (iodine_handle_request_in_GVL ext sx udata handle).1) = 1) ∧
      (udata = some app → app.rbresponse = some xs →
        response_status ext (rb_ary_entry xs 0) = some st →
        rb_ary_entry xs 1 = VALUE.hash hdrs →
        (sx = false ∨ TYPE (rb_hash_aref hdrs XSENDFILE) ≠ T_STRING) →
        ((st < 200 ∨ st = 204 ∨ st = 304) →
          (intptr_lt_300 st = false ∨
            (ruby2c_review_upgrade ext (set_status handle st) xs app.env).1 = 0) →
          terminal_count
            ((iodine_handle_request_in_GVL ext sx udata handle).2 ++
              iodine_perform_handle_action ext
                (iodine_handle_request_in_GVL ext sx udata handle).1) = 0) ∧
        (intptr_lt_300 st = true →
          not_nil (rb_hash_aref app.env IODINE_R_HIJACK_CB) = false →
          not_nil (rb_hash_aref app.env IODINE_R_HIJACK_IO_KEY) = true →
          terminal_count
            ((iodine_handle_request_in_GVL ext sx udata handle).2 ++
              iodine_perform_handle_action ext
                (iodine_handle_request_in_GVL ext sx udata handle).1) = 0) ∧
        (intptr_lt_300 st = true →
          (not_nil (rb_hash_aref app.env IODINE_R_HIJACK_CB) = true ∨
            (not_nil (rb_hash_aref app.env IODINE_R_HIJACK_IO_KEY) = false ∧
              not_nil (rb_hash_aref app.env UPGRADE_TCP) = true)) →
          terminal_count
            ((iodine_handle_request_in_GVL ext sx udata handle).2 ++
              iodine_perform_handle_action ext
                (iodine_handle_request_in_GVL ext sx udata handle).1) = 1)) := by
  have hgvl := handler_terminal_count ext sx udata handle
  refine ⟨?_, ?_, ?_⟩
  · rw [terminal_count_append, terminal_count_perform]
    by_cases ht : (iodine_handle_request_in_GVL ext sx udata handle).1.type = IODINE_HTTP_NONE
    · rw [if_pos ht]; exact hgvl.2
    · rw [if_neg ht, hgvl.1 ht]
  · intro ht
    rw [terminal_count_append, terminal_count_perform, if_neg ht, hgvl.1 ht]
  · intro hu hresp hstat hhdr hx
    subst hu
    refine ⟨?_, ?_, ?_⟩
    · intro hst hup
      have hfacts := ruby2c_response_send_facts (set_status handle st) xs
      have hret : (ruby2c_response_send (set_status handle st) xs).1 = 0 := by
        unfold ruby2c_response_send
        rw [if_pos (by simpa [set_status] using hst)]
      have htype := (hfacts.2 hret).1 (by simpa [set_status] using hst)
      rw [handler_send_path ext sx app handle xs st hdrs hresp hstat hhdr hx hup,
        if_neg (not_not.mpr hret)]
      simp only [terminal_count_append, terminal_count_perform, htype, if_true,
        terminal_count_effs_call, terminal_count_foreach, hfacts.1]
      rfl
    · intro hlt hcb hio
      have hrev : ruby2c_review_upgrade ext (set_status handle st) xs app.env =
          upgraded xs := by
        unfold ruby2c_review_upgrade
        simp [hcb, hio]
      rw [handler_upgrade_path ext sx app handle xs st hdrs hresp hstat hhdr hx hlt
        (by rw [hrev]; simp [upgraded]), hrev]
      simp only [external_done, terminal_count_append, terminal_count_perform, if_true,
        terminal_count_effs_call, terminal_count_foreach, terminal_count_upgraded]
      rfl
    · intro hlt hmark
      have hone : (ruby2c_review_upgrade ext (set_status handle st) xs app.env).1 = 1 := by
        unfold ruby2c_review_upgrade
        rcases hmark with hcb | ⟨hio, htcp⟩
        · simp [hcb]
        · by_cases hcb : not_nil (rb_hash_aref app.env IODINE_R_HIJACK_CB) = true
          · simp [hcb]
          · simp [hcb, hio, htcp]
      have hcount : terminal_count
          (ruby2c_review_upgrade ext (set_status handle st) xs app.env).2 = 1 := by
        rw [terminal_count_review]
        rcases hmark with hcb | ⟨hio, htcp⟩
        · simp [hcb]
        · by_cases hcb : not_nil (rb_hash_aref app.env IODINE_R_HIJACK_CB) = true
          · simp [hcb]
          · simp [hcb, hio, htcp]
      rw [handler_upgrade_path ext sx app handle xs st hdrs hresp hstat hhdr hx hlt
        (by rw [hone]; decide)]
      simp only [external_done, terminal_count_append, terminal_count_perform, if_true,
        terminal_count_effs_call, terminal_count_foreach, hcount]
      rfl

theorem at_most_one_terminal_action_witness :
    ((iodine_handle_request_in_GVL sample_ext false
          (some { rbresponse := some [VALUE.fixnum 200, VALUE.hash [], VALUE.str "x".toList],
                  env := [] })
          { h := { status := 0 }, body := none, type := IODINE_HTTP_NONE,
            upgrade := IODINE_UPGRADE_NONE }).1.type ≠ IODINE_HTTP_NONE) ∧
      terminal_count
        ((iodine_handle_request_in_GVL sample_ext false
            (some { rbresponse := some [VALUE.fixnum 200, VALUE.hash [], VALUE.str "x".toList],
                    env := [] })
            { h := { status := 0 }, body := none, type := IODINE_HTTP_NONE,
              upgrade := IODINE_UPGRADE_NONE }).2 ++
          iodine_perform_handle_action sample_ext
            (iodine_handle_request_in_GVL sample_ext false
              (some { rbresponse := some [VALUE.fixnum 200, VALUE.hash [],
                        VALUE.str "x".toList], env := [] })
              { h := { status := 0 }, body := none, type := IODINE_HTTP_NONE,
                upgrade := IODINE_UPGRADE_NONE }).1) = 1 ∧
      terminal_count
        ((iodine_handle_request_in_GVL sample_ext false
            (some { rbresponse := some [VALUE.fixnum 304, VALUE.hash [], VALUE.ary []],
                    env := [] })
            { h := { status := 0 }, body := none, type := IODINE_HTTP_NONE,
              upgrade := IODINE_UPGRADE_NONE }).2 ++
          iodine_perform_handle_action sample_ext
            (iodine_handle_request_in_GVL sample_ext false
              (some { rbresponse := some [VALUE.fixnum 304, VALUE.hash [], VALUE.ary []],
                      env := [] })
              { h := { status := 0 }, body := none, type := IODINE_HTTP_NONE,
                upgrade := IODINE_UPGRADE_NONE }).1) = 0 :=
  ⟨by decide,
    (at_most_one_terminal_action sample_ext false
      (some { rbresponse := some [VALUE.fixnum 200, VALUE.hash [], VALUE.str "x".toList],
              env := [] })
      { h := { status := 0 }, body := none, type := IODINE_HTTP_NONE,
        upgrade := IODINE_UPGRADE_NONE }
      { rbresponse := some [VALUE.fixnum 200, VALUE.hash [], VALUE.str "x".toList], env := [] }
      [VALUE.fixnum 200, VALUE.hash [], VALUE.str "x".toList] 200 []).2.1 (by decide),
    ((at_most_one_terminal_action sample_ext false
      (some { rbresponse := some [VALUE.fixnum 304, VALUE.hash [], VALUE.ary []], env := [] })
      { h := { status := 0 }, body := none, type := IODINE_HTTP_NONE,
        upgrade := IODINE_UPGRADE_NONE }
      { rbresponse := some [VALUE.fixnum 304, VALUE.hash [], VALUE.ary []], env := [] }
      [VALUE.fixnum 304, VALUE.hash [], VALUE.ary []] 304 []).2.2
        rfl rfl (by decide) rfl (Or.inl rfl)).1 (by decide) (Or.inl (by decide))⟩

/-! ## X-Sendfile -/

theorem key_is_iff (key : Bytes) (k : VALUE) : key_is key k = true ↔ k = VALUE.str key := by
  cases k <;> simp [key_is]

theorem mem_rb_hash_delete (kvs : List (VALUE × VALUE)) (key : Bytes) (k v : VALUE) :
    (k, v) ∈ rb_hash_delete kvs key ↔ (k, v) ∈ kvs ∧ k ≠ VALUE.str key := by
  unfold rb_hash_delete
  rw [List.mem_filter]
  have h : (!key_is key k) = true ↔ k ≠ VALUE.str key := by
    have h2 := key_is_iff key k
    cases hk : key_is key k
    · rw [hk] at h2; simp at h2; simpa using h2
    · rw [hk] at h2; simp at h2; simp [h2]
  exact and_congr_right (fun _ => h)

/-- Every line written by `rb_hash_foreach` comes from an entry of the Hash whose key,
after `to_s` when it is not a String, is a String; the line is named after that String in
lower case. -/
theorem foreach_header_names (ext : Ext) (kvs : List (VALUE × VALUE)) (name value : Bytes)
    (h : Effect.http_set_header name value ∈ rb_hash_foreach_headers ext kvs) :
    ∃ k v ks, (k, v) ∈ kvs ∧ (if TYPE k ≠ T_STRING then ext.to_s k else k) = VALUE.str ks ∧
      name = ks.map tolower := by
  induction kvs with
  | nil => simp [rb_hash_foreach_headers] at h
  | cons p rest ih =>
    obtain ⟨k, v⟩ := p
    have hk : Effect.http_set_header name value ∈ (for_each_header_data ext k v).2 →
        ∃ ks, (if TYPE k ≠ T_STRING then ext.to_s k else k) = VALUE.str ks ∧
          name = ks.map tolower := by
      intro he
      unfold for_each_header_data at he
      simp only at he
      generalize (if TYPE k ≠ T_STRING then ext.to_s k else k) = key1 at he ⊢
      cases key1 with
      | str key_s =>
        simp only at he
        generalize (if TYPE v ≠ T_STRING then ext.to_s v else v) = val1 at he
        cases val1 with
        | str val_s =>
          simp only [List.mem_map] at he
          obtain ⟨w, _, hw⟩ := he
          injection hw with h1 h2
          exact ⟨key_s, rfl, h1.symm⟩
        | _ => simp at he
      | _ => simp at he
    unfold rb_hash_foreach_headers at h
    cases hr : for_each_header_data ext k v with
    | mk ret effs =>
      rw [hr] at h hk
      cases ret
      · simp only [List.mem_append] at h
        rcases h with h | h
        · obtain ⟨ks, h1, h2⟩ := hk h
          exact ⟨k, v, ks, List.mem_cons_self _ _, h1, h2⟩
        · obtain ⟨k2, v2, ks, hm, h1, h2⟩ := ih h
          exact ⟨k2, v2, ks, List.mem_cons_of_mem _ hm, h1, h2⟩
      · simp only at h
        obtain ⟨ks, h1, h2⟩ := hk h
        exact ⟨k, v, ks, List.mem_cons_self _ _, h1, h2⟩

theorem handler_xsendfile_path (ext : Ext) (app : AppCall)
    (handle : iodine_http_request_handle_s) (xs : List VALUE) (st : Nat)
    (hdrs : List (VALUE × VALUE)) (p : Bytes)
    (hresp : app.rbresponse = some xs)
    (hstat : response_status ext (rb_ary_entry xs 0) = some st)
    (hhdr : rb_ary_entry xs 1 = VALUE.hash hdrs)
    (hx : rb_hash_aref hdrs XSENDFILE = VALUE.str p) :
    iodine_handle_request_in_GVL ext true (some app) handle =
      ({ set_status handle st with body := some p, type := IODINE_HTTP_XSENDFILE },
        effs_call true ++ [Effect.store_add StoreRef.response_headers] ++
          rb_hash_foreach_headers ext
            (rb_hash_delete (rb_hash_delete hdrs XSENDFILE) CONTENT_LENGTH_HEADER) ++
          [Effect.store_remove StoreRef.response_headers]) := by
  have hp : xsendfile_path true hdrs = some p := by
    unfold xsendfile_path
    simp [hx]
  unfold iodine_handle_request_in_GVL
  simp only [hresp, hstat, hhdr, hp]

/-- C11 (as stated, refuted): with static-file support enabled, the response headers
`X-Sendfile: /f` and `content-length: 10` (lower case) resolve to `IODINE_HTTP_XSENDFILE`
with the path `/f`, and the line `content-length: 10` is written to the engine: only the
entry spelled `Content-Length` is stripped. -/
theorem xsendfile_keeps_lowercase_content_length :
    iodine_handle_request_in_GVL sample_ext true
        (some { rbresponse := some [VALUE.fixnum 200,
                  VALUE.hash [(VALUE.str "X-Sendfile".toList, VALUE.str "/f".toList),
                    (VALUE.str "content-length".toList, VALUE.str "10".toList)],
                  VALUE.ary []], env := [] })
        { h := { status := 0 }, body := none, type := IODINE_HTTP_NONE,
          upgrade := IODINE_UPGRADE_NONE } =
      ({ h := { status := 200 }, body := some "/f".toList, type := IODINE_HTTP_XSENDFILE,
         upgrade := IODINE_UPGRADE_NONE },
        [Effect.store_add StoreRef.env, Effect.rack_io_create, Effect.rb_call_app,
          Effect.rack_io_close, Effect.store_add StoreRef.rbresponse,
          Effect.store_add StoreRef.response_headers,
          Effect.http_set_header "content-length".toList "10".toList,
          Effect.store_remove StoreRef.response_headers]) := by
  decide

/-- C11 (amended): with static-file support enabled and a response whose headers hold the
entry `X-Sendfile` with a String value `p`, the request handler resolves to
`IODINE_HTTP_XSENDFILE` with the body reference `p`; the entries keyed exactly `X-Sendfile`
and `Content-Length` are removed and every other entry is written as usual; and when no
other entry has a key that reads `x-sendfile` or `content-length` in lower case, no line
written to the engine has one of these two names. -/
theorem xsendfile_resolves_to_send_file (ext : Ext) (app : AppCall)
    (handle : iodine_http_request_handle_s) (xs : List VALUE) (st : Nat)
    (hdrs : List (VALUE × VALUE)) (p : Bytes)
    (hresp : app.rbresponse = some xs)
    (hstat : response_status ext (rb_ary_entry xs 0) = some st)
    (hhdr : rb_ary_entry xs 1 = VALUE.hash hdrs)
    (hx : rb_hash_aref hdrs XSENDFILE = VALUE.str p) :
    iodine_handle_request_in_GVL ext true (some app) handle =
        ({ set_status handle st with body := some p, type := IODINE_HTTP_XSENDFILE },
          effs_call true ++ [Effect.store_add StoreRef.response_headers] ++
            rb_hash_foreach_headers ext
              (rb_hash_delete (rb_hash_delete hdrs XSENDFILE) CONTENT_LENGTH_HEADER) ++
            [Effect.store_remove StoreRef.response_headers]) ∧
      (∀ k v, (k, v) ∈ rb_hash_delete (rb_hash_delete hdrs XSENDFILE) CONTENT_LENGTH_HEADER ↔
        ((k, v) ∈ hdrs ∧ k ≠ VALUE.str XSENDFILE ∧ k ≠ VALUE.str CONTENT_LENGTH_HEADER)) ∧
      ((∀ k v ks, (k, v) ∈ hdrs →
          (if TYPE k ≠ T_STRING then ext.to_s k else k) = VALUE.str ks →
          (ks.map tolower = "x-sendfile".toList ∨ ks.map tolower = "content-length".toList) →
          (k = VALUE.str XSENDFILE ∨ k = VALUE.str CONTENT_LENGTH_HEADER)) →
        ∀ name value,
          Effect.http_set_header name value ∈
            (iodine_handle_request_in_GVL ext true (some app) handle).2 →
          name ≠ "x-sendfile".toList ∧ name ≠ "content-length".toList) := by
  have hmem : ∀ k v,
      (k, v) ∈ rb_hash_delete (rb_hash_delete hdrs XSENDFILE) CONTENT_LENGTH_HEADER ↔
        ((k, v) ∈ hdrs ∧ k ≠ VALUE.str XSENDFILE ∧ k ≠ VALUE.str CONTENT_LENGTH_HEADER) := by
    intro k v
    rw [mem_rb_hash_delete, mem_rb_hash_delete]
    tauto
  refine ⟨handler_xsendfile_path ext app handle xs st hdrs p hresp hstat hhdr hx, hmem, ?_⟩
  intro hkeys name value hin
  rw [handler_xsendfile_path ext app handle xs st hdrs p hresp hstat hhdr hx] at hin
  have hin2 : Effect.http_set_header name value ∈ rb_hash_foreach_headers ext
      (rb_hash_delete (rb_hash_delete hdrs XSENDFILE) CONTENT_LENGTH_HEADER) := by
    simp only [List.mem_append, effs_call] at hin
    rcases hin with ((h | h) | h) | h
    · simp at h
    · simp at h
    · exact h
    · simp at h
  obtain ⟨k, v, ks, hm, hk1, hname⟩ := foreach_header_names ext _ name value hin2
  obtain ⟨hm1, hne1, hne2⟩ := (hmem k v).mp hm
  constructor
  · intro hn
    rcases hkeys k v ks hm1 hk1 (Or.inl (by rw [← hname, hn])) with h | h
    · exact hne1 h
    · exact hne2 h
  · intro hn
    rcases hkeys k v ks hm1 hk1 (Or.inr (by rw [← hname, hn])) with h | h
    · exact hne1 h
    · exact hne2 h

theorem xsendfile_path_disabled (hdrs : List (VALUE × VALUE)) :
    xsendfile_path false hdrs = none := by
  simp [xsendfile_path]

/-- Without X-Sendfile the response headers only decide which lines are written: the handle
and everything after the header lines are the same for every headers Hash. -/
theorem handler_headers_independent (ext : Ext) (env : List (VALUE × VALUE))
    (handle : iodine_http_request_handle_s) (a : VALUE) (rest : List VALUE) (st : Nat)
    (hstat : response_status ext a = some st) :
    ∃ (H : iodine_http_request_handle_s) (tail : List Effect),
      ∀ hdrs : List (VALUE × VALUE),
        iodine_handle_request_in_GVL ext false
            (some { rbresponse := some (a :: VALUE.hash hdrs :: rest), env := env }) handle =
          (H, effs_call true ++ rb_hash_foreach_headers ext hdrs ++ tail) := by
  have hsend : ∀ hdrs : List (VALUE × VALUE),
      ruby2c_response_send (set_status handle st) (a :: VALUE.hash hdrs :: rest) =
        ruby2c_response_send (set_status handle st) (a :: VALUE.hash [] :: rest) :=
    fun hdrs => ruby2c_response_send_congr _ _ _ rfl
  have hrev : ∀ hdrs : List (VALUE × VALUE),
      ruby2c_review_upgrade ext (set_status handle st) (a :: VALUE.hash hdrs :: rest) env =
        ruby2c_review_upgrade ext (set_status handle st) (a :: VALUE.hash [] :: rest) env :=
    fun hdrs => ruby2c_review_upgrade_congr ext _ _ _ env rfl
  have hunf : ∀ hdrs : List (VALUE × VALUE),
      iodine_handle_request_in_GVL ext false
          (some { rbresponse := some (a :: VALUE.hash hdrs :: rest), env := env }) handle =
        if (if intptr_lt_300 st = true then
              ruby2c_review_upgrade ext (set_status handle st) (a :: VALUE.hash [] :: rest) env
            else ((0 : Int), ([] : List Effect))).1 ≠ 0 then
          external_done (set_status handle st)
            (effs_call true ++ rb_hash_foreach_headers ext hdrs ++
              (if intptr_lt_300 st = true then
                ruby2c_review_upgrade ext (set_status handle st)
                  (a :: VALUE.hash [] :: rest) env
              else ((0 : Int), ([] : List Effect))).2)
        else if (ruby2c_response_send (set_status handle st)
            (a :: VALUE.hash [] :: rest)).1 ≠ 0 then
          internal_error
            (ruby2c_response_send (set_status handle st) (a :: VALUE.hash [] :: rest)).2.1
            (effs_call true ++ rb_hash_foreach_headers ext hdrs ++
              (if intptr_lt_300 st = true then
                ruby2c_review_upgrade ext (set_status handle st)
                  (a :: VALUE.hash [] :: rest) env
              else ((0 : Int), ([] : List Effect))).2 ++
              (ruby2c_response_send (set_status handle st) (a :: VALUE.hash [] :: rest)).2.2)
        else
          ((ruby2c_response_send (set_status handle st) (a :: VALUE.hash [] :: rest)).2.1,
            effs_call true ++ rb_hash_foreach_headers ext hdrs ++
              (if intptr_lt_300 st = true then
                ruby2c_review_upgrade ext (set_status handle st)
                  (a :: VALUE.hash [] :: rest) env
              else ((0 : Int), ([] : List Effect))).2 ++
              (ruby2c_response_send (set_status handle st) (a :: VALUE.hash [] :: rest)).2.2 ++
              [Effect.store_remove StoreRef.rbresponse, Effect.store_remove StoreRef.env]) := by
    intro hdrs
    have h0 : rb_ary_entry (a :: VALUE.hash hdrs :: rest) 0 = a := rfl
    have h1 : rb_ary_entry (a :: VALUE.hash hdrs :: rest) 1 = VALUE.hash hdrs := rfl
    unfold iodine_handle_request_in_GVL
    simp only [h0, h1, hstat, xsendfile_path_disabled, hsend hdrs, hrev hdrs]
  generalize (if intptr_lt_300 st = true then
      ruby2c_review_upgrade ext (set_status handle st) (a :: VALUE.hash [] :: rest) env
    else ((0 : Int), ([] : List Effect))) = up at hunf
  generalize ruby2c_response_send (set_status handle st) (a :: VALUE.hash [] :: rest) = r
    at hunf
  by_cases hup : up.1 ≠ 0
  · refine ⟨{ set_status handle st with type := IODINE_HTTP_NONE },
      up.2 ++ [Effect.store_remove StoreRef.rbresponse, Effect.store_remove StoreRef.env],
      fun hdrs => ?_⟩
    rw [hunf hdrs, if_pos hup]
    simp [external_done, List.append_assoc]
  · by_cases hr : r.1 ≠ 0
    · refine ⟨{ set_status r.2.1 500 with type := IODINE_HTTP_ERROR },
        up.2 ++ r.2.2 ++
          [Effect.store_remove StoreRef.rbresponse, Effect.store_remove StoreRef.env],
        fun hdrs => ?_⟩
      rw [hunf hdrs, if_neg hup, if_pos hr]
      simp [internal_error, List.append_assoc]
    · refine ⟨r.2.1,
        up.2 ++ r.2.2 ++
          [Effect.store_remove StoreRef.rbresponse, Effect.store_remove StoreRef.env],
        fun hdrs => ?_⟩
      rw [hunf hdrs, if_neg hup, if_neg hr]
      simp [List.append_assoc]

theorem handler_type_not_xsendfile (ext : Ext) (udata : Option AppCall)
    (handle : iodine_http_request_handle_s) :
    (iodine_handle_request_in_GVL ext false udata handle).1.type ≠ IODINE_HTTP_XSENDFILE := by
  unfold iodine_handle_request_in_GVL
  cases udata with
  | none => simp [err_not_found]
  | some app =>
    simp only
    cases hresp : app.rbresponse with
    | none => simp [internal_error]
    | some xs =>
      simp only
      cases hstat : response_status ext (rb_ary_entry xs 0) with
      | none => simp [internal_error]
      | some st =>
        simp only
        cases hhdr : rb_ary_entry xs 1 with
        | hash hdrs =>
          simp only [xsendfile_path_disabled]
          generalize (if intptr_lt_300 st = true then
              ruby2c_review_upgrade ext (set_status handle st) xs app.env
            else ((0 : Int), ([] : List Effect))) = up
          by_cases h1 : up.1 ≠ 0
          · rw [if_pos h1]; simp [external_done]
          · rw [if_neg h1]
            by_cases h2 : (ruby2c_response_send (set_status handle st) xs).1 ≠ 0
            · rw [if_pos h2]; simp [internal_error]
            · rw [if_neg h2]
              have hf := ruby2c_response_send_facts (set_status handle st) xs
              have h0 : (ruby2c_response_send (set_status handle st) xs).1 = 0 :=
                not_not.mp h2
              by_cases hb : ((set_status handle st).h.status < 200 ∨
                  (set_status handle st).h.status = 204 ∨
                  (set_status handle st).h.status = 304)
              · rw [((hf.2 h0).1 hb)]; decide
              · rw [((hf.2 h0).2 hb)]; decide
        | _ => simp [internal_error]

/-- The lines of an entry whose key and value are Strings are written whenever every entry
of the Hash has a String key and a String value (the iteration then never stops early). -/
theorem foreach_writes_entry (ext : Ext) (kvs : List (VALUE × VALUE))
    (hall : ∀ kv ∈ kvs, TYPE kv.1 = T_STRING ∧ TYPE kv.2 = T_STRING)
    (k v : VALUE) (hm : (k, v) ∈ kvs) :
    ∀ e ∈ (for_each_header_data ext k v).2, e ∈ rb_hash_foreach_headers ext kvs := by
  induction kvs with
  | nil => simp at hm
  | cons p rest ih =>
    obtain ⟨k0, v0⟩ := p
    have hcont : (for_each_header_data ext k0 v0).1 = ST_CONTINUE := by
      have h0 := hall (k0, v0) (List.mem_cons_self _ _)
      obtain ⟨hk, hv⟩ := h0
      cases k0 <;> simp [TYPE] at hk
      cases v0 <;> simp [TYPE] at hv
      simp [for_each_header_data, TYPE]
    intro e he
    unfold rb_hash_foreach_headers
    cases hr : for_each_header_data ext k0 v0 with
    | mk ret effs =>
      rw [hr] at hcont
      simp only at hcont
      subst hcont
      simp only [List.mem_append]
      rcases List.mem_cons.mp hm with h | h
      · injection h with h1 h2
        subst h1; subst h2
        rw [hr] at he
        exact Or.inl he
      · exact Or.inr (ih (fun kv hkv => hall kv (List.mem_cons_of_mem _ hkv)) h e he)


theorem for_each_header_data_str (ext : Ext) (k v : Bytes) :
    for_each_header_data ext (VALUE.str k) (VALUE.str v) =
      (ST_CONTINUE,
        (split_header_value v).map (fun seg => Effect.http_set_header (k.map tolower) seg)) := by
  simp only [for_each_header_data, TYPE, ne_eq, not_true_eq_false, if_false, header_values_eq]

theorem split_header_value_plain (v : Bytes) (hne : v ≠ []) (hnl : '\n' ∉ v) :
    split_header_value v = [v] := by
  refine split_header_value_single v hne (fun c hc h => hnl ?_)
  have hcn : c = '\n' := by simpa using h
  rw [← hcn]; exact hc

/-- C12: with static-file support disabled (`support_xsendfile = 0`) the request never
resolves to `IODINE_HTTP_XSENDFILE`; the response headers only decide which lines are
written (the handle and everything after the header lines are the same for every headers
Hash, with or without `X-Sendfile`); an `X-Sendfile` entry is written like any other entry,
under the name `x-sendfile`, and so is `Content-Length`; when every entry is a String pair,
the lines `x-sendfile: p` and `content-length: v` of the entries `X-Sendfile => p` and
`Content-Length => v` (non-empty values without newline) are among the lines written. -/
theorem xsendfile_disabled_is_ordinary_header (ext : Ext) (udata : Option AppCall)
    (env : List (VALUE × VALUE)) (handle : iodine_http_request_handle_s) (a : VALUE)
    (rest : List VALUE) (st : Nat) (hdrs : List (VALUE × VALUE)) (p v : Bytes) :
    (iodine_handle_request_in_GVL ext false udata handle).1.type ≠ IODINE_HTTP_XSENDFILE ∧
      (response_status ext a = some st →
        ∃ (H : iodine_http_request_handle_s) (tail : List Effect),
          ∀ hdrs2 : List (VALUE × VALUE),
            iodine_handle_request_in_GVL ext false
                (some { rbresponse := some (a :: VALUE.hash hdrs2 :: rest), env := env })
                handle =
              (H, effs_call true ++ rb_hash_foreach_headers ext hdrs2 ++ tail)) ∧
      for_each_header_data ext (VALUE.str XSENDFILE) (VALUE.str p) =
        (ST_CONTINUE,
          (split_header_value p).map
            (fun seg => Effect.http_set_header "x-sendfile".toList seg)) ∧
      for_each_header_data ext (VALUE.str CONTENT_LENGTH_HEADER) (VALUE.str v) =
        (ST_CONTINUE,
          (split_header_value v).map
            (fun seg => Effect.http_set_header "content-length".toList seg)) ∧
      (response_status ext a = some st →
        (∀ kv ∈ hdrs, TYPE kv.1 = T_STRING ∧ TYPE kv.2 = T_STRING) →
        ((VALUE.str XSENDFILE, VALUE.str p) ∈ hdrs → p ≠ [] → '\n' ∉ p →
          Effect.http_set_header "x-sendfile".toList p ∈
            (iodine_handle_request_in_GVL ext false
              (some { rbresponse := some (a :: VALUE.hash hdrs :: rest), env := env })
              handle).2) ∧
        ((VALUE.str CONTENT_LENGTH_HEADER, VALUE.str v) ∈ hdrs → v ≠ [] → '\n' ∉ v →
          Effect.http_set_header "content-length".toList v ∈
            (iodine_handle_request_in_GVL ext false
              (some { rbresponse := some (a :: VALUE.hash hdrs :: rest), env := env })
              handle).2)) := by
  have hx : for_each_header_data ext (VALUE.str XSENDFILE) (VALUE.str p) =
      (ST_CONTINUE,
        (split_header_value p).map
          (fun seg => Effect.http_set_header "x-sendfile".toList seg)) := by
    rw [for_each_header_data_str]; rfl
  have hc : for_each_header_data ext (VALUE.str CONTENT_LENGTH_HEADER) (VALUE.str v) =
      (ST_CONTINUE,
        (split_header_value v).map
          (fun seg => Effect.http_set_header "content-length".toList seg)) := by
    rw [for_each_header_data_str]; rfl
  refine ⟨handler_type_not_xsendfile ext udata handle,
    fun hstat => handler_headers_independent ext env handle a rest st hstat, hx, hc, ?_⟩
  intro hstat hall
  obtain ⟨H, tail, hrun⟩ := handler_headers_independent ext env handle a rest st hstat
  rw [hrun hdrs]
  constructor
  · intro hm hne hnl
    have := foreach_writes_entry ext hdrs hall _ _ hm
      (Effect.http_set_header "x-sendfile".toList p)
      (by rw [hx, split_header_value_plain p hne hnl]; simp)
    simp only [List.mem_append]
    exact Or.inl (Or.inr this)
  · intro hm hne hnl
    have := foreach_writes_entry ext hdrs hall _ _ hm
      (Effect.http_set_header "content-length".toList v)
      (by rw [hc, split_header_value_plain v hne hnl]; simp)
    simp only [List.mem_append]
    exact Or.inl (Or.inr this)

theorem xsendfile_disabled_is_ordinary_header_witness :
    (response_status sample_ext (VALUE.fixnum 200) = some 200 ∧
      (∀ kv ∈ [(VALUE.str XSENDFILE, VALUE.str "/f".toList)],
        TYPE kv.1 = T_STRING ∧ TYPE kv.2 = T_STRING) ∧
      "/f".toList ≠ [] ∧ '\n' ∉ "/f".toList) ∧
      Effect.http_set_header "x-sendfile".toList "/f".toList ∈
        (iodine_handle_request_in_GVL sample_ext false
          (some { rbresponse := some (VALUE.fixnum 200 ::
                    VALUE.hash [(VALUE.str XSENDFILE, VALUE.str "/f".toList)] ::
                    [VALUE.str "x".toList]), env := [] })
          { h := { status := 0 }, body := none, type := IODINE_HTTP_NONE,
            upgrade := IODINE_UPGRADE_NONE }).2 :=
  ⟨⟨rfl, by simp [TYPE], by decide, by decide⟩,
    ((xsendfile_disabled_is_ordinary_header sample_ext none []
      { h := { status := 0 }, body := none, type := IODINE_HTTP_NONE,
        upgrade := IODINE_UPGRADE_NONE }
      (VALUE.fixnum 200) [VALUE.str "x".toList] 200
      [(VALUE.str XSENDFILE, VALUE.str "/f".toList)] "/f".toList []).2.2.2.2 rfl
      (by simp [TYPE])).1 (by simp) (by decide) (by decide)⟩

theorem xsendfile_resolves_to_send_file_witness :
    (response_status sample_ext
        (rb_ary_entry [VALUE.fixnum 200,
          VALUE.hash [(VALUE.str "X-Sendfile".toList, VALUE.str "/f".toList),
            (VALUE.str "Content-Length".toList, VALUE.str "10".toList),
            (VALUE.str "X-Other".toList, VALUE.str "v".toList)],
          VALUE.ary []] 0) = some 200 ∧
      rb_hash_aref [(VALUE.str "X-Sendfile".toList, VALUE.str "/f".toList),
            (VALUE.str "Content-Length".toList, VALUE.str "10".toList),
            (VALUE.str "X-Other".toList, VALUE.str "v".toList)] XSENDFILE =
        VALUE.str "/f".toList) ∧
      iodine_handle_request_in_GVL sample_ext true
          (some { rbresponse := some [VALUE.fixnum 200,
                    VALUE.hash [(VALUE.str "X-Sendfile".toList, VALUE.str "/f".toList),
                      (VALUE.str "Content-Length".toList, VALUE.str "10".toList),
                      (VALUE.str "X-Other".toList, VALUE.str "v".toList)],
                    VALUE.ary []], env := [] })
          { h := { status := 0 }, body := none, type := IODINE_HTTP_NONE,
            upgrade := IODINE_UPGRADE_NONE } =
        ({ h := { status := 200 }, body := some "/f".toList, type := IODINE_HTTP_XSENDFILE,
           upgrade := IODINE_UPGRADE_NONE },
          [Effect.store_add StoreRef.env, Effect.rack_io_create, Effect.rb_call_app,
            Effect.rack_io_close, Effect.store_add StoreRef.rbresponse,
            Effect.store_add StoreRef.response_headers,
            Effect.http_set_header "x-other".toList "v".toList,
            Effect.store_remove StoreRef.response_headers]) := by
  refine ⟨⟨rfl, rfl⟩, ?_⟩
  rw [(xsendfile_resolves_to_send_file sample_ext
    { rbresponse := some [VALUE.fixnum 200,
        VALUE.hash [(VALUE.str "X-Sendfile".toList, VALUE.str "/f".toList),
          (VALUE.str "Content-Length".toList, VALUE.str "10".toList),
          (VALUE.str "X-Other".toList, VALUE.str "v".toList)],
        VALUE.ary []], env := [] }
    { h := { status := 0 }, body := none, type := IODINE_HTTP_NONE,
      upgrade := IODINE_UPGRADE_NONE }
    [VALUE.fixnum 200,
      VALUE.hash [(VALUE.str "X-Sendfile".toList, VALUE.str "/f".toList),
        (VALUE.str "Content-Length".toList, VALUE.str "10".toList),
        (VALUE.str "X-Other".toList, VALUE.str "v".toList)],
      VALUE.ary []] 200
    [(VALUE.str "X-Sendfile".toList, VALUE.str "/f".toList),
      (VALUE.str "Content-Length".toList, VALUE.str "10".toList),
      (VALUE.str "X-Other".toList, VALUE.str "v".toList)] "/f".toList rfl rfl rfl rfl).1]
  decide

/-! ## Upgrades -/

theorem close_count_append (a b : List Effect) :
    close_count (a ++ b) = close_count a + close_count b := by
  simp [close_count, List.countP_append]

theorem close_count_upgraded (xs : List VALUE) :
    close_count (upgraded xs).2 =
      (if rb_respond_to_close (rb_ary_entry xs 2) then 1 else 0) := by
  unfold upgraded
  simp only
  cases hb : rb_ary_entry xs 2 with
  | obj id e c => cases c <;> simp [not_nil, rb_respond_to_close, call_close, close_count]
  | _ => simp [not_nil, rb_respond_to_close, call_close, close_count]

theorem upgraded_only_closes (xs : List VALUE) :
    ∀ e ∈ (upgraded xs).2, ∃ id, e = Effect.rb_close id := by
  intro e he
  unfold upgraded at he
  simp only at he
  cases hb : rb_ary_entry xs 2 with
  | obj id ea c =>
    rw [hb] at he
    cases c <;> simp [not_nil, rb_respond_to_close, call_close] at he
    exact ⟨id, he⟩
  | _ => rw [hb] at he; simp [not_nil, rb_respond_to_close, call_close] at he

/-- C13: `ruby2c_review_upgrade` follows the fixed precedence `iodine.hijack_cb` >
`rack.hijack_io` > `upgrade.tcp` > `rack.upgrade`.  With the hijack callback marker it
finishes the headers and calls the two callbacks; without it and with the raw-socket marker
it does nothing; without both and with the TCP marker it takes the socket over.  In each
case the only other effects are `close` calls on the response body, so no engine action of
a lower intent (`http_hijack`, `iodine_tcp_attch_uuid`, the connection object,
`http_upgrade2ws`, `http_upgrade2sse`) is performed by a higher one. -/
theorem upgrade_precedence (ext : Ext) (req : iodine_http_request_handle_s)
    (xs : List VALUE) (env : List (VALUE × VALUE)) :
    (not_nil (rb_hash_aref env IODINE_R_HIJACK_CB) = true →
      ruby2c_review_upgrade ext req xs env =
          (1, [Effect.http_finish, Effect.rb_call_hijack, Effect.rb_call_hijack_cb] ++
            (upgraded xs).2) ∧
        Effect.http_hijack ∉ (ruby2c_review_upgrade ext req xs env).2 ∧
        Effect.iodine_tcp_attch_uuid ∉ (ruby2c_review_upgrade ext req xs env).2 ∧
        Effect.iodine_connection_new ∉ (ruby2c_review_upgrade ext req xs env).2 ∧
        Effect.http_upgrade2ws ∉ (ruby2c_review_upgrade ext req xs env).2 ∧
        Effect.http_upgrade2sse ∉ (ruby2c_review_upgrade ext req xs env).2) ∧
    (not_nil (rb_hash_aref env IODINE_R_HIJACK_CB) = false →
      not_nil (rb_hash_aref env IODINE_R_HIJACK_IO_KEY) = true →
      ruby2c_review_upgrade ext req xs env = upgraded xs ∧
        Effect.http_finish ∉ (ruby2c_review_upgrade ext req xs env).2 ∧
        Effect.http_hijack ∉ (ruby2c_review_upgrade ext req xs env).2 ∧
        Effect.iodine_tcp_attch_uuid ∉ (ruby2c_review_upgrade ext req xs env).2 ∧
        Effect.iodine_connection_new ∉ (ruby2c_review_upgrade ext req xs env).2 ∧
        Effect.http_upgrade2ws ∉ (ruby2c_review_upgrade ext req xs env).2 ∧
        Effect.http_upgrade2sse ∉ (ruby2c_review_upgrade ext req xs env).2) ∧
    (not_nil (rb_hash_aref env IODINE_R_HIJACK_CB) = false →
      not_nil (rb_hash_aref env IODINE_R_HIJACK_IO_KEY) = false →
      not_nil (rb_hash_aref env UPGRADE_TCP) = true →
      ruby2c_review_upgrade ext req xs env = (1, tcp_ip_upgrade ++ (upgraded xs).2) ∧
        Effect.iodine_connection_new ∉ (ruby2c_review_upgrade ext req xs env).2 ∧
        Effect.http_upgrade2ws ∉ (ruby2c_review_upgrade ext req xs env).2 ∧
        Effect.http_upgrade2sse ∉ (ruby2c_review_upgrade ext req xs env).2) ∧
    (∀ e ∈ (upgraded xs).2, ∃ id, e = Effect.rb_close id) := by
  have hnot : ∀ (pre : List Effect) (e : Effect), e ∉ pre → (∀ id, e ≠ Effect.rb_close id) →
      e ∉ pre ++ (upgraded xs).2 := by
    intro pre e h1 h2 hm
    rcases List.mem_append.mp hm with h | h
    · exact h1 h
    · obtain ⟨id, hid⟩ := upgraded_only_closes xs e h
      exact h2 id hid
  refine ⟨?_, ?_, ?_, upgraded_only_closes xs⟩
  · intro hcb
    have hr : ruby2c_review_upgrade ext req xs env =
        (1, [Effect.http_finish, Effect.rb_call_hijack, Effect.rb_call_hijack_cb] ++
          (upgraded xs).2) := by
      unfold ruby2c_review_upgrade
      rw [if_pos hcb]
    rw [hr]
    refine ⟨rfl, ?_, ?_, ?_, ?_, ?_⟩ <;>
      exact hnot _ _ (by decide) (by intro id h; cases h)
  · intro hcb hio
    have hr : ruby2c_review_upgrade ext req xs env = upgraded xs := by
      unfold ruby2c_review_upgrade
      rw [if_neg (by simp [hcb]), if_pos hio]
    rw [hr]
    refine ⟨rfl, ?_, ?_, ?_, ?_, ?_, ?_⟩ <;>
      (intro hm
       obtain ⟨id, hid⟩ := upgraded_only_closes xs _ hm
       cases hid)
  · intro hcb hio htcp
    have hr : ruby2c_review_upgrade ext req xs env =
        (1, tcp_ip_upgrade ++ (upgraded xs).2) := by
      unfold ruby2c_review_upgrade
      rw [if_neg (by simp [hcb]), if_neg (by simp [hio]), if_pos htcp]
    rw [hr]
    refine ⟨rfl, ?_, ?_, ?_⟩ <;>
      exact hnot _ _ (by decide) (by intro id h; cases h)


theorem upgrade_precedence_witness :
    (not_nil (rb_hash_aref
        [(VALUE.str "iodine.hijack_cb".toList, VALUE.obj 1 none false),
         (VALUE.str "upgrade.tcp".toList, VALUE.obj 2 none false),
         (VALUE.str "rack.upgrade".toList, VALUE.obj 3 none false)]
        IODINE_R_HIJACK_CB) = true) ∧
      ruby2c_review_upgrade sample_ext
          { h := { status := 200 }, body := none, type := IODINE_HTTP_NONE,
            upgrade := IODINE_UPGRADE_WEBSOCKET }
          [VALUE.fixnum 200, VALUE.hash [], VALUE.obj 9 none true]
          [(VALUE.str "iodine.hijack_cb".toList, VALUE.obj 1 none false),
           (VALUE.str "upgrade.tcp".toList, VALUE.obj 2 none false),
           (VALUE.str "rack.upgrade".toList, VALUE.obj 3 none false)] =
        (1, [Effect.http_finish, Effect.rb_call_hijack, Effect.rb_call_hijack_cb] ++
          (upgraded [VALUE.fixnum 200, VALUE.hash [], VALUE.obj 9 none true]).2) :=
  ⟨by decide,
    ((upgrade_precedence sample_ext
      { h := { status := 200 }, body := none, type := IODINE_HTTP_NONE,
        upgrade := IODINE_UPGRADE_WEBSOCKET }
      [VALUE.fixnum 200, VALUE.hash [], VALUE.obj 9 none true]
      [(VALUE.str "iodine.hijack_cb".toList, VALUE.obj 1 none false),
       (VALUE.str "upgrade.tcp".toList, VALUE.obj 2 none false),
       (VALUE.str "rack.upgrade".toList, VALUE.obj 3 none false)]).1 (by decide)).1⟩

theorem intptr_lt_300_false (st : Nat) (h300 : 300 ≤ st) (hmax : st < 9223372036854775808) :
    intptr_lt_300 st = false := by
  unfold intptr_lt_300
  simp only [Bool.or_eq_false_iff, decide_eq_false_iff_not]
  constructor <;> omega

theorem handler_env_irrelevant (ext : Ext) (sx : Bool) (handle : iodine_http_request_handle_s)
    (xs : List VALUE) (st : Nat) (env1 env2 : List (VALUE × VALUE))
    (hstat : response_status ext (rb_ary_entry xs 0) = some st)
    (hlt : intptr_lt_300 st = false) :
    iodine_handle_request_in_GVL ext sx (some { rbresponse := some xs, env := env1 }) handle =
      iodine_handle_request_in_GVL ext sx (some { rbresponse := some xs, env := env2 })
        handle := by
  unfold iodine_handle_request_in_GVL
  simp only [hstat, hlt]
  rfl

/-- C14: a response whose status, as the signed value the code compares, is 300 or more is
never reviewed for an upgrade.  A Fixnum status `n` with `300 ≤ n` gives such a status; the
run of the request handler is then the same whatever the environment holds, so no marker has
any effect; and unless X-Sendfile applies, the run is the header copy followed by
`ruby2c_response_send`, with no effect of `ruby2c_review_upgrade` in between. -/
theorem no_upgrade_from_status_300 (ext : Ext) (sx : Bool)
    (handle : iodine_http_request_handle_s) (xs : List VALUE) (st : Nat)
    (hdrs : List (VALUE × VALUE)) (env env2 : List (VALUE × VALUE)) (n : Int)
    (hstat : response_status ext (rb_ary_entry xs 0) = some st)
    (h300 : 300 ≤ st) (hmax : st < 9223372036854775808) :
    (300 ≤ n → n < 4611686018427387904 →
        response_status ext (VALUE.fixnum n) = some n.toNat ∧ 300 ≤ n.toNat ∧
          n.toNat < 9223372036854775808) ∧
      iodine_handle_request_in_GVL ext sx (some { rbresponse := some xs, env := env })
          handle =
        iodine_handle_request_in_GVL ext sx (some { rbresponse := some xs, env := env2 })
          handle ∧
      (rb_ary_entry xs 1 = VALUE.hash hdrs →
        (sx = false ∨ TYPE (rb_hash_aref hdrs XSENDFILE) ≠ T_STRING) →
        iodine_handle_request_in_GVL ext sx (some { rbresponse := some xs, env := env })
            handle =
          if (ruby2c_response_send (set_status handle st) xs).1 ≠ 0 then
            internal_error (ruby2c_response_send (set_status handle st) xs).2.1
              (effs_call true ++ rb_hash_foreach_headers ext hdrs ++
                (ruby2c_response_send (set_status handle st) xs).2.2)
          else
            ((ruby2c_response_send (set_status handle st) xs).2.1,
              effs_call true ++ rb_hash_foreach_headers ext hdrs ++
                (ruby2c_response_send (set_status handle st) xs).2.2 ++
                [Effect.store_remove StoreRef.rbresponse,
                  Effect.store_remove StoreRef.env])) := by
  have hlt := intptr_lt_300_false st h300 hmax
  refine ⟨?_, handler_env_irrelevant ext sx handle xs st env env2 hstat hlt, ?_⟩
  · intro h1 h2
    have hmod : n % 18446744073709551616 = n := Int.emod_eq_of_lt (by omega) (by omega)
    refine ⟨?_, by omega, by omega⟩
    simp [response_status, to_uintptr, hmod]
  · intro hhdr hx
    exact handler_send_path ext sx { rbresponse := some xs, env := env } handle xs st hdrs
      rfl hstat hhdr hx (Or.inl hlt)

theorem no_upgrade_from_status_300_witness :
    (response_status sample_ext
        (rb_ary_entry [VALUE.fixnum 404, VALUE.hash [], VALUE.str "no".toList] 0) = some 404 ∧
      (300 : Nat) ≤ 404 ∧ (404 : Nat) < 9223372036854775808) ∧
      iodine_handle_request_in_GVL sample_ext false
          (some { rbresponse := some [VALUE.fixnum 404, VALUE.hash [], VALUE.str "no".toList],
                  env := [(VALUE.str "iodine.hijack_cb".toList, VALUE.obj 1 none false)] })
          { h := { status := 0 }, body := none, type := IODINE_HTTP_NONE,
            upgrade := IODINE_UPGRADE_NONE } =
        iodine_handle_request_in_GVL sample_ext false
          (some { rbresponse := some [VALUE.fixnum 404, VALUE.hash [], VALUE.str "no".toList],
                  env := [] })
          { h := { status := 0 }, body := none, type := IODINE_HTTP_NONE,
            upgrade := IODINE_UPGRADE_NONE } :=
  ⟨⟨rfl, by decide, by decide⟩,
    (no_upgrade_from_status_300 sample_ext false
      { h := { status := 0 }, body := none, type := IODINE_HTTP_NONE,
        upgrade := IODINE_UPGRADE_NONE }
      [VALUE.fixnum 404, VALUE.hash [], VALUE.str "no".toList] 404 []
      [(VALUE.str "iodine.hijack_cb".toList, VALUE.obj 1 none false)] [] 404
      rfl (by decide) (by decide)).2.1⟩


/-- C15 (as stated, refuted): on an ordinary request (upgrade class none) with status 200
whose environment carries none of the three markers but a `rack.upgrade` handler,
`ruby2c_review_upgrade` returns 1 after hijacking the socket, finishing the headers and
attaching the handler; the request ends with `IODINE_HTTP_NONE` and the body is not
handled. -/
theorem rack_upgrade_handler_takes_over_plain_request :
    ruby2c_review_upgrade sample_ext
        { h := { status := 200 }, body := none, type := IODINE_HTTP_NONE,
          upgrade := IODINE_UPGRADE_NONE }
        [VALUE.fixnum 200, VALUE.hash [], VALUE.str "body".toList]
        [(VALUE.str "rack.upgrade".toList, VALUE.obj 3 none false)] =
      (1, [Effect.http_hijack, Effect.http_finish, Effect.iodine_tcp_attch_uuid]) ∧
    on_rack_request sample_ext false
        (some { rbresponse := some [VALUE.fixnum 200, VALUE.hash [], VALUE.str "body".toList],
                env := [(VALUE.str "rack.upgrade".toList, VALUE.obj 3 none false)] })
        { status := 0 } =
      ({ h := { status := 200 }, body := none, type := IODINE_HTTP_NONE,
         upgrade := IODINE_UPGRADE_NONE },
        [Effect.store_add StoreRef.env, Effect.rack_io_create, Effect.rb_call_app,
          Effect.rack_io_close, Effect.store_add StoreRef.rbresponse,
          Effect.http_hijack, Effect.http_finish, Effect.iodine_tcp_attch_uuid,
          Effect.store_remove StoreRef.rbresponse, Effect.store_remove StoreRef.env]) := by
  decide

/-- C15 (amended): when the environment carries none of the markers `iodine.hijack_cb`,
`rack.hijack_io`, `upgrade.tcp` and no `rack.upgrade` handler, `ruby2c_review_upgrade`
returns 0 without any effect, for an ordinary request as well as after a WebSocket or SSE
handshake, and the request handler goes on with the response body (unless X-Sendfile
applies).  With a `rack.upgrade` handler and upgrade class none the socket is taken over as
raw TCP instead. -/
theorem upgrade_unavailable_falls_through (ext : Ext) (sx : Bool) (app : AppCall)
    (handle : iodine_http_request_handle_s) (xs : List VALUE) (st : Nat)
    (hdrs : List (VALUE × VALUE))
    (hcb : not_nil (rb_hash_aref app.env IODINE_R_HIJACK_CB) = false)
    (hio : not_nil (rb_hash_aref app.env IODINE_R_HIJACK_IO_KEY) = false)
    (htcp : not_nil (rb_hash_aref app.env UPGRADE_TCP) = false) :
    (not_nil (rb_hash_aref app.env RACK_UPGRADE) = false →
      ruby2c_review_upgrade ext (set_status handle st) xs app.env = (0, []) ∧
      (app.rbresponse = some xs →
        response_status ext (rb_ary_entry xs 0) = some st →
        rb_ary_entry xs 1 = VALUE.hash hdrs →
        (sx = false ∨ TYPE (rb_hash_aref hdrs XSENDFILE) ≠ T_STRING) →
        iodine_handle_request_in_GVL ext sx (some app) handle =
          if (ruby2c_response_send (set_status handle st) xs).1 ≠ 0 then
            internal_error (ruby2c_response_send (set_status handle st) xs).2.1
              (effs_call true ++ rb_hash_foreach_headers ext hdrs ++
                (ruby2c_response_send (set_status handle st) xs).2.2)
          else
            ((ruby2c_response_send (set_status handle st) xs).2.1,
              effs_call true ++ rb_hash_foreach_headers ext hdrs ++
                (ruby2c_response_send (set_status handle st) xs).2.2 ++
                [Effect.store_remove StoreRef.rbresponse,
                  Effect.store_remove StoreRef.env]))) ∧
    (not_nil (rb_hash_aref app.env RACK_UPGRADE) = true →
      handle.upgrade = IODINE_UPGRADE_NONE →
      ruby2c_review_upgrade ext (set_status handle st) xs app.env =
        (1, tcp_ip_upgrade ++ (upgraded xs).2)) := by
  constructor
  · intro hup
    have hrev := ruby2c_review_upgrade_no_marker ext (set_status handle st) xs app.env
      hcb hio htcp hup
    refine ⟨hrev, ?_⟩
    intro hresp hstat hhdr hx
    exact handler_send_path ext sx app handle xs st hdrs hresp hstat hhdr hx
      (Or.inr (by rw [hrev]))
  · intro hup hnone
    obtain ⟨hh, b, t, u⟩ := handle
    simp only at hnone
    subst hnone
    unfold ruby2c_review_upgrade
    simp [hcb, hio, htcp, hup, set_status]

theorem upgrade_unavailable_falls_through_witness :
    (not_nil (rb_hash_aref ([] : List (VALUE × VALUE)) IODINE_R_HIJACK_CB) = false ∧
      not_nil (rb_hash_aref ([] : List (VALUE × VALUE)) IODINE_R_HIJACK_IO_KEY) = false ∧
      not_nil (rb_hash_aref ([] : List (VALUE × VALUE)) UPGRADE_TCP) = false ∧
      not_nil (rb_hash_aref ([] : List (VALUE × VALUE)) RACK_UPGRADE) = false) ∧
      ruby2c_review_upgrade sample_ext
          (set_status
            { h := { status := 0 }, body := none, type := IODINE_HTTP_NONE,
              upgrade := IODINE_UPGRADE_WEBSOCKET } 200)
          [VALUE.fixnum 200, VALUE.hash [], VALUE.str "x".toList] [] = (0, []) :=
  ⟨⟨rfl, rfl, rfl, rfl⟩,
    ((upgrade_unavailable_falls_through sample_ext false
      { rbresponse := some [VALUE.fixnum 200, VALUE.hash [], VALUE.str "x".toList], env := [] }
      { h := { status := 0 }, body := none, type := IODINE_HTTP_NONE,
        upgrade := IODINE_UPGRADE_WEBSOCKET }
      [VALUE.fixnum 200, VALUE.hash [], VALUE.str "x".toList] 200 [] rfl rfl rfl).1 rfl).1⟩

theorem ruby2c_review_upgrade_ret (ext : Ext) (req : iodine_http_request_handle_s)
    (xs : List VALUE) (env : List (VALUE × VALUE)) :
    (ruby2c_review_upgrade ext req xs env).1 = 0 ∨
      (ruby2c_review_upgrade ext req xs env).1 = 1 := by
  obtain ⟨hh, b, t, u⟩ := req
  unfold ruby2c_review_upgrade upgraded
  cases u <;> simp only <;> split_ifs <;> simp

theorem close_count_review (ext : Ext) (req : iodine_http_request_handle_s)
    (xs : List VALUE) (env : List (VALUE × VALUE))
    (h : (ruby2c_review_upgrade ext req xs env).1 ≠ 0) :
    close_count (ruby2c_review_upgrade ext req xs env).2 =
      (if rb_respond_to_close (rb_ary_entry xs 2) then 1 else 0) := by
  have hws : close_count (iodine_ws_attach ext) = 0 := by
    unfold iodine_ws_attach; cases ext.connection_new_nil <;> rfl
  have hsse : close_count (iodine_sse_attach ext) = 0 := by
    unfold iodine_sse_attach; cases ext.connection_new_nil <;> rfl
  have htcp : close_count tcp_ip_upgrade = 0 := rfl
  have hcb : close_count
      [Effect.http_finish, Effect.rb_call_hijack, Effect.rb_call_hijack_cb] = 0 := rfl
  have hu := close_count_upgraded xs
  generalize (if rb_respond_to_close (rb_ary_entry xs 2) = true then 1 else 0) = N at hu ⊢
  obtain ⟨hh, b, t, u⟩ := req
  unfold ruby2c_review_upgrade at h ⊢
  cases u <;> simp only at h ⊢ <;> split_ifs at h ⊢ <;>
    first
      | exact absurd rfl h
      | simp only [close_count_append, hu, hws, hsse, htcp, hcb, Nat.zero_add]


theorem foreach_only_headers (ext : Ext) (kvs : List (VALUE × VALUE)) :
    ∀ e ∈ rb_hash_foreach_headers ext kvs, ∃ name value, e = Effect.http_set_header name value := by
  induction kvs with
  | nil => intro e he; simp [rb_hash_foreach_headers] at he
  | cons p rest ih =>
    obtain ⟨k, v⟩ := p
    have hk : ∀ e ∈ (for_each_header_data ext k v).2,
        ∃ name value, e = Effect.http_set_header name value := by
      intro e he
      unfold for_each_header_data at he
      simp only at he
      generalize (if TYPE k ≠ T_STRING then ext.to_s k else k) = key1 at he
      cases key1 with
      | str key_s =>
        simp only at he
        generalize (if TYPE v ≠ T_STRING then ext.to_s v else v) = val1 at he
        cases val1 with
        | str val_s =>
          simp only [List.mem_map] at he
          obtain ⟨w, _, hw⟩ := he
          exact ⟨_, _, hw.symm⟩
        | _ => simp at he
      | _ => simp at he
    intro e he
    unfold rb_hash_foreach_headers at he
    cases hr : for_each_header_data ext k v with
    | mk ret effs =>
      rw [hr] at he hk
      cases ret
      · simp only [List.mem_append] at he
        rcases he with h | h
        · exact hk e h
        · exact ih e h
      · exact hk e he

theorem review_effects_mem (ext : Ext) (req : iodine_http_request_handle_s)
    (xs : List VALUE) (env : List (VALUE × VALUE)) :
    ∀ e ∈ (ruby2c_review_upgrade ext req xs env).2,
      e ∈ [Effect.http_finish, Effect.rb_call_hijack, Effect.rb_call_hijack_cb,
        Effect.http_hijack, Effect.iodine_tcp_attch_uuid, Effect.iodine_connection_new,
        Effect.http_upgrade2ws, Effect.http_upgrade2sse] ∨ ∃ id, e = Effect.rb_close id := by
  intro e he
  have hu := upgraded_only_closes xs
  obtain ⟨hh, b, t, u⟩ := req
  unfold ruby2c_review_upgrade iodine_ws_attach iodine_sse_attach tcp_ip_upgrade at he
  cases u <;> simp only at he <;> split_ifs at he <;>
    first
      | (simp at he; done)
      | exact Or.inr (hu e he)
      | (rcases List.mem_append.mp he with h | h
         · left
           simp only [List.mem_cons, List.mem_singleton, List.not_mem_nil, or_false] at h ⊢
           tauto
         · exact Or.inr (hu e h))

/-- C16: whenever `ruby2c_review_upgrade` reports an upgrade (a non-zero return value, which
is then 1), the `close` method of the response body is called exactly once if the body
responds to `close` and never otherwise (`nil` does not respond to it); the request handler
then ends at `external_done`: the action is `IODINE_HTTP_NONE`, the body buffer is untouched,
no chunk is written to a buffer, `iodine_perform_handle_action` does nothing, and the whole
request contains that one `close` call at most. -/
theorem upgraded_closes_body_once (ext : Ext) (sx : Bool) (app : AppCall)
    (handle : iodine_http_request_handle_s) (xs : List VALUE) (st : Nat)
    (hdrs : List (VALUE × VALUE))
    (hup : (ruby2c_review_upgrade ext (set_status handle st) xs app.env).1 ≠ 0) :
    (ruby2c_review_upgrade ext (set_status handle st) xs app.env).1 = 1 ∧
      close_count (ruby2c_review_upgrade ext (set_status handle st) xs app.env).2 =
        (if rb_respond_to_close (rb_ary_entry xs 2) then 1 else 0) ∧
      rb_respond_to_close VALUE.Qnil = false ∧
      (app.rbresponse = some xs →
        response_status ext (rb_ary_entry xs 0) = some st →
        rb_ary_entry xs 1 = VALUE.hash hdrs →
        (sx = false ∨ TYPE (rb_hash_aref hdrs XSENDFILE) ≠ T_STRING) →
        intptr_lt_300 st = true →
        iodine_handle_request_in_GVL ext sx (some app) handle =
            external_done (set_status handle st)
              (effs_call true ++ rb_hash_foreach_headers ext hdrs ++
                (ruby2c_review_upgrade ext (set_status handle st) xs app.env).2) ∧
          (iodine_handle_request_in_GVL ext sx (some app) handle).1.type = IODINE_HTTP_NONE ∧
          (iodine_handle_request_in_GVL ext sx (some app) handle).1.body = handle.body ∧
          close_count (iodine_handle_request_in_GVL ext sx (some app) handle).2 =
            (if rb_respond_to_close (rb_ary_entry xs 2) then 1 else 0) ∧
          (∀ chunk, Effect.fiobj_str_write chunk ∉
            (iodine_handle_request_in_GVL ext sx (some app) handle).2) ∧
          iodine_perform_handle_action ext
            (iodine_handle_request_in_GVL ext sx (some app) handle).1 = []) := by
  have hret : (ruby2c_review_upgrade ext (set_status handle st) xs app.env).1 = 1 := by
    rcases ruby2c_review_upgrade_ret ext (set_status handle st) xs app.env with h | h
    · exact absurd h hup
    · exact h
  have hclose := close_count_review ext (set_status handle st) xs app.env hup
  refine ⟨hret, hclose, rfl, ?_⟩
  intro hresp hstat hhdr hx hlt
  have hrun := handler_upgrade_path ext sx app handle xs st hdrs hresp hstat hhdr hx hlt hup
  rw [hrun]
  refine ⟨rfl, rfl, rfl, ?_, ?_, rfl⟩
  · have hf : close_count (rb_hash_foreach_headers ext hdrs) = 0 := by
      unfold close_count
      rw [List.countP_eq_zero]
      intro e he
      obtain ⟨n, v, rfl⟩ := foreach_only_headers ext hdrs e he
      simp
    have h1 : close_count (effs_call true) = 0 := rfl
    have h2 : close_count
        [Effect.store_remove StoreRef.rbresponse, Effect.store_remove StoreRef.env] = 0 := rfl
    simp only [external_done, close_count_append, hclose, hf, h1, h2, Nat.zero_add,
      Nat.add_zero]
  · intro chunk hm
    simp only [external_done, List.mem_append, effs_call] at hm
    rcases hm with ((h | h) | h) | h
    · simp at h
    · obtain ⟨n, v, hnv⟩ := foreach_only_headers ext hdrs _ h
      cases hnv
    · rcases review_effects_mem ext _ xs app.env _ h with h2 | ⟨id, h2⟩
      · simp at h2
      · cases h2
    · simp at h

theorem upgraded_closes_body_once_witness :
    ((ruby2c_review_upgrade sample_ext
        (set_status
          { h := { status := 0 }, body := none, type := IODINE_HTTP_NONE,
            upgrade := IODINE_UPGRADE_SSE } 200)
        [VALUE.fixnum 200, VALUE.hash [], VALUE.obj 9 (some []) true]
        [(VALUE.str "rack.upgrade".toList, VALUE.obj 3 none false)]).1 ≠ 0) ∧
      iodine_handle_request_in_GVL sample_ext false
          (some { rbresponse := some [VALUE.fixnum 200, VALUE.hash [],
                    VALUE.obj 9 (some []) true],
                  env := [(VALUE.str "rack.upgrade".toList, VALUE.obj 3 none false)] })
          { h := { status := 0 }, body := none, type := IODINE_HTTP_NONE,
            upgrade := IODINE_UPGRADE_SSE } =
        ({ h := { status := 200 }, body := none, type := IODINE_HTTP_NONE,
           upgrade := IODINE_UPGRADE_SSE },
          [Effect.store_add StoreRef.env, Effect.rack_io_create, Effect.rb_call_app,
            Effect.rack_io_close, Effect.store_add StoreRef.rbresponse,
            Effect.iodine_connection_new, Effect.http_upgrade2sse, Effect.rb_close 9,
            Effect.store_remove StoreRef.rbresponse, Effect.store_remove StoreRef.env]) := by
  refine ⟨by decide, ?_⟩
  rw [((upgraded_closes_body_once sample_ext false
    { rbresponse := some [VALUE.fixnum 200, VALUE.hash [], VALUE.obj 9 (some []) true],
      env := [(VALUE.str "rack.upgrade".toList, VALUE.obj 3 none false)] }
    { h := { status := 0 }, body := none, type := IODINE_HTTP_NONE,
      upgrade := IODINE_UPGRADE_SSE }
    [VALUE.fixnum 200, VALUE.hash [], VALUE.obj 9 (some []) true] 200 []
    (by decide)).2.2.2 rfl rfl rfl (Or.inl rfl) (by decide)).1]
  decide

/-! ## The request side -/

theorem key_is_str (k k' : Bytes) : key_is k' (VALUE.str k) = decide (k = k') := by
  by_cases h : k = k' <;> simp [key_is, h]

theorem key_is_fst_of_key_is (k k' : Bytes) (x : VALUE) (hne : k ≠ k')
    (h : key_is k x = true) : key_is k' x = false := by
  rw [key_is_iff] at h
  subst h
  simp [key_is, hne]

theorem find_map_aset_ne (env : List (VALUE × VALUE)) (k k' : Bytes) (v : VALUE)
    (hne : k ≠ k') :
    (env.map (fun p => if key_is k p.1 then (p.1, v) else p)).find? (fun p => key_is k' p.1)
      = env.find? (fun p => key_is k' p.1) := by
  induction env with
  | nil => rfl
  | cons p ps ih =>
    rw [List.map_cons, List.find?_cons, List.find?_cons, ih]
    cases hk : key_is k p.1
    · simp
    · have h2 := key_is_fst_of_key_is k k' p.1 hne hk
      simp [h2]

theorem find_map_aset_same (env : List (VALUE × VALUE)) (k : Bytes) (v : VALUE)
    (h : env.any (fun p => key_is k p.1) = true) :
    ((env.map (fun p => if key_is k p.1 then (p.1, v) else p)).find?
      (fun p => key_is k p.1)).map (fun p => p.2) = some v := by
  induction env with
  | nil => simp at h
  | cons p ps ih =>
    rw [List.map_cons, List.find?_cons]
    cases hk : key_is k p.1
    · simp only [Bool.false_eq_true, if_false, hk]
      apply ih
      simpa [hk] using h
    · simp [hk]

theorem find_none_of_any_false (env : List (VALUE × VALUE)) (k : Bytes)
    (h : env.any (fun p => key_is k p.1) = false) :
    env.find? (fun p => key_is k p.1) = none := by
  rw [List.find?_eq_none]
  intro x hx
  rw [List.any_eq_false] at h
  exact h x hx

/-- Reading a Hash after `rb_hash_aset`: the key just set holds the new value, every other
key holds what it held. -/
theorem rb_hash_aref_aset (env : List (VALUE × VALUE)) (k k' : Bytes) (v : VALUE) :
    rb_hash_aref (rb_hash_aset env k v) k' = if k = k' then v else rb_hash_aref env k' := by
  unfold rb_hash_aset rb_hash_aref
  by_cases hkk : k = k'
  · subst hkk
    simp only [if_true]
    cases hany : env.any (fun p => key_is k p.1)
    · simp only [Bool.false_eq_true, if_false]
      rw [List.find?_append, find_none_of_any_false env k hany]
      simp [key_is]
    · simp only [if_true]
      have h := find_map_aset_same env k v hany
      cases hf : (env.map (fun p => if key_is k p.1 then (p.1, v) else p)).find?
          (fun p => key_is k p.1) with
      | none => rw [hf] at h; simp at h
      | some q => rw [hf] at h; simp at h; simp [h]
  · simp only [hkk, if_false]
    cases hany : env.any (fun p => key_is k p.1)
    · simp only [Bool.false_eq_true, if_false]
      rw [List.find?_append]
      cases hf : env.find? (fun p => key_is k' p.1) with
      | some q => simp
      | none => simp [key_is, hkk]
    · simp only [if_true]
      rw [find_map_aset_ne env k k' v hkk]

theorem key_count_map_aset (env : List (VALUE × VALUE)) (k k' : Bytes) (v : VALUE) :
    key_count (env.map (fun p => if key_is k p.1 then (p.1, v) else p)) k' = key_count env k' := by
  unfold key_count
  induction env with
  | nil => rfl
  | cons p ps ih =>
    rw [List.map_cons, List.countP_cons, List.countP_cons, ih]
    cases hk : key_is k p.1 <;> simp

theorem key_count_eq_zero_of_any_false (env : List (VALUE × VALUE)) (k : Bytes)
    (h : env.any (fun p => key_is k p.1) = false) : key_count env k = 0 := by
  unfold key_count
  rw [List.countP_eq_zero]
  intro x hx
  rw [List.any_eq_false] at h
  exact h x hx

/-- Counting a key after `rb_hash_aset`: another key's count is unchanged; the key just set
is there once if it was not there, and as often as before otherwise. -/
theorem key_count_aset (env : List (VALUE × VALUE)) (k k' : Bytes) (v : VALUE) :
    key_count (rb_hash_aset env k v) k' =
      if k = k' then max 1 (key_count env k') else key_count env k' := by
  unfold rb_hash_aset
  cases hany : env.any (fun p => key_is k p.1)
  · simp only [Bool.false_eq_true, if_false]
    have h0 := key_count_eq_zero_of_any_false env k hany
    have happ : key_count (env ++ [(VALUE.str k, v)]) k' =
        key_count env k' + (if k = k' then 1 else 0) := by
      unfold key_count
      rw [List.countP_append]
      by_cases hkk : k = k' <;> simp [hkk, key_is]
    rw [happ]
    by_cases hkk : k = k'
    · subst hkk
      simp [h0]
    · simp [hkk]
  · simp only [if_true]
    rw [key_count_map_aset]
    by_cases hkk : k = k'
    · subst hkk
      simp only [if_true]
      have : 0 < key_count env k := by
        unfold key_count
        rw [List.countP_pos_iff]
        rw [List.any_eq_true] at hany
        exact hany
      omega
    · simp [hkk]

theorem key_count_aset_one (env : List (VALUE × VALUE)) (k k' : Bytes) (v : VALUE)
    (h : key_count env k' = 1) : key_count (rb_hash_aset env k v) k' = 1 := by
  rw [key_count_aset]
  split_ifs <;> simp [h]

theorem and_223 (n : Nat) (h1 : 97 ≤ n) (h2 : n ≤ 122) : n &&& 223 = n - 32 := by
  interval_cases n <;> rfl

theorem to_upper_eq_toUpper : to_upper = Char.toUpper := by
  funext c
  unfold to_upper Char.toUpper
  by_cases h : 97 ≤ c.toNat ∧ c.toNat ≤ 122
  · simp only [h, and_self, if_true, ge_iff_le, and_223 c.toNat h.1 h.2]
  · simp only [h, if_false, ge_iff_le]

theorem hname_byte_eq (c : Char) :
    hname_byte c = if c = '-' then '_' else if c.isLower then c.toUpper else c := by
  unfold hname_byte
  rw [to_upper_eq_toUpper]
  by_cases h1 : c = '-'
  · simp [h1]
  · simp only [h1, if_false]
    by_cases h2 : c.isLower = true
    · simp [h2]
    · simp only [h2, Bool.false_eq_true, if_false]
      unfold Char.toUpper
      have h3 : ¬ (c.toNat ≥ 97 ∧ c.toNat ≤ 122) := by
        intro h
        apply h2
        unfold Char.isLower
        simp only [Bool.and_eq_true, decide_eq_true_eq, ge_iff_le]
        exact ⟨(UInt32.le_def).2 (by simpa using h.1), (UInt32.le_def).2 (by simpa using h.2)⟩
      simp only [h3, if_false]

theorem hname_fill_eq (cap : Nat) (cs : List Char) (i : Nat) (buf : Bytes)
    (h : i + cs.length + 5 ≤ cap) :
    hname_fill cap cs i buf = some (buf ++ cs.map hname_byte) := by
  induction cs generalizing i buf with
  | nil => simp [hname_fill]
  | cons c cs ih =>
    have h1 : i + 5 < cap := by simp only [List.length_cons] at h; omega
    simp only [hname_fill, h1, if_true]
    rw [ih (i + 1) _ (by simp only [List.length_cons] at h; omega)]
    simp

/-- The name built by `iodine_copy2env_task` on either path is the key the specification
describes; no write leaves the buffer. -/
theorem copy2env_hname_eq (n : Bytes) : copy2env_hname n = some (spec_header_key n) := by
  have hk : spec_header_key n = "HTTP_".toList ++ n.map hname_byte := by
    unfold spec_header_key
    congr 1
    apply List.map_congr_left
    intro c _
    rw [hname_byte_eq]
  unfold copy2env_hname
  rw [hk]
  split_ifs with h
  · exact hname_fill_eq _ n 0 _ (by omega)
  · exact hname_fill_eq _ n 0 _ (by omega)

theorem iodine_copy2env_task_eq (env : List (VALUE × VALUE)) (n : Bytes) (o : FIOBJ) :
    iodine_copy2env_task env n o =
      some (rb_hash_aset env (spec_header_key n)
        (match o with
          | FIOBJ.str s => VALUE.str s
          | FIOBJ.ary xs => VALUE.ary (xs.map VALUE.str))) := by
  unfold iodine_copy2env_task
  rw [copy2env_hname_eq]
  cases o <;> rfl

theorem fiobj_each1_copy2env_preserves (P : List (VALUE × VALUE) → Prop) (Q : Bytes → Prop)
    (hP : ∀ env k v, Q k → P env → P (rb_hash_aset env k v))
    (hs : List (Bytes × FIOBJ)) (hQ : ∀ p ∈ hs, Q (spec_header_key p.1))
    (env env1 : List (VALUE × VALUE)) (h : fiobj_each1_copy2env hs env = some env1)
    (h0 : P env) : P env1 := by
  induction hs generalizing env with
  | nil =>
    simp only [fiobj_each1_copy2env, Option.some.injEq] at h
    rw [← h]; exact h0
  | cons p ps ih =>
    obtain ⟨n, o⟩ := p
    simp only [fiobj_each1_copy2env, iodine_copy2env_task_eq] at h
    exact ih (fun q hq => hQ q (List.mem_cons_of_mem _ hq)) _ h
      (hP _ _ _ (hQ (n, o) (List.mem_cons_self _ _)) h0)

theorem fiobj_each1_copy2env_returns (hs : List (Bytes × FIOBJ))
    (env : List (VALUE × VALUE)) : ∃ env1, fiobj_each1_copy2env hs env = some env1 := by
  induction hs generalizing env with
  | nil => exact ⟨env, rfl⟩
  | cons p ps ih =>
    obtain ⟨n, o⟩ := p
    simp only [fiobj_each1_copy2env, iodine_copy2env_task_eq]
    exact ih _

theorem copy2env_scheme_preserves (P : List (VALUE × VALUE) → Prop) (Q : Bytes → Prop)
    (hP : ∀ env k v, Q k → P env → P (rb_hash_aset env k v)) (hQ : Q R_URL_SCHEME)
    (rx : ReqExt) (hs : List (Bytes × FIOBJ)) (env env1 : List (VALUE × VALUE))
    (h : copy2env_scheme rx hs env = some env1) (h0 : P env) : P env1 := by
  unfold copy2env_scheme at h
  split at h
  · simp only at h
    split_ifs at h <;> (simp only [Option.some.injEq] at h; rw [← h]; exact hP _ _ _ hQ h0)
  · split at h
    · split at h
      · simp only [Option.some.injEq] at h; rw [← h]; exact h0
      · split at h
        · cases h
        · cases h
        · simp only [Option.some.injEq] at h; rw [← h]; exact h0
        · simp only [Option.some.injEq] at h; rw [← h]; exact hP _ _ _ hQ h0
        · simp only [Option.some.injEq] at h; rw [← h]; exact hP _ _ _ hQ h0
        · simp only [Option.some.injEq] at h; rw [← h]; exact hP _ _ _ hQ h0
    · simp only [Option.some.injEq] at h; rw [← h]; exact h0

theorem copy2env_content_length_preserves (P : List (VALUE × VALUE) → Prop) (Q : Bytes → Prop)
    (hP : ∀ env k v, Q k → P env → P (rb_hash_aset env k v)) (hQ : Q CONTENT_LENGTH)
    (rx : ReqExt) (hs : List (Bytes × FIOBJ)) (env : List (VALUE × VALUE)) (h0 : P env) :
    P (copy2env_content_length rx hs env).1 := by
  unfold copy2env_content_length
  split
  · split
    · exact hP _ _ _ hQ h0
    · exact h0
  · exact h0

theorem copy2env_content_type_preserves (P : List (VALUE × VALUE) → Prop) (Q : Bytes → Prop)
    (hP : ∀ env k v, Q k → P env → P (rb_hash_aset env k v)) (hQ : Q CONTENT_TYPE)
    (rx : ReqExt) (hs : List (Bytes × FIOBJ)) (env : List (VALUE × VALUE)) (h0 : P env) :
    P (copy2env_content_type rx hs env).1 := by
  unfold copy2env_content_type
  split
  · split
    · split_ifs
      · exact hP _ _ _ hQ h0
      · exact h0
    · exact h0
  · exact h0

theorem mem_fiobj_hash_delete2 (hs : List (Bytes × FIOBJ)) (name : Bytes) (p : Bytes × FIOBJ) :
    p ∈ fiobj_hash_delete2 hs name ↔ p ∈ hs ∧ p.1 ≠ name := by
  unfold fiobj_hash_delete2
  rw [List.mem_filter]
  simp

theorem copy2env_content_length_headers (rx : ReqExt) (hs : List (Bytes × FIOBJ))
    (env : List (VALUE × VALUE)) (p : Bytes × FIOBJ)
    (hp : p ∈ (copy2env_content_length rx hs env).2) : p ∈ hs := by
  unfold copy2env_content_length at hp
  split at hp
  · split at hp
    · exact ((mem_fiobj_hash_delete2 _ _ _).1 hp).1
    · exact hp
  · exact hp

theorem copy2env_content_type_headers (rx : ReqExt) (hs : List (Bytes × FIOBJ))
    (env : List (VALUE × VALUE)) (p : Bytes × FIOBJ)
    (hp : p ∈ (copy2env_content_type rx hs env).2.1) : p ∈ hs := by
  unfold copy2env_content_type at hp
  split at hp
  · split at hp
    · split_ifs at hp
      · exact ((mem_fiobj_hash_delete2 _ _ _).1 hp).1
      · exact hp
    · exact hp
  · exact hp

theorem copy2env_host_preserves (P : List (VALUE × VALUE) → Prop) (Q : Bytes → Prop)
    (hP : ∀ env k v, Q k → P env → P (rb_hash_aset env k v)) (hQ1 : Q SERVER_NAME)
    (hQ2 : Q SERVER_PORT) (tmp : Option Bytes) (env env1 : List (VALUE × VALUE))
    (h : copy2env_host tmp env = some env1) (h0 : P env) : P env1 := by
  unfold copy2env_host at h
  cases tmp with
  | none => cases h
  | some data =>
    simp only at h
    split_ifs at h <;>
      (simp only [Option.some.injEq] at h; rw [← h]
       exact hP _ _ _ hQ2 (hP _ _ _ hQ1 h0))

theorem copy2env_basic_preserves (P : List (VALUE × VALUE) → Prop) (Q : Bytes → Prop)
    (hP : ∀ env k v, Q k → P env → P (rb_hash_aset env k v)) (hQ1 : Q REQUEST_METHOD)
    (hQ2 : Q PATH_INFO) (hQ3 : Q QUERY_STRING) (hQ4 : Q SERVER_PROTOCOL) (hQ5 : Q HTTP_VERSION)
    (hQ6 : Q REMOTE_ADDR) (sx : Bool) (up : iodine_upgrade_type_enum) (h : http_request_s)
    (h0 : P (env_template_websockets) ∧ P (env_template_sse) ∧ P (env_template_no_upgrade sx)) :
    P (copy2env_basic sx up h) := by
  unfold copy2env_basic
  obtain ⟨hw, hsse, hno⟩ := h0
  cases up <;> cases h.query <;> simp only [] <;> split_ifs <;>
    first
    | exact hP _ _ _ hQ6 (hP _ _ _ hQ5 (hP _ _ _ hQ4 (hP _ _ _ hQ3 (hP _ _ _ hQ2
        (hP _ _ _ hQ1 (by assumption))))))
    | exact hP _ _ _ hQ5 (hP _ _ _ hQ4 (hP _ _ _ hQ3 (hP _ _ _ hQ2
        (hP _ _ _ hQ1 (by assumption)))))

/-- What `copy2env` does after the Host step, for a property `P` of the environment that
every `rb_hash_aset` on a key satisfying `Q` keeps: a returned environment is reached from
the environment `env2` of the Host step through such calls only, when `Q` holds for the
three keys set by the later steps and for the key of every request header. -/
theorem copy2env_tail (rx : ReqExt) (sx : Bool) (up : iodine_upgrade_type_enum)
    (h : http_request_s) (r : copy2env_result) (hr : copy2env rx sx up h = some r) :
    ∃ env2, copy2env_host (obj2cstr rx (fiobj_hash_get2 h.headers "host".toList))
        (copy2env_basic sx up h) = some env2 ∧
      ∀ (P : List (VALUE × VALUE) → Prop) (Q : Bytes → Prop),
        (∀ env k v, Q k → P env → P (rb_hash_aset env k v)) →
        Q CONTENT_LENGTH → Q CONTENT_TYPE → Q R_URL_SCHEME →
        (∀ p ∈ h.headers, Q (spec_header_key p.1)) → P env2 → P r.env := by
  unfold copy2env at hr
  simp only at hr
  split at hr
  · cases hr
  · rename_i env2 henv2
    refine ⟨env2, henv2, ?_⟩
    intro P Q hP hcl hct hs hh h2
    split at hr
    · cases hr
    · rename_i env3 henv3
      split at hr
      · cases hr
      · rename_i env4 henv4
        simp only [Option.some.injEq] at hr
        rw [← hr]
        simp only
        have hmem : ∀ p ∈ (copy2env_content_type rx
            (copy2env_content_length rx h.headers env2).2
            (copy2env_content_length rx h.headers env2).1).2.1, Q (spec_header_key p.1) :=
          fun p hp => hh p (copy2env_content_length_headers _ _ _ _
            (copy2env_content_type_headers _ _ _ _ hp))
        exact fiobj_each1_copy2env_preserves P Q hP _ hmem _ _ henv4
          (copy2env_scheme_preserves P Q hP hs _ _ _ _ henv3
            (copy2env_content_type_preserves P Q hP hct _ _ _
              (copy2env_content_length_preserves P Q hP hcl _ _ _ h2)))

theorem match_chain_false_lt (s : Bytes) (pat : List Char) (pos p : Nat)
    (h : match_chain s pat pos = some (false, p)) : pos < p := by
  induction pat generalizing pos with
  | nil => simp [match_chain] at h
  | cons c cs ih =>
    unfold match_chain at h
    split at h
    · cases h
    · split_ifs at h
      · have := ih _ h
        omega
      · simp only [Option.some.injEq, Prod.mk.injEq, true_and] at h
        omega

theorem forwarded_token_fuel (s : Bytes) (pos : Nat) :
    forwarded_token s pos ≠ forwarded_result.out_of_fuel := by
  unfold forwarded_token
  split
  · simp
  · split
    · simp
    · split_ifs <;> simp
  · split_ifs <;> simp

theorem cstr_at_lt (s : Bytes) (pos : Nat) (c : Char) (h : cstr_at s pos = some c)
    (hc : c ≠ '\x00') : pos < s.length := by
  unfold cstr_at at h
  split_ifs at h with h1 h2
  · exact h1
  · simp only [Option.some.injEq] at h
    exact absurd h.symm hc

theorem forwarded_loop_fuel (s : Bytes) (fuel pos : Nat) (h1 : 1 ≤ fuel)
    (h2 : s.length + 2 ≤ pos + fuel) :
    forwarded_loop s fuel pos ≠ forwarded_result.out_of_fuel := by
  induction fuel generalizing pos with
  | zero => omega
  | succ f ih =>
    unfold forwarded_loop
    split
    · simp
    · rename_i c hc
      split_ifs with h0
      · simp
      · have hlt := cstr_at_lt s pos c hc h0
        split
        · simp
        · exact forwarded_token_fuel _ _
        · rename_i p hp
          have := match_chain_false_lt _ _ _ _ hp
          exact ih p (by omega) (by omega)

/-- The bound on the iterations of the `Forwarded` scan is never reached. -/
theorem forwarded_scan_fuel (s : Bytes) : forwarded_scan s ≠ forwarded_result.out_of_fuel :=
  forwarded_loop_fuel s _ 0 (by omega) (by omega)

theorem fiobj_hash_get2_delete2 (hs : List (Bytes × FIOBJ)) (name name1 : Bytes)
    (hne : name ≠ name1) :
    fiobj_hash_get2 (fiobj_hash_delete2 hs name) name1 = fiobj_hash_get2 hs name1 := by
  unfold fiobj_hash_get2 fiobj_hash_delete2
  induction hs with
  | nil => rfl
  | cons p ps ih =>
    by_cases h1 : p.1 = name
    · have h2 : ¬ p.1 = name1 := fun h => hne (h1.symm.trans h)
      simp only [List.filter_cons, h1, beq_self_eq_true, Bool.not_true, Bool.false_eq_true,
        if_false, List.find?_cons]
      have h3 : (name == name1) = false := by simpa using hne
      rw [h3]
      simpa [h1] using ih
    · have h3 : (p.1 == name) = false := by simpa using h1
      simp only [List.filter_cons, h3, Bool.not_false, if_true, List.find?_cons]
      cases hb : p.1 == name1
      · simpa [h3] using ih
      · rfl

theorem copy2env_content_length_get2 (rx : ReqExt) (hs : List (Bytes × FIOBJ))
    (env : List (VALUE × VALUE)) (name : Bytes) (hne : "content-length".toList ≠ name) :
    fiobj_hash_get2 (copy2env_content_length rx hs env).2 name = fiobj_hash_get2 hs name := by
  unfold copy2env_content_length
  split
  · split
    · exact fiobj_hash_get2_delete2 _ _ _ hne
    · rfl
  · rfl

theorem copy2env_content_type_get2 (rx : ReqExt) (hs : List (Bytes × FIOBJ))
    (env : List (VALUE × VALUE)) (name : Bytes) (hne : "content-type".toList ≠ name) :
    fiobj_hash_get2 (copy2env_content_type rx hs env).2.1 name = fiobj_hash_get2 hs name := by
  unfold copy2env_content_type
  split
  · split
    · split_ifs
      · exact fiobj_hash_get2_delete2 _ _ _ hne
      · rfl
    · rfl
  · rfl

theorem copy2env_scheme_returns (rx : ReqExt) (hs : List (Bytes × FIOBJ))
    (env : List (VALUE × VALUE))
    (hfw : ∀ o s, fiobj_hash_get2 hs "forwarded".toList = some o →
      obj2cstr rx (some o) = some s → forwarded_scan s ≠ forwarded_result.out_of_bounds) :
    ∃ env1, copy2env_scheme rx hs env = some env1 := by
  unfold copy2env_scheme
  split
  · simp only
    split_ifs <;> exact ⟨_, rfl⟩
  · split
    · rename_i o ho
      split
      · exact ⟨_, rfl⟩
      · rename_i s hs1
        have h1 := hfw o s ho hs1
        have h2 := forwarded_scan_fuel s
        split
        · rename_i hx; exact absurd hx h1
        · rename_i hx; exact absurd hx h2
        · exact ⟨_, rfl⟩
        · exact ⟨_, rfl⟩
        · exact ⟨_, rfl⟩
        · exact ⟨_, rfl⟩
    · exact ⟨_, rfl⟩

theorem copy2env_host_returns (data : Bytes) (env : List (VALUE × VALUE)) :
    ∃ env1, copy2env_host (some data) env = some env1 := by
  unfold copy2env_host
  simp only
  split_ifs <;> exact ⟨_, rfl⟩

/-- When `copy2env` returns: the Host view must not be a NULL pointer and the scan of a
`Forwarded` value must stay inside the value; then an environment is built. -/
theorem copy2env_returns (rx : ReqExt) (sx : Bool) (up : iodine_upgrade_type_enum)
    (h : http_request_s) (data : Bytes)
    (hhost : obj2cstr rx (fiobj_hash_get2 h.headers "host".toList) = some data)
    (hfw : ∀ o s, fiobj_hash_get2 h.headers "forwarded".toList = some o →
      obj2cstr rx (some o) = some s → forwarded_scan s ≠ forwarded_result.out_of_bounds) :
    ∃ r, copy2env rx sx up h = some r := by
  unfold copy2env
  simp only [hhost]
  obtain ⟨env2, h2⟩ := copy2env_host_returns data (copy2env_basic sx up h)
  rw [h2]
  simp only
  have hg : fiobj_hash_get2 (copy2env_content_type rx
      (copy2env_content_length rx h.headers env2).2
      (copy2env_content_length rx h.headers env2).1).2.1 "forwarded".toList =
      fiobj_hash_get2 h.headers "forwarded".toList := by
    rw [copy2env_content_type_get2 _ _ _ _ (by decide),
      copy2env_content_length_get2 _ _ _ _ (by decide)]
  obtain ⟨env3, h3⟩ := copy2env_scheme_returns rx (copy2env_content_type rx
      (copy2env_content_length rx h.headers env2).2
      (copy2env_content_length rx h.headers env2).1).2.1 (copy2env_content_type rx
      (copy2env_content_length rx h.headers env2).2
      (copy2env_content_length rx h.headers env2).1).1 (by rw [hg]; exact hfw)
  rw [h3]
  simp only
  obtain ⟨env4, h4⟩ := fiobj_each1_copy2env_returns (copy2env_content_type rx
      (copy2env_content_length rx h.headers env2).2
      (copy2env_content_length rx h.headers env2).1).2.1 env3
  rw [h4]
  exact ⟨_, rfl⟩

theorem spec_header_key_ne (n k : Bytes) (hk : k.take 5 ≠ "HTTP_".toList) :
    spec_header_key n ≠ k := by
  intro h
  apply hk
  rw [← h]
  unfold spec_header_key
  exact List.take_left' rfl

theorem host_scan_spec (hv : Bytes) (hnul : '\x00' ∉ hv) :
    hv.take (host_scan hv) = hv.takeWhile (fun c => c != ':') ∧
      hv.drop (host_scan hv + 1) = (hv.dropWhile (fun c => c != ':')).tail ∧
      (hv.getD (host_scan hv) '\x00' = '\x00' ↔ ':' ∉ hv) := by
  induction hv with
  | nil => simp [host_scan]
  | cons c cs ih =>
    have hc : c ≠ '\x00' := fun h => hnul (by simp [h])
    have hcs : '\x00' ∉ cs := fun h => hnul (List.mem_cons_of_mem _ h)
    obtain ⟨ih1, ih2, ih3⟩ := ih hcs
    by_cases h : c = ':'
    · subst h
      simp [host_scan, List.takeWhile_cons, List.dropWhile_cons]
    · have hs : host_scan (c :: cs) = host_scan cs + 1 := by
        simp [host_scan, hc, h]
      rw [hs]
      refine ⟨?_, ?_, ?_⟩
      · simp [List.takeWhile_cons, h, ih1]
      · simp only [List.drop_succ_cons, ih2]
        simp [List.dropWhile_cons, h]
      · rw [List.getD_cons_succ, ih3]
        simp [Ne.symm h]

theorem split_colon (hv : Bytes) :
    (':' ∉ hv → hv.takeWhile (fun c => c != ':') = hv ∧
        (hv.dropWhile (fun c => c != ':')).tail = []) ∧
      (':' ∈ hv → hv.takeWhile (fun c => c != ':') ++
        ':' :: (hv.dropWhile (fun c => c != ':')).tail = hv) := by
  induction hv with
  | nil => simp
  | cons c cs ih =>
    by_cases h : c = ':'
    · subst h
      simp [List.takeWhile_cons, List.dropWhile_cons]
    · obtain ⟨ih1, ih2⟩ := ih
      constructor
      · intro hm
        have hm2 : ':' ∉ cs := fun hx => hm (List.mem_cons_of_mem _ hx)
        simp [List.takeWhile_cons, List.dropWhile_cons, h, ih1 hm2]
      · intro hm
        have hm2 : ':' ∈ cs := by
          rcases List.mem_cons.1 hm with hx | hx
          · exact absurd hx.symm h
          · exact hx
        simp [List.takeWhile_cons, List.dropWhile_cons, h, ih2 hm2]

theorem copy2env_host_spec (hv : Bytes) (hnul : '\x00' ∉ hv) (env : List (VALUE × VALUE)) :
    ∃ env2, copy2env_host (some hv) env = some env2 ∧
      rb_hash_aref env2 SERVER_NAME = VALUE.str (hv.takeWhile (fun c => c != ':')) ∧
      rb_hash_aref env2 SERVER_PORT =
        VALUE.str ((hv.dropWhile (fun c => c != ':')).tail) := by
  obtain ⟨h1, h2, h3⟩ := host_scan_spec hv hnul
  have hne : SERVER_PORT ≠ SERVER_NAME := by decide
  unfold copy2env_host
  simp only
  by_cases hc : ':' ∈ hv
  · have h4 : ¬ hv.getD (host_scan hv) '\x00' = '\x00' := fun hx => (h3.1 hx) hc
    simp only [h4, if_false]
    refine ⟨_, rfl, ?_, ?_⟩
    · rw [rb_hash_aref_aset, if_neg hne, rb_hash_aref_aset, if_pos rfl, h1]
    · rw [rb_hash_aref_aset, if_pos rfl, h2]
      congr 1
      apply List.take_of_length_le
      rw [← h2, List.length_drop]
  · have h4 : hv.getD (host_scan hv) '\x00' = '\x00' := h3.2 hc
    simp only [h4, if_true]
    obtain ⟨h5, h6⟩ := (split_colon hv).1 hc
    refine ⟨_, rfl, ?_, ?_⟩
    · rw [rb_hash_aref_aset, if_neg hne, rb_hash_aref_aset, if_pos rfl, h5]
    · rw [rb_hash_aref_aset, if_pos rfl, h6]
      rfl

/-- The Host header in the environment: for a request whose Host header is the string `hv`
without NUL bytes, `copy2env` returns (as long as the scan of a `Forwarded` header stays
inside its value) an environment in which `SERVER_NAME` is the part of `hv` before its first
colon and `SERVER_PORT` is everything after that colon; without a colon `SERVER_NAME` is
`hv` and `SERVER_PORT` is empty, with a colon `SERVER_NAME`, the colon and `SERVER_PORT`
give back `hv`. -/
theorem host_header_sets_server_name_and_port (rx : ReqExt) (sx : Bool)
    (up : iodine_upgrade_type_enum) (h : http_request_s) (hv : Bytes)
    (hhost : fiobj_hash_get2 h.headers "host".toList = some (FIOBJ.str hv))
    (hnul : '\x00' ∉ hv)
    (hfw : ∀ o s, fiobj_hash_get2 h.headers "forwarded".toList = some o →
      obj2cstr rx (some o) = some s → forwarded_scan s ≠ forwarded_result.out_of_bounds) :
    ∃ r, copy2env rx sx up h = some r ∧
      rb_hash_aref r.env SERVER_NAME = VALUE.str (hv.takeWhile (fun c => c != ':')) ∧
      rb_hash_aref r.env SERVER_PORT = VALUE.str ((hv.dropWhile (fun c => c != ':')).tail) ∧
      (':' ∉ hv → hv.takeWhile (fun c => c != ':') = hv ∧
        (hv.dropWhile (fun c => c != ':')).tail = []) ∧
      (':' ∈ hv → hv.takeWhile (fun c => c != ':') ++
        ':' :: (hv.dropWhile (fun c => c != ':')).tail = hv) := by
  have hview : obj2cstr rx (fiobj_hash_get2 h.headers "host".toList) = some hv := by
    rw [hhost]; rfl
  obtain ⟨r, hr⟩ := copy2env_returns rx sx up h hv hview hfw
  obtain ⟨env2, he2, htail⟩ := copy2env_tail rx sx up h r hr
  obtain ⟨env2b, he2b, hn, hp⟩ := copy2env_host_spec hv hnul (copy2env_basic sx up h)
  rw [hview, he2b, Option.some.injEq] at he2
  subst he2
  have hkeep := htail
    (fun env => rb_hash_aref env SERVER_NAME = VALUE.str (hv.takeWhile (fun c => c != ':')) ∧
      rb_hash_aref env SERVER_PORT = VALUE.str ((hv.dropWhile (fun c => c != ':')).tail))
    (fun k => k ≠ SERVER_NAME ∧ k ≠ SERVER_PORT)
    (fun env k v hk hP => by
      simp only at hk hP ⊢
      rw [rb_hash_aref_aset, if_neg hk.1, rb_hash_aref_aset, if_neg hk.2]
      exact hP)
    (by decide) (by decide) (by decide)
    (fun p _ => ⟨spec_header_key_ne _ _ (by decide), spec_header_key_ne _ _ (by decide)⟩)
    ⟨hn, hp⟩
  exact ⟨r, hr, hkeep.1, hkeep.2, split_colon hv⟩

theorem host_header_sets_server_name_and_port_witness :
    ∃ r, copy2env sample_rx false IODINE_UPGRADE_NONE sample_request = some r ∧
      rb_hash_aref r.env SERVER_NAME = VALUE.str "example.com".toList ∧
      rb_hash_aref r.env SERVER_PORT = VALUE.str "8080".toList := by
  obtain ⟨r, hr, h1, h2, _⟩ := host_header_sets_server_name_and_port sample_rx false
    IODINE_UPGRADE_NONE sample_request "example.com:8080".toList (by decide) (by decide)
    (fun o s ho => by
      have hn : fiobj_hash_get2 sample_request.headers "forwarded".toList = none := by decide
      rw [hn] at ho
      cases ho)
  exact ⟨r, hr, h1, h2⟩

theorem spec_header_key_length (n : Bytes) : (spec_header_key n).length = n.length + 5 := by
  unfold spec_header_key
  rw [List.length_append, List.length_map]
  have : "HTTP_".toList.length = 5 := rfl
  omega

/-- C18: for a header with name `n`, `iodine_copy2env_task` stores the value under the key
`HTTP_` followed by `n` with ASCII lowercase letters uppercased, `-` replaced by `_` and
other bytes unchanged; the key has `|n| + 5` bytes; the stack path (names of at most 59
bytes, buffer of 64 bytes) and the heap path (longer names) build that same key without a
write outside the buffer; a string value is stored as that string, a multi-valued one as the
sequence of its strings in the same order. -/
theorem generic_header_key_and_value (env : List (VALUE × VALUE)) (n : Bytes) :
    (∀ v, iodine_copy2env_task env n (FIOBJ.str v) =
        some (rb_hash_aset env (spec_header_key n) (VALUE.str v)) ∧
      rb_hash_aref (rb_hash_aset env (spec_header_key n) (VALUE.str v)) (spec_header_key n) =
        VALUE.str v) ∧
    (∀ xs, iodine_copy2env_task env n (FIOBJ.ary xs) =
        some (rb_hash_aset env (spec_header_key n) (VALUE.ary (xs.map VALUE.str))) ∧
      rb_hash_aref (rb_hash_aset env (spec_header_key n) (VALUE.ary (xs.map VALUE.str)))
        (spec_header_key n) = VALUE.ary (xs.map VALUE.str) ∧
      (xs.map VALUE.str).length = xs.length) ∧
    (spec_header_key n).length = n.length + 5 ∧
    copy2env_hname n = some (spec_header_key n) ∧
    (n.length ≤ 59 → hname_fill 64 n 0 "HTTP_".toList = some (spec_header_key n)) ∧
    (59 < n.length →
      hname_fill (n.length + 5) n 0 "HTTP_".toList = some (spec_header_key n)) := by
  have hk := copy2env_hname_eq n
  refine ⟨?_, ?_, spec_header_key_length n, hk, ?_, ?_⟩
  · intro v
    exact ⟨iodine_copy2env_task_eq env n _, by rw [rb_hash_aref_aset, if_pos rfl]⟩
  · intro xs
    exact ⟨iodine_copy2env_task_eq env n _, by rw [rb_hash_aref_aset, if_pos rfl],
      List.length_map _ _⟩
  · intro h
    unfold copy2env_hname at hk
    rw [if_neg (by omega)] at hk
    exact hk
  · intro h
    unfold copy2env_hname at hk
    rw [if_pos (by omega)] at hk
    exact hk

theorem generic_header_key_and_value_witness :
    "x-forwarded-for".toList.length ≤ 59 ∧
      hname_fill 64 "x-forwarded-for".toList 0 "HTTP_".toList =
        some "HTTP_X_FORWARDED_FOR".toList ∧
      59 < (List.replicate 60 'a').length ∧
      hname_fill 65 (List.replicate 60 'a') 0 "HTTP_".toList =
        some ("HTTP_".toList ++ List.replicate 60 'A') :=
  ⟨by decide,
    (generic_header_key_and_value [] "x-forwarded-for".toList).2.2.2.2.1 (by decide),
    by decide,
    (generic_header_key_and_value [] (List.replicate 60 'a')).2.2.2.2.2 (by decide)⟩

theorem rb_hash_aref_aset_ne (env : List (VALUE × VALUE)) (k k1 : Bytes) (v : VALUE)
    (h : k ≠ k1) : rb_hash_aref (rb_hash_aset env k v) k1 = rb_hash_aref env k1 := by
  rw [rb_hash_aref_aset, if_neg h]

theorem rb_hash_aref_aset_same (env : List (VALUE × VALUE)) (k : Bytes) (v : VALUE) :
    rb_hash_aref (rb_hash_aset env k v) k = v := by
  rw [rb_hash_aref_aset, if_pos rfl]

/-- The entries `copy2env` takes from the request line, read right after they were set. -/
theorem copy2env_basic_values (sx : Bool) (up : iodine_upgrade_type_enum)
    (h : http_request_s) :
    rb_hash_aref (copy2env_basic sx up h) REQUEST_METHOD = VALUE.str h.method ∧
      rb_hash_aref (copy2env_basic sx up h) PATH_INFO = VALUE.str h.path ∧
      rb_hash_aref (copy2env_basic sx up h) QUERY_STRING = VALUE.str (h.query.getD []) ∧
      rb_hash_aref (copy2env_basic sx up h) SERVER_PROTOCOL = VALUE.str h.version ∧
      rb_hash_aref (copy2env_basic sx up h) HTTP_VERSION = VALUE.str h.version ∧
      (h.peer_addr ≠ [] →
        rb_hash_aref (copy2env_basic sx up h) REMOTE_ADDR = VALUE.str h.peer_addr) := by
  have e1 : PATH_INFO ≠ REQUEST_METHOD := by decide
  have e2 : QUERY_STRING ≠ REQUEST_METHOD := by decide
  have e3 : SERVER_PROTOCOL ≠ REQUEST_METHOD := by decide
  have e4 : HTTP_VERSION ≠ REQUEST_METHOD := by decide
  have e5 : REMOTE_ADDR ≠ REQUEST_METHOD := by decide
  have e6 : QUERY_STRING ≠ PATH_INFO := by decide
  have e7 : SERVER_PROTOCOL ≠ PATH_INFO := by decide
  have e8 : HTTP_VERSION ≠ PATH_INFO := by decide
  have e9 : REMOTE_ADDR ≠ PATH_INFO := by decide
  have e10 : SERVER_PROTOCOL ≠ QUERY_STRING := by decide
  have e11 : HTTP_VERSION ≠ QUERY_STRING := by decide
  have e12 : REMOTE_ADDR ≠ QUERY_STRING := by decide
  have e13 : HTTP_VERSION ≠ SERVER_PROTOCOL := by decide
  have e14 : REMOTE_ADDR ≠ SERVER_PROTOCOL := by decide
  have e15 : REMOTE_ADDR ≠ HTTP_VERSION := by decide
  have hq : ∀ q : Bytes, (if q.length ≠ 0 then VALUE.str q else QUERY_ESTRING) = VALUE.str q := by
    intro q
    cases q with
    | nil => rfl
    | cons c cs => simp
  unfold copy2env_basic
  simp only [hq]
  by_cases hp : h.peer_addr = []
  · cases h.query <;>
      simp [hp, rb_hash_aref_aset, e1, e2, e3, e4, e5, e6, e7, e8, e9, e10, e11, e12, e13, e14,
        e15, QUERY_ESTRING]
  · cases h.query <;>
      simp [hp, rb_hash_aref_aset, e1, e2, e3, e4, e5, e6, e7, e8, e9, e10, e11, e12, e13, e14,
        e15, QUERY_ESTRING]

/-- The steps of a call of `copy2env` that returns. -/
theorem copy2env_steps (rx : ReqExt) (sx : Bool) (up : iodine_upgrade_type_enum)
    (h : http_request_s) (r : copy2env_result) (hr : copy2env rx sx up h = some r) :
    ∃ env2 env3, copy2env_host (obj2cstr rx (fiobj_hash_get2 h.headers "host".toList))
        (copy2env_basic sx up h) = some env2 ∧
      copy2env_scheme rx (copy2env_content_type rx
          (copy2env_content_length rx h.headers env2).2
          (copy2env_content_length rx h.headers env2).1).2.1
        (copy2env_content_type rx
          (copy2env_content_length rx h.headers env2).2
          (copy2env_content_length rx h.headers env2).1).1 = some env3 ∧
      fiobj_each1_copy2env (copy2env_content_type rx
          (copy2env_content_length rx h.headers env2).2
          (copy2env_content_length rx h.headers env2).1).2.1 env3 = some r.env ∧
      r.headers = (copy2env_content_type rx
          (copy2env_content_length rx h.headers env2).2
          (copy2env_content_length rx h.headers env2).1).2.1 := by
  unfold copy2env at hr
  simp only at hr
  split at hr
  · cases hr
  · rename_i env2 henv2
    split at hr
    · cases hr
    · rename_i env3 henv3
      split at hr
      · cases hr
      · rename_i env4 henv4
        simp only [Option.some.injEq] at hr
        refine ⟨env2, env3, henv2, henv3, ?_, ?_⟩
        · rw [← hr]; exact henv4
        · rw [← hr]

theorem env_template_key_count (k : Bytes)
    (hk : k ∈ [REQUEST_METHOD, PATH_INFO, QUERY_STRING, SERVER_NAME, SERVER_PORT,
      SERVER_PROTOCOL, HTTP_VERSION, REMOTE_ADDR, R_URL_SCHEME]) (sx : Bool) :
    key_count env_template_websockets k = 1 ∧ key_count env_template_sse k = 1 ∧
      key_count (env_template_no_upgrade sx) k = 1 := by
  simp only [List.mem_cons, List.mem_singleton, List.not_mem_nil, or_false] at hk
  rcases hk with rfl | rfl | rfl | rfl | rfl | rfl | rfl | rfl | rfl <;>
    cases sx <;> decide

/-- C19 (counterexample): a request carrying a header named `version` gets the generic key
`HTTP_VERSION`, which is a standard key, and the environment then holds the header's value
there instead of the protocol version of the request line. -/
theorem version_header_overwrites_http_version :
    copy2env_hname "version".toList = some HTTP_VERSION ∧
      version_request.version = "HTTP/1.1".toList ∧
      ∃ r, copy2env sample_rx false IODINE_UPGRADE_NONE version_request = some r ∧
        rb_hash_aref r.env HTTP_VERSION = VALUE.str "2".toList ∧
        rb_hash_aref r.env SERVER_PROTOCOL = VALUE.str "HTTP/1.1".toList :=
  ⟨by decide, by decide, _, rfl, rfl, rfl⟩

/-- C19 (as amended): whenever `copy2env` returns, the environment holds exactly one entry
for each of the nine standard keys; the key generated for a generic header never equals
`REQUEST_METHOD`, `PATH_INFO`, `QUERY_STRING`, `SERVER_NAME`, `SERVER_PORT`,
`SERVER_PROTOCOL`, `REMOTE_ADDR` or `rack.url_scheme`; the first three and `SERVER_PROTOCOL`
hold the values of the request line, `REMOTE_ADDR` the peer address when there is one, and
`HTTP_VERSION` holds the protocol version provided no request header generates the key
`HTTP_VERSION`. -/
theorem standard_keys_unique_and_kept (rx : ReqExt) (sx : Bool)
    (up : iodine_upgrade_type_enum) (h : http_request_s) (data : Bytes)
    (hhost : obj2cstr rx (fiobj_hash_get2 h.headers "host".toList) = some data)
    (hfw : ∀ o s, fiobj_hash_get2 h.headers "forwarded".toList = some o →
      obj2cstr rx (some o) = some s → forwarded_scan s ≠ forwarded_result.out_of_bounds) :
    ∃ r, copy2env rx sx up h = some r ∧
      (∀ k ∈ [REQUEST_METHOD, PATH_INFO, QUERY_STRING, SERVER_NAME, SERVER_PORT,
        SERVER_PROTOCOL, HTTP_VERSION, REMOTE_ADDR, R_URL_SCHEME], key_count r.env k = 1) ∧
      (∀ n, ∀ k ∈ [REQUEST_METHOD, PATH_INFO, QUERY_STRING, SERVER_NAME, SERVER_PORT,
        SERVER_PROTOCOL, REMOTE_ADDR, R_URL_SCHEME], spec_header_key n ≠ k) ∧
      rb_hash_aref r.env REQUEST_METHOD = VALUE.str h.method ∧
      rb_hash_aref r.env PATH_INFO = VALUE.str h.path ∧
      rb_hash_aref r.env QUERY_STRING = VALUE.str (h.query.getD []) ∧
      rb_hash_aref r.env SERVER_PROTOCOL = VALUE.str h.version ∧
      (h.peer_addr ≠ [] → rb_hash_aref r.env REMOTE_ADDR = VALUE.str h.peer_addr) ∧
      ((∀ p ∈ h.headers, spec_header_key p.1 ≠ HTTP_VERSION) →
        rb_hash_aref r.env HTTP_VERSION = VALUE.str h.version) := by
  obtain ⟨r, hr⟩ := copy2env_returns rx sx up h data hhost hfw
  obtain ⟨env2, he2, htail⟩ := copy2env_tail rx sx up h r hr
  obtain ⟨b1, b2, b3, b4, b5, b6⟩ := copy2env_basic_values sx up h
  have hne : ∀ n, ∀ k ∈ [REQUEST_METHOD, PATH_INFO, QUERY_STRING, SERVER_NAME, SERVER_PORT,
      SERVER_PROTOCOL, REMOTE_ADDR, R_URL_SCHEME], spec_header_key n ≠ k := by
    intro n k hk
    simp only [List.mem_cons, List.mem_singleton, List.not_mem_nil, or_false] at hk
    rcases hk with rfl | rfl | rfl | rfl | rfl | rfl | rfl | rfl <;>
      exact spec_header_key_ne _ _ (by decide)
  -- a value set before the Host step and not touched by a later `rb_hash_aset`
  have keep : ∀ (key : Bytes) (x : VALUE), key ≠ SERVER_NAME → key ≠ SERVER_PORT →
      key ≠ CONTENT_LENGTH → key ≠ CONTENT_TYPE → key ≠ R_URL_SCHEME →
      (∀ p ∈ h.headers, spec_header_key p.1 ≠ key) →
      rb_hash_aref (copy2env_basic sx up h) key = x → rb_hash_aref r.env key = x := by
    intro key x h1 h2 h3 h4 h5 h6 hx
    have hP : ∀ (env : List (VALUE × VALUE)) (k : Bytes) (v : VALUE), k ≠ key →
        rb_hash_aref env key = x → rb_hash_aref (rb_hash_aset env k v) key = x := by
      intro env k v hk he
      rw [rb_hash_aref_aset_ne env k key v hk]
      exact he
    exact htail (fun env => rb_hash_aref env key = x) (fun k => k ≠ key) hP
      (Ne.symm h3) (Ne.symm h4) (Ne.symm h5) h6
      (copy2env_host_preserves (fun env => rb_hash_aref env key = x) (fun k => k ≠ key) hP
        (Ne.symm h1) (Ne.symm h2) _ _ _ he2 hx)
  refine ⟨r, hr, ?_, hne, ?_, ?_, ?_, ?_, ?_, ?_⟩
  · intro k hk
    have hP : ∀ (env : List (VALUE × VALUE)) (k1 : Bytes) (v : VALUE), True →
        key_count env k = 1 → key_count (rb_hash_aset env k1 v) k = 1 :=
      fun env k1 v _ he => key_count_aset_one env k1 k v he
    exact htail (fun env => key_count env k = 1) (fun _ => True) hP trivial trivial trivial
      (fun _ _ => trivial)
      (copy2env_host_preserves (fun env => key_count env k = 1) (fun _ => True) hP
        trivial trivial _ _ _ he2
        (copy2env_basic_preserves (fun env => key_count env k = 1) (fun _ => True) hP
          trivial trivial trivial trivial trivial trivial sx up h
          (env_template_key_count k hk sx)))
  · exact keep _ _ (by decide) (by decide) (by decide) (by decide) (by decide)
      (fun p _ => hne p.1 _ (by simp)) b1
  · exact keep _ _ (by decide) (by decide) (by decide) (by decide) (by decide)
      (fun p _ => hne p.1 _ (by simp)) b2
  · exact keep _ _ (by decide) (by decide) (by decide) (by decide) (by decide)
      (fun p _ => hne p.1 _ (by simp)) b3
  · exact keep _ _ (by decide) (by decide) (by decide) (by decide) (by decide)
      (fun p _ => hne p.1 _ (by simp)) b4
  · intro hp
    exact keep _ _ (by decide) (by decide) (by decide) (by decide) (by decide)
      (fun p _ => hne p.1 _ (by simp)) (b6 hp)
  · intro hv
    exact keep _ _ (by decide) (by decide) (by decide) (by decide) (by decide) hv b5

theorem standard_keys_unique_and_kept_witness :
    ∃ r, copy2env sample_rx false IODINE_UPGRADE_NONE sample_request = some r ∧
      key_count r.env HTTP_VERSION = 1 ∧
      rb_hash_aref r.env REQUEST_METHOD = VALUE.str "GET".toList ∧
      rb_hash_aref r.env HTTP_VERSION = VALUE.str "HTTP/1.1".toList := by
  obtain ⟨r, hr, h1, _, h3, _, _, _, _, h8⟩ := standard_keys_unique_and_kept sample_rx false
    IODINE_UPGRADE_NONE sample_request "example.com:8080".toList (by decide)
    (fun o s ho => by
      have hn : fiobj_hash_get2 sample_request.headers "forwarded".toList = none := by decide
      rw [hn] at ho
      cases ho)
  exact ⟨r, hr, h1 _ (by simp), h3, h8 (by decide)⟩

theorem env_template_key_count_zero (k : Bytes)
    (hk : k = HTTP_CONTENT_LENGTH ∨ k = HTTP_CONTENT_TYPE) (sx : Bool) :
    key_count env_template_websockets k = 0 ∧ key_count env_template_sse k = 0 ∧
      key_count (env_template_no_upgrade sx) k = 0 := by
  rcases hk with rfl | rfl <;> cases sx <;> decide

theorem key_count_aset_zero (env : List (VALUE × VALUE)) (k k1 : Bytes) (v : VALUE)
    (hne : k ≠ k1) (h : key_count env k1 = 0) : key_count (rb_hash_aset env k v) k1 = 0 := by
  rw [key_count_aset, if_neg hne, h]

/-- A generic key that neither a template nor a fixed step of `copy2env` sets is absent from
the returned environment when no remaining request header generates it. -/
theorem copy2env_key_absent (rx : ReqExt) (sx : Bool) (up : iodine_upgrade_type_enum)
    (h : http_request_s) (r : copy2env_result) (hr : copy2env rx sx up h = some r)
    (k : Bytes) (hk : k = HTTP_CONTENT_LENGTH ∨ k = HTTP_CONTENT_TYPE)
    (hh : ∀ p ∈ r.headers, spec_header_key p.1 ≠ k) : key_count r.env k = 0 := by
  obtain ⟨env2, env3, he2, he3, he4, hhd⟩ := copy2env_steps rx sx up h r hr
  have hP : ∀ (env : List (VALUE × VALUE)) (k1 : Bytes) (v : VALUE), k1 ≠ k →
      key_count env k = 0 → key_count (rb_hash_aset env k1 v) k = 0 :=
    fun env k1 v hne he => key_count_aset_zero env k1 k v hne he
  have hfix : ∀ k1 ∈ [REQUEST_METHOD, PATH_INFO, QUERY_STRING, SERVER_PROTOCOL, HTTP_VERSION,
      REMOTE_ADDR, SERVER_NAME, SERVER_PORT, CONTENT_LENGTH, CONTENT_TYPE, R_URL_SCHEME],
      k1 ≠ k := by
    intro k1 hk1
    simp only [List.mem_cons, List.mem_singleton, List.not_mem_nil, or_false] at hk1
    rcases hk with rfl | rfl <;>
      rcases hk1 with rfl | rfl | rfl | rfl | rfl | rfl | rfl | rfl | rfl | rfl | rfl <;>
      decide
  rw [hhd] at hh
  exact fiobj_each1_copy2env_preserves (fun env => key_count env k = 0) (fun k1 => k1 ≠ k) hP
    _ hh _ _ he4
    (copy2env_scheme_preserves _ (fun k1 => k1 ≠ k) hP (hfix _ (by simp)) _ _ _ _ he3
      (copy2env_content_type_preserves _ (fun k1 => k1 ≠ k) hP (hfix _ (by simp)) _ _ _
        (copy2env_content_length_preserves _ (fun k1 => k1 ≠ k) hP (hfix _ (by simp)) _ _ _
          (copy2env_host_preserves _ (fun k1 => k1 ≠ k) hP (hfix _ (by simp))
            (hfix _ (by simp)) _ _ _ he2
            (copy2env_basic_preserves _ (fun k1 => k1 ≠ k) hP (hfix _ (by simp))
              (hfix _ (by simp)) (hfix _ (by simp)) (hfix _ (by simp)) (hfix _ (by simp))
              (hfix _ (by simp)) sx up h (env_template_key_count_zero k hk sx))))))

theorem copy2env_content_length_str (rx : ReqExt) (hs : List (Bytes × FIOBJ))
    (env : List (VALUE × VALUE)) (v : Bytes)
    (hv : fiobj_hash_get2 hs "content-length".toList = some (FIOBJ.str v)) :
    copy2env_content_length rx hs env =
      (rb_hash_aset env CONTENT_LENGTH (VALUE.str v),
        fiobj_hash_delete2 hs "content-length".toList) := by
  unfold copy2env_content_length
  rw [hv]
  rfl

theorem copy2env_content_type_str (rx : ReqExt) (hs : List (Bytes × FIOBJ))
    (env : List (VALUE × VALUE)) (v : Bytes) (hne : v ≠ [])
    (hv : fiobj_hash_get2 hs "content-type".toList = some (FIOBJ.str v)) :
    (copy2env_content_type rx hs env).1 = rb_hash_aset env CONTENT_TYPE (VALUE.str v) ∧
      (copy2env_content_type rx hs env).2.1 = fiobj_hash_delete2 hs "content-type".toList := by
  have hl : v.length ≠ 0 := by
    intro h0
    exact hne (List.length_eq_zero.1 h0)
  unfold copy2env_content_type
  rw [hv]
  simp only [obj2cstr, hl, ne_eq, not_false_eq_true, if_true, and_self]

/-- C20 (counterexample): a request whose `Content-Type` header has an empty value gets no
`CONTENT_TYPE` entry, and the header stays in the environment under the generic key
`HTTP_CONTENT_TYPE`. -/
theorem empty_content_type_stays_generic :
    fiobj_hash_get2 empty_content_type_request.headers "content-type".toList =
        some (FIOBJ.str []) ∧
      ∃ r, copy2env sample_rx false IODINE_UPGRADE_NONE empty_content_type_request = some r ∧
        key_count r.env CONTENT_TYPE = 0 ∧ key_count r.env HTTP_CONTENT_TYPE = 1 :=
  ⟨by decide, _, rfl, by decide, by decide⟩

/-- C20 (as amended): whenever `copy2env` returns, a `Content-Length` header with the string
value `v` sets `CONTENT_LENGTH` to `v`, and a `Content-Type` header with a non-empty string
value `v` sets `CONTENT_TYPE` to `v`; the environment then has no key `HTTP_CONTENT_LENGTH`
(respectively `HTTP_CONTENT_TYPE`) provided no other request header generates that key. -/
theorem content_headers_move_to_dedicated_keys (rx : ReqExt) (sx : Bool)
    (up : iodine_upgrade_type_enum) (h : http_request_s) (data : Bytes)
    (hhost : obj2cstr rx (fiobj_hash_get2 h.headers "host".toList) = some data)
    (hfw : ∀ o s, fiobj_hash_get2 h.headers "forwarded".toList = some o →
      obj2cstr rx (some o) = some s → forwarded_scan s ≠ forwarded_result.out_of_bounds) :
    ∃ r, copy2env rx sx up h = some r ∧
      (∀ v, fiobj_hash_get2 h.headers "content-length".toList = some (FIOBJ.str v) →
        rb_hash_aref r.env CONTENT_LENGTH = VALUE.str v ∧
        ((∀ p ∈ h.headers, spec_header_key p.1 = HTTP_CONTENT_LENGTH →
            p.1 = "content-length".toList) →
          key_count r.env HTTP_CONTENT_LENGTH = 0)) ∧
      (∀ v, v ≠ [] →
        fiobj_hash_get2 h.headers "content-type".toList = some (FIOBJ.str v) →
        rb_hash_aref r.env CONTENT_TYPE = VALUE.str v ∧
        ((∀ p ∈ h.headers, spec_header_key p.1 = HTTP_CONTENT_TYPE →
            p.1 = "content-type".toList) →
          key_count r.env HTTP_CONTENT_TYPE = 0)) := by
  obtain ⟨r, hr⟩ := copy2env_returns rx sx up h data hhost hfw
  obtain ⟨env2, env3, he2, he3, he4, hhd⟩ := copy2env_steps rx sx up h r hr
  have hP : ∀ (key : Bytes) (x : VALUE) (env : List (VALUE × VALUE)) (k : Bytes) (v : VALUE),
      k ≠ key → rb_hash_aref env key = x → rb_hash_aref (rb_hash_aset env k v) key = x := by
    intro key x env k v hk he
    rw [rb_hash_aref_aset_ne env k key v hk]
    exact he
  refine ⟨r, hr, ?_, ?_⟩
  · intro v hv
    have hcl := copy2env_content_length_str rx h.headers env2 v hv
    constructor
    · refine fiobj_each1_copy2env_preserves (fun env => rb_hash_aref env CONTENT_LENGTH = _)
        (fun k => k ≠ CONTENT_LENGTH) (hP _ _) _
        (fun p _ => spec_header_key_ne _ _ (by decide)) _ _ he4
        (copy2env_scheme_preserves _ (fun k => k ≠ CONTENT_LENGTH) (hP _ _) (by decide)
          _ _ _ _ he3
          (copy2env_content_type_preserves _ (fun k => k ≠ CONTENT_LENGTH) (hP _ _)
            (by decide) _ _ _ ?_))
      rw [hcl]
      exact rb_hash_aref_aset_same _ _ _
    · intro hother
      apply copy2env_key_absent rx sx up h r hr _ (Or.inl rfl)
      intro p hp hkey
      rw [hhd] at hp
      have hp2 := copy2env_content_type_headers _ _ _ _ hp
      rw [hcl] at hp2
      obtain ⟨hp3, hp4⟩ := (mem_fiobj_hash_delete2 _ _ _).1 hp2
      exact hp4 (hother p hp3 hkey)
  · intro v hne hv
    have hv2 : fiobj_hash_get2 (copy2env_content_length rx h.headers env2).2
        "content-type".toList = some (FIOBJ.str v) := by
      rw [copy2env_content_length_get2 _ _ _ _ (by decide)]
      exact hv
    obtain ⟨hct1, hct2⟩ := copy2env_content_type_str rx
      (copy2env_content_length rx h.headers env2).2
      (copy2env_content_length rx h.headers env2).1 v hne hv2
    constructor
    · refine fiobj_each1_copy2env_preserves (fun env => rb_hash_aref env CONTENT_TYPE = _)
        (fun k => k ≠ CONTENT_TYPE) (hP _ _) _
        (fun p _ => spec_header_key_ne _ _ (by decide)) _ _ he4
        (copy2env_scheme_preserves _ (fun k => k ≠ CONTENT_TYPE) (hP _ _) (by decide)
          _ _ _ _ he3 ?_)
      rw [hct1]
      exact rb_hash_aref_aset_same _ _ _
    · intro hother
      apply copy2env_key_absent rx sx up h r hr _ (Or.inr rfl)
      intro p hp hkey
      rw [hhd, hct2] at hp
      obtain ⟨hp3, hp4⟩ := (mem_fiobj_hash_delete2 _ _ _).1 hp
      exact hp4 (hother p (copy2env_content_length_headers _ _ _ _ hp3) hkey)

theorem content_headers_move_to_dedicated_keys_witness :
    ∃ r, copy2env sample_rx false IODINE_UPGRADE_NONE post_request = some r ∧
      (rb_hash_aref r.env CONTENT_LENGTH = VALUE.str "5".toList ∧
        key_count r.env HTTP_CONTENT_LENGTH = 0) ∧
      (rb_hash_aref r.env CONTENT_TYPE = VALUE.str "text/plain".toList ∧
        key_count r.env HTTP_CONTENT_TYPE = 0) := by
  obtain ⟨r, hr, h1, h2⟩ := content_headers_move_to_dedicated_keys sample_rx false
    IODINE_UPGRADE_NONE post_request "example.com:8080".toList (by decide)
    (fun o s ho => by
      have hn : fiobj_hash_get2 post_request.headers "forwarded".toList = none := by decide
      rw [hn] at ho
      cases ho)
  obtain ⟨h1a, h1b⟩ := h1 "5".toList (by decide)
  obtain ⟨h2a, h2b⟩ := h2 "text/plain".toList (by decide) (by decide)
  exact ⟨r, hr, ⟨h1a, h1b (by decide)⟩, ⟨h2a, h2b (by decide)⟩⟩

/-! ## Edge cases of the header scan -/

theorem intercalate_split_header_value (v : Bytes) :
    ['\n'].intercalate (split_header_value v) =
      if v.getLast? = some '\n' then v.dropLast else v := by
  unfold split_header_value
  by_cases hv : v = []
  · subst hv
    rfl
  · rw [if_neg hv]
    split_ifs
    · exact List.intercalate_splitOn _ _
    · exact List.intercalate_splitOn _ _

/-- C30: `for_each_header_data` writes no line for an empty value, only the line `a` for the
value `a\n`, and the three lines `a`, the empty line and `b` for `a\n\nb`; for every value
the lines written are those found by the scan, and joining them with newlines gives back the
value, without its last byte when that byte is a newline. -/
theorem for_each_header_data_edge_cases (ext : Ext) (k v : Bytes) :
    for_each_header_data ext (VALUE.str k) (VALUE.str []) = (ST_CONTINUE, []) ∧
      for_each_header_data ext (VALUE.str k) (VALUE.str "a\n".toList) =
        (ST_CONTINUE, [Effect.http_set_header (k.map tolower) "a".toList]) ∧
      for_each_header_data ext (VALUE.str k) (VALUE.str "a\n\nb".toList) =
        (ST_CONTINUE, [Effect.http_set_header (k.map tolower) "a".toList,
          Effect.http_set_header (k.map tolower) [],
          Effect.http_set_header (k.map tolower) "b".toList]) ∧
      for_each_header_data ext (VALUE.str k) (VALUE.str v) =
        (ST_CONTINUE, (header_values v v.length (v.length + 1) 0 0).map
          (fun x => Effect.http_set_header (k.map tolower) x)) ∧
      ['\n'].intercalate (header_values v v.length (v.length + 1) 0 0) =
        (if v.getLast? = some '\n' then v.dropLast else v) := by
  have e1 : split_header_value [] = [] := by decide
  have e2 : split_header_value "a\n".toList = ["a".toList] := by decide
  have e3 : split_header_value "a\n\nb".toList = ["a".toList, [], "b".toList] := by decide
  refine ⟨?_, ?_, ?_, ?_, ?_⟩
  · rw [for_each_header_data_str, e1]; rfl
  · rw [for_each_header_data_str, e2]; rfl
  · rw [for_each_header_data_str, e3]; rfl
  · rw [for_each_header_data_str, header_values_eq]
  · rw [header_values_eq]
    exact intercalate_split_header_value v

/-! ## The upgrade class -/

theorem response_send_body_upgrade (handle : iodine_http_request_handle_s) (b : VALUE) :
    (response_send_body handle b).2.1.upgrade = handle.upgrade := by
  unfold response_send_body
  cases b <;> simp only <;> split_ifs <;> rfl

theorem ruby2c_response_send_upgrade (handle : iodine_http_request_handle_s)
    (xs : List VALUE) : (ruby2c_response_send handle xs).2.1.upgrade = handle.upgrade := by
  unfold ruby2c_response_send
  simp only
  by_cases hst : handle.h.status < 200 ∨ handle.h.status = 204 ∨ handle.h.status = 304
  · rw [if_pos hst]
  · rw [if_neg hst]
    split <;> rw [response_send_body_upgrade]

/-- The handler never writes the `upgrade` field of its handle. -/
theorem handler_keeps_upgrade (ext : Ext) (sx : Bool) (udata : Option AppCall)
    (handle : iodine_http_request_handle_s) :
    (iodine_handle_request_in_GVL ext sx udata handle).1.upgrade = handle.upgrade := by
  unfold iodine_handle_request_in_GVL
  cases udata with
  | none => rfl
  | some app =>
    simp only
    cases app.rbresponse with
    | none => rfl
    | some xs =>
      simp only
      cases response_status ext (rb_ary_entry xs 0) with
      | none => rfl
      | some st =>
        simp only
        cases rb_ary_entry xs 1 with
        | hash hdrs =>
          simp only
          cases xsendfile_path sx hdrs with
          | some p => rfl
          | none =>
            simp only
            generalize (if intptr_lt_300 st = true then
              ruby2c_review_upgrade ext (set_status handle st) xs app.env else (0, [])) = up
            by_cases h1 : up.1 ≠ 0
            · rw [if_pos h1]; rfl
            · rw [if_neg h1]
              by_cases h2 : (ruby2c_response_send (set_status handle st) xs).1 ≠ 0
              · rw [if_pos h2]
                simp only [internal_error, set_status]
                rw [ruby2c_response_send_upgrade]
              · rw [if_neg h2]
                simp only
                rw [ruby2c_response_send_upgrade]
                rfl
        | _ => rfl

theorem upgrade_class_cases (A B : Prop) [Decidable A] [Decidable B] (hAB : A → ¬ B) :
    ((if A then IODINE_UPGRADE_WEBSOCKET else if B then IODINE_UPGRADE_SSE
        else IODINE_UPGRADE_NONE) = IODINE_UPGRADE_WEBSOCKET ↔ A) ∧
      ((if A then IODINE_UPGRADE_WEBSOCKET else if B then IODINE_UPGRADE_SSE
        else IODINE_UPGRADE_NONE) = IODINE_UPGRADE_SSE ↔ B) ∧
      ((if A then IODINE_UPGRADE_WEBSOCKET else if B then IODINE_UPGRADE_SSE
        else IODINE_UPGRADE_NONE) = IODINE_UPGRADE_NONE ↔ ¬ A ∧ ¬ B) := by
  by_cases hA : A
  · have hB : ¬ B := hAB hA
    simp [hA, hB]
  · by_cases hB : B <;> simp [hA, hB]

/-- C28: `on_rack_upgrade` runs the request with the WebSocket class exactly when the token
has 9 bytes and its second byte is `e` or `E`, with the SSE class exactly when it has 3
bytes and its first byte is `s`, and with no upgrade class otherwise; `websocket` gives
WebSocket, `sse` gives SSE, the two classes exclude each other, and two tokens of the same
length with the same first two bytes get the same class. -/
theorem on_rack_upgrade_class (ext : Ext) (sx : Bool) (udata : Option AppCall) (h : http_s)
    (proto : Bytes) :
    ((on_rack_upgrade ext sx udata h proto proto.length).1.upgrade = IODINE_UPGRADE_WEBSOCKET ↔
        proto.length = 9 ∧ (proto.get? 1 = some 'e' ∨ proto.get? 1 = some 'E')) ∧
      ((on_rack_upgrade ext sx udata h proto proto.length).1.upgrade = IODINE_UPGRADE_SSE ↔
        proto.length = 3 ∧ proto.get? 0 = some 's') ∧
      ((on_rack_upgrade ext sx udata h proto proto.length).1.upgrade = IODINE_UPGRADE_NONE ↔
        ¬ (proto.length = 9 ∧ (proto.get? 1 = some 'e' ∨ proto.get? 1 = some 'E')) ∧
          ¬ (proto.length = 3 ∧ proto.get? 0 = some 's')) ∧
      (on_rack_upgrade ext sx udata h "websocket".toList 9).1.upgrade =
        IODINE_UPGRADE_WEBSOCKET ∧
      (on_rack_upgrade ext sx udata h "sse".toList 3).1.upgrade = IODINE_UPGRADE_SSE ∧
      (∀ other : Bytes, other.length = proto.length → other.get? 0 = proto.get? 0 →
        other.get? 1 = proto.get? 1 →
        (on_rack_upgrade ext sx udata h other other.length).1.upgrade =
          (on_rack_upgrade ext sx udata h proto proto.length).1.upgrade) := by
  have hcls : ∀ (p : Bytes) (len : Nat),
      (on_rack_upgrade ext sx udata h p len).1.upgrade =
        if len = 9 ∧ (p.get? 1 = some 'e' ∨ p.get? 1 = some 'E') then IODINE_UPGRADE_WEBSOCKET
        else if len = 3 ∧ p.get? 0 = some 's' then IODINE_UPGRADE_SSE
        else IODINE_UPGRADE_NONE := by
    intro p len
    unfold on_rack_upgrade
    simp only
    rw [handler_keeps_upgrade]
  have hab : proto.length = 9 ∧ (proto.get? 1 = some 'e' ∨ proto.get? 1 = some 'E') →
      ¬ (proto.length = 3 ∧ proto.get? 0 = some 's') := by
    intro h1 h2
    omega
  obtain ⟨c1, c2, c3⟩ := upgrade_class_cases _ _ hab
  refine ⟨?_, ?_, ?_, ?_, ?_, ?_⟩
  · rw [hcls]; exact c1
  · rw [hcls]; exact c2
  · rw [hcls]; exact c3
  · rw [hcls]; decide
  · rw [hcls]; decide
  · intro other hl h0 h1
    rw [hcls, hcls, hl, h0, h1]

theorem on_rack_upgrade_class_witness :
    (on_rack_upgrade sample_ext false none { status := 0 } "webmaster".toList 9).1.upgrade =
      (on_rack_upgrade sample_ext false none { status := 0 } "websocket".toList 9).1.upgrade :=
  (on_rack_upgrade_class sample_ext false none { status := 0 } "websocket".toList).2.2.2.2.2
    "webmaster".toList (by decide) (by decide) (by decide)

/-! ## Store traffic -/

theorem count_eq_zero_of_forall_ne (l : List Effect) (x : Effect) (h : ∀ e ∈ l, e ≠ x) :
    l.count x = 0 := by
  rw [List.count_eq_zero]
  intro hx
  exact h x hx rfl

theorem foreach_no_store (ext : Ext) (kvs : List (VALUE × VALUE)) (x : Effect)
    (hx : ∀ name value, x ≠ Effect.http_set_header name value) :
    (rb_hash_foreach_headers ext kvs).count x = 0 := by
  apply count_eq_zero_of_forall_ne
  intro e he hex
  obtain ⟨name, value, hnv⟩ := foreach_only_headers ext kvs e he
  exact hx name value (hex ▸ hnv)

theorem review_no_store (ext : Ext) (req : iodine_http_request_handle_s) (xs : List VALUE)
    (env : List (VALUE × VALUE)) (r : StoreRef) :
    (ruby2c_review_upgrade ext req xs env).2.count (Effect.store_add r) = 0 ∧
      (ruby2c_review_upgrade ext req xs env).2.count (Effect.store_remove r) = 0 := by
  constructor <;>
  · apply count_eq_zero_of_forall_ne
    intro e he hex
    subst hex
    rcases review_effects_mem ext req xs env _ he with h | ⟨id, h⟩
    · simp at h
    · cases h

theorem rb_block_call_each_no_store (ys : List VALUE) (r : StoreRef) : ∀ buf : Bytes,
    ∀ e ∈ (rb_block_call_each ys buf).2,
      e ≠ Effect.store_add r ∧ e ≠ Effect.store_remove r := by
  induction ys with
  | nil => intro buf e he; simp [rb_block_call_each] at he
  | cons y ys ih =>
    intro buf e he
    simp only [rb_block_call_each, List.mem_append] at he
    rcases he with he | he
    · cases y with
      | str s =>
        unfold for_each_body_string at he
        simp only at he
        split_ifs at he
        · simp at he; subst he; exact ⟨by simp, by simp⟩
        · simp at he
      | _ =>
        simp [for_each_body_string] at he
        subst he; exact ⟨by simp, by simp⟩
    · exact ih _ e he

theorem call_close_no_store (v : VALUE) (r : StoreRef) :
    ∀ e ∈ (if rb_respond_to_close v then call_close v else []),
      e ≠ Effect.store_add r ∧ e ≠ Effect.store_remove r := by
  intro e he
  cases v with
  | obj id each close =>
    simp [call_close, rb_respond_to_close] at he
    obtain ⟨_, rfl⟩ := he
    exact ⟨by simp, by simp⟩
  | _ => simp [call_close, rb_respond_to_close] at he

theorem response_send_body_no_store (handle : iodine_http_request_handle_s) (b : VALUE)
    (r : StoreRef) :
    ∀ e ∈ (response_send_body handle b).2.2,
      e ≠ Effect.store_add r ∧ e ≠ Effect.store_remove r := by
  intro e he
  by_cases hb : TYPE b = T_STRING
  · cases b <;> simp [TYPE] at hb
    simp [response_send_body] at he
  · rw [response_send_body_non_string handle b hb] at he
    by_cases hea : rb_respond_to_each b = true
    · rw [if_pos hea] at he
      simp only [List.mem_append] at he
      rcases he with he | he
      · exact rb_block_call_each_no_store _ r _ e he
      · exact call_close_no_store b r e he
    · rw [if_neg hea] at he
      simp at he

theorem ruby2c_response_send_no_store (handle : iodine_http_request_handle_s)
    (xs : List VALUE) (r : StoreRef) :
    (ruby2c_response_send handle xs).2.2.count (Effect.store_add r) = 0 ∧
      (ruby2c_response_send handle xs).2.2.count (Effect.store_remove r) = 0 := by
  have key : ∀ e ∈ (ruby2c_response_send handle xs).2.2,
      e ≠ Effect.store_add r ∧ e ≠ Effect.store_remove r := by
    intro e he
    unfold ruby2c_response_send at he
    simp only at he
    by_cases hst : handle.h.status < 200 ∨ handle.h.status = 204 ∨ handle.h.status = 304
    · rw [if_pos hst] at he
      exact call_close_no_store _ r e he
    · rw [if_neg hst] at he
      split at he <;> exact response_send_body_no_store _ _ r e he
  exact ⟨count_eq_zero_of_forall_ne _ _ (fun e he => (key e he).1),
    count_eq_zero_of_forall_ne _ _ (fun e he => (key e he).2)⟩

theorem count_effs_call (b : Bool) :
    (effs_call b).count (Effect.store_add StoreRef.env) = 1 ∧
      (effs_call b).count (Effect.store_remove StoreRef.env) = 0 ∧
      (effs_call b).count (Effect.store_add StoreRef.rbresponse) = (if b then 1 else 0) ∧
      (effs_call b).count (Effect.store_remove StoreRef.rbresponse) = 0 := by
  cases b <;> decide

/-- The store traffic of `iodine_handle_request_in_GVL` on every path but the X-Sendfile
one, for a request that reaches the application: the environment is added once and removed
once, and the response is removed once and added once unless the application returned
`nil`. -/
theorem handler_store_balance (ext : Ext) (sx : Bool) (app : AppCall)
    (handle : iodine_http_request_handle_s)
    (hx : (iodine_handle_request_in_GVL ext sx (some app) handle).1.type ≠
      IODINE_HTTP_XSENDFILE) :
    (iodine_handle_request_in_GVL ext sx (some app) handle).2.count
        (Effect.store_add StoreRef.env) = 1 ∧
      (iodine_handle_request_in_GVL ext sx (some app) handle).2.count
        (Effect.store_remove StoreRef.env) = 1 ∧
      (iodine_handle_request_in_GVL ext sx (some app) handle).2.count
        (Effect.store_add StoreRef.rbresponse) = (if app.rbresponse.isSome then 1 else 0) ∧
      (iodine_handle_request_in_GVL ext sx (some app) handle).2.count
        (Effect.store_remove StoreRef.rbresponse) = 1 := by
  have ht := count_effs_call true
  have hf := count_effs_call false
  have c1 : [Effect.store_remove StoreRef.rbresponse, Effect.store_remove StoreRef.env].count
      (Effect.store_add StoreRef.env) = 0 := by decide
  have c2 : [Effect.store_remove StoreRef.rbresponse, Effect.store_remove StoreRef.env].count
      (Effect.store_remove StoreRef.env) = 1 := by decide
  have c3 : [Effect.store_remove StoreRef.rbresponse, Effect.store_remove StoreRef.env].count
      (Effect.store_add StoreRef.rbresponse) = 0 := by decide
  have c4 : [Effect.store_remove StoreRef.rbresponse, Effect.store_remove StoreRef.env].count
      (Effect.store_remove StoreRef.rbresponse) = 1 := by decide
  have hfe : ∀ kvs (r : StoreRef),
      (rb_hash_foreach_headers ext kvs).count (Effect.store_add r) = 0 ∧
        (rb_hash_foreach_headers ext kvs).count (Effect.store_remove r) = 0 :=
    fun kvs r => ⟨foreach_no_store ext kvs _ (by simp), foreach_no_store ext kvs _ (by simp)⟩
  unfold iodine_handle_request_in_GVL at hx ⊢
  simp only at hx ⊢
  cases hresp : app.rbresponse with
  | none =>
    simp only [internal_error, List.count_append, hf, c1, c2, c3, c4, Option.isSome]
    simp
  | some xs =>
    rw [hresp] at hx
    simp only at hx ⊢
    cases hstat : response_status ext (rb_ary_entry xs 0) with
    | none =>
      simp only [internal_error, List.count_append, ht, c1, c2, c3, c4, Option.isSome]
      simp
    | some st =>
      rw [hstat] at hx
      simp only at hx ⊢
      cases hhdr : rb_ary_entry xs 1 with
      | hash hdrs =>
        rw [hhdr] at hx
        simp only at hx ⊢
        cases hxs : xsendfile_path sx hdrs with
        | some xfiles =>
          rw [hxs] at hx
          exact absurd rfl hx
        | none =>
          simp only
          generalize hup : (if intptr_lt_300 st = true then
            ruby2c_review_upgrade ext (set_status handle st) xs app.env else (0, [])) = up
          have hupc : ∀ r : StoreRef, up.2.count (Effect.store_add r) = 0 ∧
              up.2.count (Effect.store_remove r) = 0 := by
            intro r
            rw [← hup]
            split_ifs
            · exact review_no_store _ _ _ _ r
            · exact ⟨rfl, rfl⟩
          have hs := ruby2c_response_send_no_store (set_status handle st) xs
          by_cases h1 : up.1 ≠ 0
          · rw [if_pos h1]
            simp only [external_done, List.count_append, ht, c1, c2, c3, c4, Option.isSome,
              (hfe _ _).1, (hfe _ _).2, (hupc _).1, (hupc _).2]
            simp
          · rw [if_neg h1]
            by_cases h2 : (ruby2c_response_send (set_status handle st) xs).1 ≠ 0
            · rw [if_pos h2]
              simp only [internal_error, List.count_append, ht, c1, c2, c3, c4, Option.isSome,
                (hfe _ _).1, (hfe _ _).2, (hupc _).1, (hupc _).2, (hs _).1, (hs _).2]
              simp
            · rw [if_neg h2]
              simp only [List.count_append, ht, c1, c2, c3, c4, Option.isSome,
                (hfe _ _).1, (hfe _ _).2, (hupc _).1, (hupc _).2, (hs _).1, (hs _).2]
              simp
      | _ =>
        simp only [internal_error, List.count_append, ht, c1, c2, c3, c4, Option.isSome]
        simp

/-- C27: on the X-Sendfile path (static files are served and the response headers hold a
String under `X-Sendfile`) `iodine_handle_request_in_GVL` registers the environment and the
response with the store and returns without removing either of them; the only object it
removes is the headers Hash it registered on the way. -/
theorem xsendfile_path_leaves_env_and_response_registered (ext : Ext) (app : AppCall)
    (handle : iodine_http_request_handle_s) (xs : List VALUE) (st : Nat)
    (hdrs : List (VALUE × VALUE)) (p : Bytes)
    (hresp : app.rbresponse = some xs)
    (hstat : response_status ext (rb_ary_entry xs 0) = some st)
    (hhdr : rb_ary_entry xs 1 = VALUE.hash hdrs)
    (hx : rb_hash_aref hdrs XSENDFILE = VALUE.str p) :
    (iodine_handle_request_in_GVL ext true (some app) handle).1.type = IODINE_HTTP_XSENDFILE ∧
      (iodine_handle_request_in_GVL ext true (some app) handle).2.count
        (Effect.store_add StoreRef.env) = 1 ∧
      (iodine_handle_request_in_GVL ext true (some app) handle).2.count
        (Effect.store_remove StoreRef.env) = 0 ∧
      (iodine_handle_request_in_GVL ext true (some app) handle).2.count
        (Effect.store_add StoreRef.rbresponse) = 1 ∧
      (iodine_handle_request_in_GVL ext true (some app) handle).2.count
        (Effect.store_remove StoreRef.rbresponse) = 0 ∧
      (iodine_handle_request_in_GVL ext true (some app) handle).2.count
        (Effect.store_add StoreRef.response_headers) = 1 ∧
      (iodine_handle_request_in_GVL ext true (some app) handle).2.count
        (Effect.store_remove StoreRef.response_headers) = 1 := by
  rw [handler_xsendfile_path ext app handle xs st hdrs p hresp hstat hhdr hx]
  have ht := count_effs_call true
  have h5 : (effs_call true).count (Effect.store_add StoreRef.response_headers) = 0 := by
    decide
  have h6 : (effs_call true).count (Effect.store_remove StoreRef.response_headers) = 0 := by
    decide
  have hfe : ∀ kvs (r : StoreRef),
      (rb_hash_foreach_headers ext kvs).count (Effect.store_add r) = 0 ∧
        (rb_hash_foreach_headers ext kvs).count (Effect.store_remove r) = 0 :=
    fun kvs r => ⟨foreach_no_store ext kvs _ (by simp), foreach_no_store ext kvs _ (by simp)⟩
  refine ⟨rfl, ?_, ?_, ?_, ?_, ?_, ?_⟩ <;>
    simp only [List.count_append, ht, h5, h6, (hfe _ _).1, (hfe _ _).2] <;> decide

theorem xsendfile_path_leaves_env_and_response_registered_witness :
    (iodine_handle_request_in_GVL sample_ext true
        (some { rbresponse := some [VALUE.fixnum 200,
                  VALUE.hash [(VALUE.str "X-Sendfile".toList, VALUE.str "/f".toList)],
                  VALUE.ary []], env := [] })
        { h := { status := 0 }, body := none, type := IODINE_HTTP_NONE,
          upgrade := IODINE_UPGRADE_NONE }).2.count (Effect.store_add StoreRef.env) = 1 ∧
      (iodine_handle_request_in_GVL sample_ext true
        (some { rbresponse := some [VALUE.fixnum 200,
                  VALUE.hash [(VALUE.str "X-Sendfile".toList, VALUE.str "/f".toList)],
                  VALUE.ary []], env := [] })
        { h := { status := 0 }, body := none, type := IODINE_HTTP_NONE,
          upgrade := IODINE_UPGRADE_NONE }).2.count (Effect.store_remove StoreRef.env) = 0 :=
  have h := xsendfile_path_leaves_env_and_response_registered sample_ext
    { rbresponse := some [VALUE.fixnum 200,
        VALUE.hash [(VALUE.str "X-Sendfile".toList, VALUE.str "/f".toList)],
        VALUE.ary []], env := [] }
    { h := { status := 0 }, body := none, type := IODINE_HTTP_NONE,
      upgrade := IODINE_UPGRADE_NONE }
    [VALUE.fixnum 200,
      VALUE.hash [(VALUE.str "X-Sendfile".toList, VALUE.str "/f".toList)], VALUE.ary []]
    200 [(VALUE.str "X-Sendfile".toList, VALUE.str "/f".toList)] "/f".toList
    rfl rfl rfl rfl
  ⟨h.2.1, h.2.2.1⟩

/-! ## The URL scheme -/

theorem xforward_key_length (rx : ReqExt) : 18 ≤ (xforward_key rx).length := by
  unfold xforward_key
  rw [List.length_append, List.length_cons]
  have : "x-forwarded-proto".toList.length = 17 := rfl
  omega

theorem xforward_key_nul (rx : ReqExt) : '\x00' ∈ xforward_key rx := by
  unfold xforward_key
  simp

theorem fiobj_hash_get2_none (hs : List (Bytes × FIOBJ)) (name : Bytes)
    (h : ∀ p ∈ hs, p.1 ≠ name) : fiobj_hash_get2 hs name = none := by
  unfold fiobj_hash_get2
  rw [Option.map_eq_none', List.find?_eq_none]
  intro p hp
  simpa using h p hp

/-- The lookup made for `X-Forwarded-Proto` hashes 27 bytes, among them the NUL that ends
the literal: no header whose name is free of NUL bytes is found by it. -/
theorem xforward_lookup_misses (rx : ReqExt) (hs : List (Bytes × FIOBJ))
    (h : ∀ p ∈ hs, '\x00' ∉ p.1) : fiobj_hash_get2 hs (xforward_key rx) = none := by
  apply fiobj_hash_get2_none
  intro p hp hx
  exact h p hp (hx ▸ xforward_key_nul rx)

theorem env_template_url_scheme (sx : Bool) :
    rb_hash_aref env_template_websockets R_URL_SCHEME = HTTP_SCHEME ∧
      rb_hash_aref env_template_sse R_URL_SCHEME = HTTP_SCHEME ∧
      rb_hash_aref (env_template_no_upgrade sx) R_URL_SCHEME = HTTP_SCHEME := by
  cases sx <;> exact ⟨rfl, rfl, rfl⟩

/-- The state of `copy2env` when it reaches the scheme step: the environment still holds
the template's scheme `http`, the two forwarding headers are looked up in headers that
answer like the request's, and what the step returns decides the result: a fault is a
fault of `copy2env`, an environment goes through the generic headers and is returned. -/
theorem copy2env_scheme_step (rx : ReqExt) (sx : Bool) (up : iodine_upgrade_type_enum)
    (h : http_request_s) (data : Bytes)
    (hhost : obj2cstr rx (fiobj_hash_get2 h.headers "host".toList) = some data) :
    ∃ env hs, rb_hash_aref env R_URL_SCHEME = HTTP_SCHEME ∧
      fiobj_hash_get2 hs (xforward_key rx) = fiobj_hash_get2 h.headers (xforward_key rx) ∧
      fiobj_hash_get2 hs "forwarded".toList = fiobj_hash_get2 h.headers "forwarded".toList ∧
      (copy2env_scheme rx hs env = none → copy2env rx sx up h = none) ∧
      (∀ env3, copy2env_scheme rx hs env = some env3 →
        ∃ r, copy2env rx sx up h = some r ∧
          rb_hash_aref r.env R_URL_SCHEME = rb_hash_aref env3 R_URL_SCHEME) := by
  obtain ⟨env2, h2⟩ := copy2env_host_returns data (copy2env_basic sx up h)
  have hP : ∀ (x : VALUE) (env : List (VALUE × VALUE)) (k : Bytes) (v : VALUE),
      k ≠ R_URL_SCHEME → rb_hash_aref env R_URL_SCHEME = x →
      rb_hash_aref (rb_hash_aset env k v) R_URL_SCHEME = x := by
    intro x env k v hk he
    rw [rb_hash_aref_aset_ne env k _ v hk]
    exact he
  have hk1 : "content-length".toList ≠ xforward_key rx := by
    intro hx
    have := xforward_key_length rx
    rw [← hx] at this
    exact absurd this (by decide)
  have hk2 : "content-type".toList ≠ xforward_key rx := by
    intro hx
    have := xforward_key_length rx
    rw [← hx] at this
    exact absurd this (by decide)
  refine ⟨(copy2env_content_type rx (copy2env_content_length rx h.headers env2).2
      (copy2env_content_length rx h.headers env2).1).1,
    (copy2env_content_type rx (copy2env_content_length rx h.headers env2).2
      (copy2env_content_length rx h.headers env2).1).2.1, ?_, ?_, ?_, ?_, ?_⟩
  · refine copy2env_content_type_preserves _ (fun k => k ≠ R_URL_SCHEME) (hP _) (by decide)
      _ _ _ (copy2env_content_length_preserves _ (fun k => k ≠ R_URL_SCHEME) (hP _)
        (by decide) _ _ _
        (copy2env_host_preserves _ (fun k => k ≠ R_URL_SCHEME) (hP _) (by decide) (by decide)
          _ _ _ h2
          (copy2env_basic_preserves _ (fun k => k ≠ R_URL_SCHEME) (hP _) (by decide)
            (by decide) (by decide) (by decide) (by decide) (by decide) sx up h
            (env_template_url_scheme sx))))
  · rw [copy2env_content_type_get2 _ _ _ _ hk2, copy2env_content_length_get2 _ _ _ _ hk1]
  · rw [copy2env_content_type_get2 _ _ _ _ (by decide),
      copy2env_content_length_get2 _ _ _ _ (by decide)]
  · intro hn
    unfold copy2env
    simp only [hhost, h2, hn]
  · intro env3 h3
    obtain ⟨env4, h4⟩ := fiobj_each1_copy2env_returns (copy2env_content_type rx
      (copy2env_content_length rx h.headers env2).2
      (copy2env_content_length rx h.headers env2).1).2.1 env3
    have hc : copy2env rx sx up h = some
        { env := env4
          headers := (copy2env_content_type rx (copy2env_content_length rx h.headers env2).2
            (copy2env_content_length rx h.headers env2).1).2.1
          stderr := (copy2env_content_type rx (copy2env_content_length rx h.headers env2).2
            (copy2env_content_length rx h.headers env2).1).2.2 } := by
      unfold copy2env
      simp only [hhost, h2, h3, h4]
    refine ⟨_, hc, ?_⟩
    exact fiobj_each1_copy2env_preserves
      (fun env => rb_hash_aref env R_URL_SCHEME = rb_hash_aref env3 R_URL_SCHEME)
      (fun k => k ≠ R_URL_SCHEME) (hP _) _
      (fun p _ => spec_header_key_ne _ _ (by decide)) _ _ h4 rfl

theorem or32_nul : or32 '\x00' = 32 := by decide

theorem cstr_at_some (s : Bytes) (p : Nat) (x : Char) (h : cstr_at s p = some x)
    (hx : or32 x ≠ 32) : p < s.length ∧ s.drop p = x :: s.drop (p + 1) := by
  unfold cstr_at at h
  split_ifs at h with h1 h2
  · refine ⟨h1, ?_⟩
    rw [List.get?_eq_getElem?, List.getElem?_eq_getElem h1, Option.some.injEq] at h
    rw [← h]
    exact List.drop_eq_getElem_cons h1
  · simp only [Option.some.injEq] at h
    rw [← h] at hx
    exact absurd or32_nul hx

theorem match_chain_true (s : Bytes) (pat : List Char) (hpat : ∀ c ∈ pat, c.toNat ≠ 32)
    (p q : Nat) (h : match_chain s pat p = some (true, q)) :
    q = p + pat.length ∧ ((s.drop p).take pat.length).map or32 = pat.map Char.toNat := by
  induction pat generalizing p with
  | nil =>
    simp only [match_chain, Option.some.injEq, Prod.mk.injEq, true_and] at h
    simp [h]
  | cons c cs ih =>
    unfold match_chain at h
    split at h
    · cases h
    · rename_i x hx
      split_ifs at h with hc
      · have hc32 : or32 x ≠ 32 := by rw [hc]; exact hpat c (List.mem_cons_self _ _)
        obtain ⟨_, hd⟩ := cstr_at_some s p x hx hc32
        obtain ⟨hq, hm⟩ := ih (fun d hd => hpat d (List.mem_cons_of_mem _ hd)) (p + 1) h
        refine ⟨by rw [hq, List.length_cons]; omega, ?_⟩
        rw [hd, List.length_cons, List.take_succ_cons, List.map_cons, List.map_cons, hc, hm]
      · simp at h

theorem forwarded_loop_no_proto (s : Bytes)
    (hno : ∀ i, ((s.drop i).take 6).map or32 ≠ "proto=".toList.map Char.toNat)
    (fuel pos : Nat) :
    forwarded_loop s fuel pos = forwarded_result.no_proto ∨
      forwarded_loop s fuel pos = forwarded_result.out_of_bounds ∨
      forwarded_loop s fuel pos = forwarded_result.out_of_fuel := by
  induction fuel generalizing pos with
  | zero => right; right; rfl
  | succ f ih =>
    unfold forwarded_loop
    split
    · right; left; rfl
    · split_ifs
      · left; rfl
      · split
        · right; left; rfl
        · rename_i p hp
          exact absurd (match_chain_true s _ (by decide) pos p hp).2 (hno pos)
        · exact ih _

/-- A `Forwarded` value without `proto=` (in any letter case): the scan either finds
nothing or reads past the end of the value. -/
theorem forwarded_scan_no_proto (s : Bytes)
    (hno : ∀ i, ((s.drop i).take 6).map or32 ≠ "proto=".toList.map Char.toNat) :
    forwarded_scan s = forwarded_result.no_proto ∨
      forwarded_scan s = forwarded_result.out_of_bounds := by
  rcases forwarded_loop_no_proto s hno (s.length + 2) 0 with h | h | h
  · exact Or.inl h
  · exact Or.inr h
  · exact absurd h (forwarded_scan_fuel s)

theorem copy2env_scheme_default (rx : ReqExt) (hs : List (Bytes × FIOBJ))
    (env : List (VALUE × VALUE))
    (hx : fiobj_hash_get2 hs (xforward_key rx) = none)
    (hf : ∀ o, fiobj_hash_get2 hs "forwarded".toList = some o →
      obj2cstr rx (some o) = none ∨
        ∃ s, obj2cstr rx (some o) = some s ∧ forwarded_scan s = forwarded_result.no_proto) :
    copy2env_scheme rx hs env = some env := by
  unfold copy2env_scheme
  rw [hx]
  simp only
  cases hfo : fiobj_hash_get2 hs "forwarded".toList with
  | none => rfl
  | some o =>
    simp only
    rcases hf o hfo with hn | ⟨s, hs1, hs2⟩
    · rw [hn]
    · rw [hs1]
      simp only [hs2]

/-- The default scheme: when the lookup for `X-Forwarded-Proto` finds nothing and there is
no `Forwarded` header, or its scan ends inside the value without finding `proto=`,
`copy2env` returns an environment whose `rack.url_scheme` is the `http` of the template,
whichever of the three templates was copied. -/
theorem url_scheme_default (rx : ReqExt) (sx : Bool) (up : iodine_upgrade_type_enum)
    (h : http_request_s) (data : Bytes)
    (hhost : obj2cstr rx (fiobj_hash_get2 h.headers "host".toList) = some data)
    (hx : fiobj_hash_get2 h.headers (xforward_key rx) = none)
    (hf : ∀ o, fiobj_hash_get2 h.headers "forwarded".toList = some o →
      obj2cstr rx (some o) = none ∨
        ∃ s, obj2cstr rx (some o) = some s ∧ forwarded_scan s = forwarded_result.no_proto) :
    ∃ r, copy2env rx sx up h = some r ∧ rb_hash_aref r.env R_URL_SCHEME = HTTP_SCHEME := by
  obtain ⟨env, hs, he, hg1, hg2, _, hsome⟩ := copy2env_scheme_step rx sx up h data hhost
  have hd := copy2env_scheme_default rx hs env (by rw [hg1]; exact hx)
    (by rw [hg2]; exact hf)
  obtain ⟨r, hr, hv⟩ := hsome env hd
  exact ⟨r, hr, by rw [hv]; exact he⟩

/-- C29: the `proto=` scan of `copy2env` reads past the terminating NUL of the values `p`
and `pro`: after the byte that fails a comparison the position has already moved on, so a
partial match at the end of the value leaves it one byte beyond the terminator, where the
loop condition reads (index 2 of `p`, whose terminator is at index 1).  The value
`proto=ht` is scanned inside its bounds, and the scan ends on every value. -/
theorem forwarded_scan_reads_past_terminator :
    forwarded_scan "p".toList = forwarded_result.out_of_bounds ∧
      forwarded_scan "pro".toList = forwarded_result.out_of_bounds ∧
      match_chain "p".toList "proto=".toList 0 = some (false, 2) ∧
      cstr_at "p".toList 1 = some '\x00' ∧
      cstr_at "p".toList 2 = none ∧
      forwarded_scan "proto=ht".toList = forwarded_result.raw "ht".toList ∧
      ∀ s, forwarded_scan s ≠ forwarded_result.out_of_fuel :=
  ⟨by decide, by decide, by decide, by decide, by decide, by decide, forwarded_scan_fuel⟩

/-- C23: a request whose `Forwarded` header is `for=backup`, a value without `proto=`: the
scan meets the final `p`, compares the terminating NUL with `r` and moves past it, so
`copy2env` reads outside the value instead of leaving the scheme `http`, with each of the
three templates. -/
theorem forwarded_without_proto_reads_past_value :
    (∀ i, (("for=backup".toList.drop i).take 6).map or32 ≠
        "proto=".toList.map Char.toNat) ∧
      fiobj_hash_get2 (forwarded_request "for=backup".toList).headers
        (xforward_key sample_rx) = none ∧
      forwarded_scan "for=backup".toList = forwarded_result.out_of_bounds ∧
      ∀ sx up, copy2env sample_rx sx up (forwarded_request "for=backup".toList) = none := by
  refine ⟨?_, by decide, by decide, ?_⟩
  · intro i
    by_cases hi : i < 10
    · interval_cases i <;> decide
    · have : "for=backup".toList.drop i = [] := by
        apply List.drop_eq_nil_of_le
        have : "for=backup".toList.length = 10 := rfl
        omega
      rw [this]
      decide
  · intro sx up
    cases sx <;> cases up <;> rfl

/-- C21: a request with the header `X-Forwarded-Proto: https` and no `Forwarded` header:
the lookup of `copy2env` hashes 27 bytes of the 17-byte literal `x-forwarded-proto`, so it
does not find the header, and the environment keeps the scheme `http` of the template,
whatever bytes follow the literal in memory. -/
theorem xforwarded_proto_https_is_not_found (rx : ReqExt) (sx : Bool)
    (up : iodine_upgrade_type_enum) :
    fiobj_hash_get2 xforwarded_proto_request.headers "x-forwarded-proto".toList =
        some (FIOBJ.str "https".toList) ∧
      fiobj_hash_get2 xforwarded_proto_request.headers (xforward_key rx) = none ∧
      ∃ r, copy2env rx sx up xforwarded_proto_request = some r ∧
        rb_hash_aref r.env R_URL_SCHEME = HTTP_SCHEME := by
  have hmiss : fiobj_hash_get2 xforwarded_proto_request.headers (xforward_key rx) = none :=
    xforward_lookup_misses rx _ (by decide)
  refine ⟨by decide, hmiss, ?_⟩
  apply url_scheme_default rx sx up xforwarded_proto_request "example.com:8080".toList rfl
    hmiss
  intro o ho
  have hn : fiobj_hash_get2 xforwarded_proto_request.headers "forwarded".toList = none := by
    decide
  rw [hn] at ho
  cases ho

/-! ## The `Forwarded` scan on a value that holds `proto=` -/

theorem cstr_at_cons (c : Char) (l : Bytes) (i : Nat) :
    cstr_at (c :: l) (i + 1) = cstr_at l i := by
  unfold cstr_at
  simp only [List.length_cons, Nat.add_lt_add_iff_right, Nat.add_right_cancel_iff,
    List.get?_cons_succ]

theorem match_chain_cons (c : Char) (l : Bytes) (pat : List Char) (i : Nat) :
    match_chain (c :: l) pat (i + 1) =
      (match_chain l pat i).map (fun r => (r.1, r.2 + 1)) := by
  induction pat generalizing i with
  | nil => rfl
  | cons p ps ih =>
    unfold match_chain
    rw [cstr_at_cons]
    cases cstr_at l i with
    | none => rfl
    | some x =>
      simp only
      split_ifs
      · exact ih (i + 1)
      · rfl

theorem forwarded_token_cons (c : Char) (l : Bytes) (i : Nat) :
    forwarded_token (c :: l) (i + 1) = forwarded_token l i := by
  unfold forwarded_token
  rw [match_chain_cons]
  cases hm : match_chain l "http".toList i with
  | none => rfl
  | some r =>
    obtain ⟨b, q⟩ := r
    cases b
    · simp only [Option.map_some', List.length_cons, Nat.add_le_add_iff_right,
        List.drop_succ_cons]
    · simp only [Option.map_some']
      have h4 : i + 1 + 4 = (i + 4) + 1 := by omega
      rw [h4, cstr_at_cons]

theorem forwarded_loop_cons (c : Char) (l : Bytes) (fuel i : Nat) :
    forwarded_loop (c :: l) fuel (i + 1) = forwarded_loop l fuel i := by
  induction fuel generalizing i with
  | zero => rfl
  | succ f ih =>
    unfold forwarded_loop
    rw [cstr_at_cons, match_chain_cons]
    cases cstr_at l i with
    | none => rfl
    | some x =>
      simp only
      split_ifs
      · rfl
      · cases hm : match_chain l "proto=".toList i with
        | none => rfl
        | some r =>
          obtain ⟨b, q⟩ := r
          cases b
          · simp only [Option.map_some']
            exact ih q
          · simp only [Option.map_some']
            exact forwarded_token_cons c l q

theorem forwarded_loop_append (pre l : Bytes) (fuel i : Nat) :
    forwarded_loop (pre ++ l) fuel (pre.length + i) = forwarded_loop l fuel i := by
  induction pre with
  | nil => simp
  | cons c cs ih =>
    have h : (c :: cs).length + i = (cs.length + i) + 1 := by
      simp only [List.length_cons]; omega
    rw [List.cons_append, h, forwarded_loop_cons, ih]

theorem forwarded_token_append (pre l : Bytes) (i : Nat) :
    forwarded_token (pre ++ l) (pre.length + i) = forwarded_token l i := by
  induction pre with
  | nil => simp
  | cons c cs ih =>
    have h : (c :: cs).length + i = (cs.length + i) + 1 := by
      simp only [List.length_cons]; omega
    rw [List.cons_append, h, forwarded_token_cons, ih]

theorem cstr_at_zero_cons (c : Char) (l : Bytes) : cstr_at (c :: l) 0 = some c := by
  simp [cstr_at]

theorem cstr_at_zero_nil : cstr_at [] 0 = some '\x00' := by
  simp [cstr_at]

/-- What a comparison chain started at the head of a string does: it either matches the
whole pattern, or matches `k` bytes and fails on (and consumes) the next one. -/
theorem match_chain_zero (pat : List Char) (hpat : ∀ c ∈ pat, c.toNat ≠ 32) (l : Bytes) :
    (match_chain l pat 0 = some (true, pat.length) ∧ pat.length ≤ l.length ∧
        (l.take pat.length).map or32 = pat.map Char.toNat) ∨
      ∃ k, k < pat.length ∧ match_chain l pat 0 = some (false, k + 1) ∧ k ≤ l.length ∧
        (l.take k).map or32 = (pat.take k).map Char.toNat ∧
        (l.take (k + 1)).map or32 ≠ (pat.take (k + 1)).map Char.toNat := by
  induction pat generalizing l with
  | nil => left; simp [match_chain]
  | cons p ps ih =>
    have hp : p.toNat ≠ 32 := hpat p (List.mem_cons_self _ _)
    cases l with
    | nil =>
      right
      refine ⟨0, by simp, ?_, by simp, by simp, by simp⟩
      unfold match_chain
      rw [cstr_at_zero_nil]
      simp only [or32_nul]
      rw [if_neg (fun h => hp h.symm)]
    | cons c cs =>
      unfold match_chain
      rw [cstr_at_zero_cons]
      simp only
      by_cases hc : or32 c = p.toNat
      · rw [if_pos hc]
        have h01 : (0 : Nat) + 1 = 0 + 1 := rfl
        rw [match_chain_cons c cs ps 0]
        rcases ih (fun d hd => hpat d (List.mem_cons_of_mem _ hd)) cs with
          ⟨h1, h2, h3⟩ | ⟨k, hk, h1, h2, h3, h4⟩
        · left
          refine ⟨by rw [h1]; rfl, by simp only [List.length_cons]; omega, ?_⟩
          simp only [List.length_cons, List.take_succ_cons, List.map_cons, hc, h3]
        · right
          refine ⟨k + 1, by simp only [List.length_cons]; omega, by rw [h1]; rfl,
            by simp only [List.length_cons]; omega, ?_, ?_⟩
          · simp only [List.take_succ_cons, List.map_cons, hc, h3]
          · simp only [List.take_succ_cons, List.map_cons, hc]
            intro hx
            exact h4 (List.cons_injective hx)
      · rw [if_neg hc]
        right
        refine ⟨0, by simp, rfl, by simp, by simp, ?_⟩
        simp only [Nat.zero_add, List.take_succ_cons, List.take_zero, List.map_cons,
          List.map_nil]
        intro hx
        exact hc (List.cons.inj hx).1

theorem map_take_get {α β γ : Type} (f : α → γ) (g : β → γ) (l : List α) (p : List β)
    (k j : Nat) (h : (l.take k).map f = (p.take k).map g) (hj : j < k) (x : α)
    (hx : l.get? j = some x) : ∃ y, p.get? j = some y ∧ f x = g y := by
  have h2 := congrArg (fun z => z.get? j) h
  simp only [List.get?_eq_getElem?, List.getElem?_map, List.getElem?_take, hj, if_true]
    at h2 hx
  rw [hx] at h2
  simp only [Option.map_some'] at h2
  cases hp : p[j]? with
  | none => rw [hp] at h2; simp at h2
  | some y =>
    rw [hp] at h2
    simp only [Option.map_some', Option.some.injEq] at h2
    exact ⟨y, by simp [hp], h2⟩

theorem proto_pattern_length (pat : Bytes)
    (hpat : pat.map or32 = "proto=".toList.map Char.toNat) : pat.length = 6 := by
  have := congrArg List.length hpat
  simpa using this

theorem proto_pattern_head (pat : Bytes)
    (hpat : pat.map or32 = "proto=".toList.map Char.toNat) :
    ∃ a t, pat = a :: t ∧ or32 a = 112 := by
  cases pat with
  | nil => simp at hpat
  | cons a t =>
    refine ⟨a, t, rfl, ?_⟩
    have h := (List.cons.inj (by simpa using hpat : or32 a :: t.map or32 =
      112 :: [114, 111, 116, 111, 61])).1
    exact h

/-- The scan finds the first `proto=` of a value when the bytes before it hold no NUL and do
not end in a partial match (`p`, `pr`, `pro`, `prot` or `proto`, in any letter case): the
result is that of the token step right after the match. -/
theorem forwarded_loop_finds (pat rest : Bytes)
    (hpat : pat.map or32 = "proto=".toList.map Char.toNat) :
    ∀ (n : Nat) (pre : Bytes), pre.length ≤ n → '\x00' ∉ pre →
      (∀ i, i < pre.length →
        (((pre ++ (pat ++ rest)).drop i).take 6).map or32 ≠ "proto=".toList.map Char.toNat) →
      (∀ k, 1 ≤ k → k ≤ 5 → k ≤ pre.length →
        (pre.drop (pre.length - k)).map or32 ≠ ("proto=".toList.take k).map Char.toNat) →
      ∀ fuel, pre.length + 1 ≤ fuel →
        forwarded_loop (pre ++ (pat ++ rest)) fuel 0 = forwarded_token (pat ++ rest) 6 := by
  have hlen := proto_pattern_length pat hpat
  obtain ⟨a, t, hat, ha⟩ := proto_pattern_head pat hpat
  have hpp : ∀ c ∈ "proto=".toList, c.toNat ≠ 32 := by decide
  intro n
  induction n with
  | zero =>
    intro pre hn _ _ _ fuel hfuel
    have hpre : pre = [] := List.length_eq_zero.1 (Nat.le_zero.1 hn)
    subst hpre
    obtain ⟨f, rfl⟩ : ∃ f, fuel = f + 1 := ⟨fuel - 1, by simp at hfuel; omega⟩
    rw [List.nil_append]
    unfold forwarded_loop
    rw [hat, List.cons_append, cstr_at_zero_cons]
    simp only
    have ha0 : a ≠ '\x00' := by
      intro h0
      rw [h0, or32_nul] at ha
      exact absurd ha (by decide)
    rw [if_neg ha0]
    rcases match_chain_zero "proto=".toList hpp (a :: (t ++ rest)) with
      ⟨h1, _, _⟩ | ⟨k, hk, _, _, _, h5⟩
    · rw [h1]
      rfl
    · exfalso
      apply h5
      have hk6 : k + 1 ≤ pat.length := by
        rw [hlen]
        have : "proto=".toList.length = 6 := rfl
        omega
      rw [← List.cons_append, ← hat, List.take_append_of_le_length hk6, List.map_take,
        List.map_take, hpat]
  | succ n ih =>
    intro pre hn hnul h2 h3 fuel hfuel
    cases pre with
    | nil => exact ih [] (Nat.zero_le _) hnul h2 h3 fuel hfuel
    | cons c cs =>
      obtain ⟨f, rfl⟩ : ∃ f, fuel = f + 1 := ⟨fuel - 1, by omega⟩
      have hc0 : c ≠ '\x00' := fun h0 => hnul (by simp [h0])
      rw [List.cons_append]
      unfold forwarded_loop
      rw [cstr_at_zero_cons]
      simp only
      rw [if_neg hc0]
      rcases match_chain_zero "proto=".toList hpp (c :: (cs ++ (pat ++ rest))) with
        ⟨_, _, h1⟩ | ⟨k, hk, h1, _, h4, _⟩
      · exact absurd h1 (by simpa using h2 0 (by simp))
      · have hk5 : k ≤ 5 := by
          have : "proto=".toList.length = 6 := rfl
          omega
        rw [h1]
        simp only
        -- the partial match ends inside the bytes before `proto=`
        have hkm : k < (c :: cs).length := by
          by_contra hge
          have hge : (c :: cs).length ≤ k := Nat.le_of_not_lt hge
          rcases Nat.eq_or_lt_of_le hge with heq | hlt
          · apply h3 k (by rw [← heq]; simp) hk5 (by omega)
            rw [← heq, Nat.sub_self, List.drop_zero]
            rw [← List.cons_append, ← heq, List.take_left] at h4
            exact h4
          · have hx : (c :: (cs ++ (pat ++ rest))).get? (c :: cs).length = some a := by
              rw [← List.cons_append, List.get?_eq_getElem?, List.getElem?_append_right (le_refl _), Nat.sub_self, hat]
              simp
            obtain ⟨y, hy, hya⟩ := map_take_get or32 Char.toNat _ _ k _ h4 hlt a hx
            rw [ha] at hya
            have hm1 : 1 ≤ (c :: cs).length := by simp
            have hm4 : (c :: cs).length ≤ 4 := by omega
            generalize (c :: cs).length = m at hy hm1 hm4
            interval_cases m <;> simp at hy <;> subst hy <;> exact absurd hya (by decide)
        have hsplit : c :: (cs ++ (pat ++ rest)) =
            (c :: cs).take (k + 1) ++ ((c :: cs).drop (k + 1) ++ (pat ++ rest)) := by
          rw [← List.cons_append]
          conv_rhs => rw [← List.append_assoc, List.take_append_drop]
        have hl : ((c :: cs).take (k + 1)).length = k + 1 := by
          rw [List.length_take]
          omega
        have hloop := forwarded_loop_append ((c :: cs).take (k + 1))
          ((c :: cs).drop (k + 1) ++ (pat ++ rest)) f 0
        rw [hl, ← hsplit] at hloop
        rw [Nat.add_zero] at hloop
        rw [hloop]
        have hdl : ((c :: cs).drop (k + 1)).length = (c :: cs).length - (k + 1) :=
          List.length_drop _ _
        apply ih ((c :: cs).drop (k + 1))
        · rw [hdl]; omega
        · exact fun hm => hnul (List.mem_of_mem_drop hm)
        · intro i hi
          have := h2 (k + 1 + i) (by rw [hdl] at hi; omega)
          rw [← List.drop_drop, List.drop_append_of_le_length (by omega)] at this
          exact this
        · intro j hj1 hj5 hjl
          have := h3 j hj1 hj5 (by rw [hdl] at hjl; omega)
          rw [List.drop_drop, hdl]
          have he : k + 1 + ((c :: cs).length - (k + 1) - j) = (c :: cs).length - j := by
            rw [hdl] at hjl
            omega
          rw [he]
          exact this
        · rw [hdl]; omega

/-- The token step at the head of a string: four bytes reading `http` in any letter case
give `HTTPS` when the fifth byte is `s` or `S` and `HTTP` otherwise; any other start gives
the bytes up to the first `;` or NUL. -/
theorem forwarded_token_zero (rest : Bytes) :
    forwarded_token rest 0 =
      if (rest.take 4).map or32 = "http".toList.map Char.toNat then
        (if (rest.get? 4).map or32 = some 's'.toNat then forwarded_result.HTTPS
         else forwarded_result.HTTP)
      else forwarded_result.raw (rest.takeWhile (fun c => c != '\x00' && c != ';')) := by
  unfold forwarded_token
  rcases match_chain_zero "http".toList (by decide) rest with
    ⟨h1, h2, h3⟩ | ⟨k, hk, h1, _, _, h5⟩
  · have h4 : "http".toList.length = 4 := rfl
    rw [h4] at h1 h2 h3
    rw [h1, if_pos h3]
    simp only [Nat.zero_add]
    unfold cstr_at
    by_cases hl : 4 < rest.length
    · rw [if_pos hl]
      have hg : rest.get? 4 = some (rest.get ⟨4, hl⟩) := List.get?_eq_get hl
      rw [hg]
      simp only [Option.map_some', Option.some.injEq]
    · have hl4 : rest.length = 4 := by omega
      rw [if_neg hl, if_pos hl4.symm]
      have hg : rest.get? 4 = none := List.get?_eq_none.2 (by omega)
      rw [hg]
      simp only [Option.map_none', or32_nul]
      rw [if_neg (by decide), if_neg (by simp)]
  · have h4 : "http".toList.length = 4 := rfl
    rw [h4] at hk
    have hne : ¬ (rest.take 4).map or32 = "http".toList.map Char.toNat := by
      intro hx
      apply h5
      have := congrArg (List.take (k + 1)) hx
      rw [← List.map_take, ← List.map_take, List.take_take, Nat.min_eq_left (by omega)]
        at this
      exact this
    rw [h1, if_neg hne]
    simp only [Nat.zero_le, if_true, List.drop_zero]

/-- C22 (counterexample): for the header `Forwarded: for=192.0.2.60;proto=http2` the token
after `proto=` is `http2`, neither `https` nor `http`, and the environment gets the scheme
`http`, not the raw token. -/
theorem forwarded_proto_http2_gives_http :
    forwarded_scan "for=192.0.2.60;proto=http2".toList = forwarded_result.HTTP ∧
      ∃ r, copy2env sample_rx false IODINE_UPGRADE_NONE
          (forwarded_request "for=192.0.2.60;proto=http2".toList) = some r ∧
        rb_hash_aref r.env R_URL_SCHEME = HTTP_SCHEME :=
  ⟨by decide, _, rfl, rfl⟩

/-- C22 (as amended): when the lookup for `X-Forwarded-Proto` finds nothing and the
`Forwarded` value is `pre ++ pat ++ rest`, where `pat` reads `proto=` in any letter case,
`pre` holds no NUL and no earlier `proto=` and does not end in a partial match (`p`, `pr`,
`pro`, `prot`, `proto`), `copy2env` returns an environment whose `rack.url_scheme` is
`https` when `rest` starts with `http` (any letter case) followed by `s` or `S`, `http` when
it starts with `http` followed by anything else or by nothing, and otherwise the bytes of
`rest` up to the first `;` (or NUL). -/
theorem forwarded_proto_sets_scheme (rx : ReqExt) (sx : Bool)
    (up : iodine_upgrade_type_enum) (h : http_request_s) (data pre pat rest : Bytes)
    (hhost : obj2cstr rx (fiobj_hash_get2 h.headers "host".toList) = some data)
    (hx : fiobj_hash_get2 h.headers (xforward_key rx) = none)
    (hf : fiobj_hash_get2 h.headers "forwarded".toList =
      some (FIOBJ.str (pre ++ (pat ++ rest))))
    (hpat : pat.map or32 = "proto=".toList.map Char.toNat)
    (hnul : '\x00' ∉ pre)
    (hfirst : ∀ i, i < pre.length →
      (((pre ++ (pat ++ rest)).drop i).take 6).map or32 ≠ "proto=".toList.map Char.toNat)
    (hpart : ∀ k, 1 ≤ k → k ≤ 5 → k ≤ pre.length →
      (pre.drop (pre.length - k)).map or32 ≠ ("proto=".toList.take k).map Char.toNat) :
    ∃ r, copy2env rx sx up h = some r ∧
      rb_hash_aref r.env R_URL_SCHEME =
        if (rest.take 4).map or32 = "http".toList.map Char.toNat then
          (if (rest.get? 4).map or32 = some 's'.toNat then HTTPS_SCHEME else HTTP_SCHEME)
        else VALUE.str (rest.takeWhile (fun c => c != '\x00' && c != ';')) := by
  obtain ⟨env, hs, _, hg1, hg2, _, hsome⟩ := copy2env_scheme_step rx sx up h data hhost
  have hscan : forwarded_scan (pre ++ (pat ++ rest)) =
      if (rest.take 4).map or32 = "http".toList.map Char.toNat then
        (if (rest.get? 4).map or32 = some 's'.toNat then forwarded_result.HTTPS
         else forwarded_result.HTTP)
      else forwarded_result.raw (rest.takeWhile (fun c => c != '\x00' && c != ';')) := by
    unfold forwarded_scan
    rw [forwarded_loop_finds pat rest hpat pre.length pre (le_refl _) hnul hfirst hpart _
      (by rw [List.length_append]; omega)]
    have h6 := forwarded_token_append pat rest 0
    rw [proto_pattern_length pat hpat] at h6
    rw [h6, forwarded_token_zero]
  have hstep : copy2env_scheme rx hs env =
      some (rb_hash_aset env R_URL_SCHEME
        (if (rest.take 4).map or32 = "http".toList.map Char.toNat then
          (if (rest.get? 4).map or32 = some 's'.toNat then HTTPS_SCHEME else HTTP_SCHEME)
        else VALUE.str (rest.takeWhile (fun c => c != '\x00' && c != ';')))) := by
    unfold copy2env_scheme
    rw [hg1, hx]
    simp only
    rw [hg2, hf]
    simp only [obj2cstr, hscan]
    split_ifs <;> rfl
  obtain ⟨r, hr, hv⟩ := hsome _ hstep
  exact ⟨r, hr, by rw [hv, rb_hash_aref_aset_same]⟩

theorem forwarded_proto_sets_scheme_witness :
    ∃ r, copy2env sample_rx false IODINE_UPGRADE_NONE
        (forwarded_request "for=192.0.2.60;proto=https;by=203.0.113.43".toList) = some r ∧
      rb_hash_aref r.env R_URL_SCHEME = HTTPS_SCHEME := by
  obtain ⟨r, hr, hv⟩ := forwarded_proto_sets_scheme sample_rx false IODINE_UPGRADE_NONE
    (forwarded_request "for=192.0.2.60;proto=https;by=203.0.113.43".toList)
    "example.com:8080".toList "for=192.0.2.60;".toList "proto=".toList
    "https;by=203.0.113.43".toList rfl (by decide) (by decide) (by decide) (by decide)
    (by decide) (fun k h1 h5 _ => by interval_cases k <;> decide)
  exact ⟨r, hr, hv⟩

/-! ## The two timeouts -/

theorem to_uintptr_nat (t : Nat) (h : t < 18446744073709551616) :
    to_uintptr (t : Int) = t := by
  unfold to_uintptr
  have : (t : Int) % 18446744073709551616 = (t : Int) := by
    apply Int.emod_eq_of_lt
    · exact Int.natCast_nonneg t
    · exact_mod_cast h
  rw [this]
  exact Int.toNat_natCast t

theorem iodine_http_listen_ping_fixnum (t : Nat) (h : t < 18446744073709551616) (d : VALUE) :
    iodine_http_listen_ping (VALUE.fixnum t) d =
      if t > 255 then some (0, [PING_WARNING]) else some (t, []) := by
  unfold iodine_http_listen_ping
  simp only [not_nil_nor_false, check_fix2ulong, if_true]
  rw [to_uintptr_nat t h]

theorem iodine_http_listen_tout_fixnum (t : Nat) (h : t < 18446744073709551616) (d : VALUE) :
    iodine_http_listen_tout (VALUE.fixnum t) d =
      if t > 255 then some (0, [TIMEOUT_WARNING]) else some (t, []) := by
  unfold iodine_http_listen_tout
  simp only [not_nil_nor_false, check_fix2ulong, if_true]
  rw [to_uintptr_nat t h]

/-- C24: with `timeout: 41` the engine is handed 20: `tout` already holds the number after
`FIX2ULONG`, and the call converts it once more with `FIX2INT`.  For every value `t`: the
ping interval reaches the engine unchanged when `t ≤ 255` and is replaced by 0 with a
warning above; the timeout is replaced by 0 with a warning above 255 as well, but below it
an odd `t` reaches the engine as `t / 2` and an even `t` other than 0 is no Fixnum for
`FIX2INT`. -/
theorem listen_timeout_is_converted_twice :
    iodine_http_listen_timeouts VALUE.Qnil VALUE.Qnil (VALUE.fixnum 41) VALUE.Qnil =
        some { timeout := 20, ws_timeout := 0, warnings := [] } ∧
      iodine_http_listen_timeouts (VALUE.fixnum 41) VALUE.Qnil VALUE.Qnil VALUE.Qnil =
        some { timeout := 0, ws_timeout := 41, warnings := [] } ∧
      iodine_http_listen_timeouts VALUE.Qnil VALUE.Qnil (VALUE.fixnum 40) VALUE.Qnil = none ∧
      (∀ t : Nat, t ≤ 255 →
        iodine_http_listen_timeouts (VALUE.fixnum t) VALUE.Qnil VALUE.Qnil VALUE.Qnil =
          some { timeout := 0, ws_timeout := t, warnings := [] }) ∧
      (∀ t : Nat, 255 < t → t < 18446744073709551616 →
        iodine_http_listen_timeouts (VALUE.fixnum t) VALUE.Qnil VALUE.Qnil VALUE.Qnil =
          some { timeout := 0, ws_timeout := 0, warnings := [PING_WARNING] }) ∧
      (∀ t : Nat, t ≤ 255 → t % 2 = 1 →
        iodine_http_listen_timeouts VALUE.Qnil VALUE.Qnil (VALUE.fixnum t) VALUE.Qnil =
          some { timeout := t / 2, ws_timeout := 0, warnings := [] }) ∧
      (∀ t : Nat, t ≤ 255 → t % 2 = 0 → t ≠ 0 →
        iodine_http_listen_timeouts VALUE.Qnil VALUE.Qnil (VALUE.fixnum t) VALUE.Qnil =
          none) ∧
      (∀ t : Nat, 255 < t → t < 18446744073709551616 →
        iodine_http_listen_timeouts VALUE.Qnil VALUE.Qnil (VALUE.fixnum t) VALUE.Qnil =
          some { timeout := 0, ws_timeout := 0, warnings := [TIMEOUT_WARNING] }) := by
  have hp0 : iodine_http_listen_ping VALUE.Qnil VALUE.Qnil = some (0, []) := rfl
  have ht0 : iodine_http_listen_tout VALUE.Qnil VALUE.Qnil = some (0, []) := rfl
  refine ⟨by decide, by decide, by decide, ?_, ?_, ?_, ?_, ?_⟩
  · intro t ht
    unfold iodine_http_listen_timeouts
    rw [iodine_http_listen_ping_fixnum t (by omega), if_neg (by omega), ht0]
    rfl
  · intro t ht h64
    unfold iodine_http_listen_timeouts
    rw [iodine_http_listen_ping_fixnum t h64, if_pos ht, ht0]
    rfl
  · intro t ht hodd
    unfold iodine_http_listen_timeouts
    rw [iodine_http_listen_tout_fixnum t (by omega), if_neg (by omega), hp0]
    have h0 : t ≠ 0 := by omega
    simp only [h0, ne_eq, not_false_eq_true, if_true, FIX2INT, hodd, List.append_nil]
  · intro t ht heven h0
    unfold iodine_http_listen_timeouts
    rw [iodine_http_listen_tout_fixnum t (by omega), if_neg (by omega), hp0]
    simp only [h0, ne_eq, not_false_eq_true, if_true, FIX2INT, heven]
    simp
  · intro t ht h64
    unfold iodine_http_listen_timeouts
    rw [iodine_http_listen_tout_fixnum t h64, if_pos ht, hp0]
    rfl

theorem listen_timeout_is_converted_twice_witness :
    iodine_http_listen_timeouts VALUE.Qnil VALUE.Qnil (VALUE.fixnum (41 : Nat)) VALUE.Qnil =
        some { timeout := 41 / 2, ws_timeout := 0, warnings := [] } ∧
      iodine_http_listen_timeouts (VALUE.fixnum (200 : Nat)) VALUE.Qnil VALUE.Qnil
        VALUE.Qnil = some { timeout := 0, ws_timeout := 200, warnings := [] } :=
  ⟨listen_timeout_is_converted_twice.2.2.2.2.2.1 41 (by decide) (by decide),
    listen_timeout_is_converted_twice.2.2.2.1 200 (by decide)⟩

open iodine_connection_event_type_e

/-! ## Upgraded connections -/

theorem fired_events_append (xs ys : List connection_action) :
    fired_events (xs ++ ys) = fired_events xs ++ fired_events ys := by
  induction xs with
  | nil => rfl
  | cons x xs ih =>
    cases x <;> simp [fired_events, ih]

theorem ws_deliver_fires (c : iodine_connection_s) (cb : ws_callback) :
    ∃ data, (ws_deliver c cb).2 =
      [connection_action.fire_event (spec_ws_event cb) data (ws_deliver c cb).1] := by
  cases cb
  · exact ⟨none, rfl⟩
  · exact ⟨_, rfl⟩
  · exact ⟨none, rfl⟩
  · exact ⟨none, rfl⟩
  · exact ⟨none, rfl⟩

theorem ws_deliver_all_events (cbs : List ws_callback) : ∀ c : iodine_connection_s,
    (fired_events (ws_deliver_all c cbs).2).map Prod.fst = cbs.map spec_ws_event := by
  induction cbs with
  | nil => intro c; rfl
  | cons cb rest ih =>
    intro c
    obtain ⟨data, hd⟩ := ws_deliver_fires c cb
    simp only [ws_deliver_all, fired_events_append, List.map_append, ih, hd, fired_events,
      List.map_cons, List.map_nil, List.singleton_append]

theorem ws_deliver_keeps (c : iodine_connection_s) (cb : ws_callback)
    (h : ∀ w id, cb ≠ ws_callback.on_open w id) :
    (ws_deliver c cb).1 = c ∧ ∀ e ∈ fired_events (ws_deliver c cb).2, e.2 = c := by
  cases cb with
  | on_open w id => exact absurd rfl (h w id)
  | _ => exact ⟨rfl, by simp [ws_deliver, iodine_ws_on_message, iodine_ws_on_ready,
      iodine_ws_on_shutdown, iodine_ws_on_close, fired_events]⟩

theorem ws_deliver_all_keeps (cbs : List ws_callback) (c : iodine_connection_s)
    (h : ∀ w id, ws_callback.on_open w id ∉ cbs) :
    (ws_deliver_all c cbs).1 = c ∧ ∀ e ∈ fired_events (ws_deliver_all c cbs).2, e.2 = c := by
  induction cbs with
  | nil => exact ⟨rfl, by simp [ws_deliver_all, fired_events]⟩
  | cons cb rest ih =>
    have h1 : ∀ w id, cb ≠ ws_callback.on_open w id :=
      fun w id hx => h w id (by rw [hx]; exact List.mem_cons_self _ _)
    have h2 : ∀ w id, ws_callback.on_open w id ∉ rest :=
      fun w id hx => h w id (List.mem_cons_of_mem _ hx)
    obtain ⟨k1, k2⟩ := ws_deliver_keeps c cb h1
    obtain ⟨i1, i2⟩ := ih h2
    simp only [ws_deliver_all, k1, i1, fired_events_append, List.mem_append, true_and]
    intro e he
    rcases he with he | he
    · exact k2 e he
    · exact i2 e he

theorem sse_deliver_keeps (c : iodine_connection_s) (b : Bool) (cb : sse_callback)
    (h : ∀ w id, cb ≠ sse_callback.on_open w id) :
    (sse_deliver c b cb).1 = c ∧ ∀ e ∈ fired_events (sse_deliver c b cb).2.2, e.2 = c := by
  cases cb with
  | on_open w id => exact absurd rfl (h w id)
  | on_ready =>
    cases b <;> exact ⟨rfl, by simp [sse_deliver, iodine_sse_on_ready, fired_events]⟩
  | _ => exact ⟨rfl, by simp [sse_deliver, iodine_sse_on_shutdown, iodine_sse_on_close,
      fired_events]⟩

theorem sse_deliver_all_keeps (cbs : List sse_callback) (c : iodine_connection_s) :
    ∀ b : Bool, (∀ w id, sse_callback.on_open w id ∉ cbs) →
      (sse_deliver_all c b cbs).1 = c ∧
        ∀ e ∈ fired_events (sse_deliver_all c b cbs).2.2, e.2 = c := by
  induction cbs with
  | nil => intro b _; exact ⟨rfl, by simp [sse_deliver_all, fired_events]⟩
  | cons cb rest ih =>
    intro b h
    have h1 : ∀ w id, cb ≠ sse_callback.on_open w id :=
      fun w id hx => h w id (by rw [hx]; exact List.mem_cons_self _ _)
    have h2 : ∀ w id, sse_callback.on_open w id ∉ rest :=
      fun w id hx => h w id (List.mem_cons_of_mem _ hx)
    obtain ⟨k1, k2⟩ := sse_deliver_keeps c b cb h1
    obtain ⟨i1, i2⟩ := ih (sse_deliver c b cb).2.1 h2
    simp only [sse_deliver_all, k1, i1, fired_events_append, List.mem_append, true_and]
    intro e he
    rcases he with he | he
    · exact k2 e he
    · exact i2 e he

/-- A response `[status, {}, body]` with a String body and an accepted status, in an
environment without upgrade markers: the handler ends with that status and the action the
status asks for. -/
theorem handler_plain_status (ext : Ext) (sx : Bool) (handle : iodine_http_request_handle_s)
    (st0 : VALUE) (st : Nat) (b : Bytes) (hst0 : response_status ext st0 = some st) :
    (iodine_handle_request_in_GVL ext sx
        (some { rbresponse := some [st0, VALUE.hash [], VALUE.str b], env := [] }) handle).1 =
      if st < 200 ∨ st = 204 ∨ st = 304 then
        { set_status handle st with type := IODINE_HTTP_NONE }
      else
        { set_status handle st with
          body := if b.length ≠ 0 then some b else handle.body,
          type := IODINE_HTTP_SENDBODY } := by
  have hsend : ruby2c_response_send (set_status handle st)
      [st0, VALUE.hash [], VALUE.str b] =
      if st < 200 ∨ st = 204 ∨ st = 304 then
        (0, { set_status handle st with type := IODINE_HTTP_NONE }, [])
      else
        (0, { set_status handle st with
                body := if b.length ≠ 0 then some b else handle.body,
                type := IODINE_HTTP_SENDBODY }, []) := by
    by_cases hb : st < 200 ∨ st = 204 ∨ st = 304
    · rw [if_pos hb]
      unfold ruby2c_response_send
      have hb2 : (set_status handle st).h.status < 200 ∨ (set_status handle st).h.status = 204 ∨
          (set_status handle st).h.status = 304 := hb
      simp only [if_pos hb2]
      rfl
    · rw [if_neg hb]
      rw [ruby2c_response_send_plain _ _ hb (by simp [rb_ary_entry])
        (by simp [rb_ary_entry])]
      rfl
  have h0 : (ruby2c_response_send (set_status handle st)
      [st0, VALUE.hash [], VALUE.str b]).1 = 0 := by
    rw [hsend]; split_ifs <;> rfl
  rw [handler_send_ok ext sx _ handle [st0, VALUE.hash [], VALUE.str b] st []
    rfl hst0 rfl (Or.inr (by decide))
    (Or.inr (by rw [ruby2c_review_upgrade_no_marker] <;> rfl)) h0, hsend]
  split_ifs <;> rfl

/-- C8: the status element of the response is accepted whenever it is a Fixnum or a String:
a Fixnum `m` is converted by `FIX2ULONG`, a String `t` is read by `fio_atol`, and a plain
response `[status, {}, body]` then ends with that number as its status and with the action
the status asks for (never `IODINE_HTTP_ERROR`); a Fixnum `k` in the range of the status
field gives the status `k` itself.  A String `s` that `fio_atol` reads as `n` gives the same
run of the request handler as the Fixnum `n`; when `fio_atol` reads `"200"` as 200, the
String `"200"` and the Fixnum 200 both end a plain response with status 200; and a status
element of any other type ends the request with status 500 and action `IODINE_HTTP_ERROR`
after nothing but the store bookkeeping: no header is written, no upgrade is reviewed and no
body is interpreted. -/
theorem status_integer_or_numeric_string (ext : Ext) (sx : Bool)
    (env : List (VALUE × VALUE)) (handle : iodine_http_request_handle_s)
    (rest : List VALUE) (s : Bytes) (n : Int) :
    (ext.fio_atol s = n →
      iodine_handle_request_in_GVL ext sx
          (some { rbresponse := some (VALUE.str s :: rest), env := env }) handle =
        iodine_handle_request_in_GVL ext sx
          (some { rbresponse := some (VALUE.fixnum n :: rest), env := env }) handle) ∧
    (ext.fio_atol "200".toList = 200 →
      ∀ b : Bytes,
        (iodine_handle_request_in_GVL ext sx
          (some { rbresponse := some [VALUE.str "200".toList, VALUE.hash [], VALUE.str b],
                  env := [] }) handle).1 =
          { set_status handle 200 with
            body := if b.length ≠ 0 then some b else handle.body,
            type := IODINE_HTTP_SENDBODY } ∧
        (iodine_handle_request_in_GVL ext sx
          (some { rbresponse := some [VALUE.fixnum 200, VALUE.hash [], VALUE.str b],
                  env := [] }) handle).1 =
          { set_status handle 200 with
            body := if b.length ≠ 0 then some b else handle.body,
            type := IODINE_HTTP_SENDBODY }) ∧
    (∀ xs : List VALUE, TYPE (rb_ary_entry xs 0) ≠ T_STRING →
      TYPE (rb_ary_entry xs 0) ≠ T_FIXNUM →
      iodine_handle_request_in_GVL ext sx (some { rbresponse := some xs, env := env }) handle =
        ({ set_status handle 500 with type := IODINE_HTTP_ERROR },
          [Effect.store_add StoreRef.env, Effect.rack_io_create, Effect.rb_call_app,
            Effect.rack_io_close, Effect.store_add StoreRef.rbresponse,
            Effect.store_remove StoreRef.rbresponse, Effect.store_remove StoreRef.env])) ∧
    (∀ m : Int, response_status ext (VALUE.fixnum m) = some (to_uintptr m)) ∧
    (∀ t : Bytes, response_status ext (VALUE.str t) = some (to_uintptr (ext.fio_atol t))) ∧
    (∀ (m : Int) (b : Bytes),
      (iodine_handle_request_in_GVL ext sx
        (some { rbresponse := some [VALUE.fixnum m, VALUE.hash [], VALUE.str b],
                env := [] }) handle).1 =
        if to_uintptr m < 200 ∨ to_uintptr m = 204 ∨ to_uintptr m = 304 then
          { set_status handle (to_uintptr m) with type := IODINE_HTTP_NONE }
        else
          { set_status handle (to_uintptr m) with
            body := if b.length ≠ 0 then some b else handle.body,
            type := IODINE_HTTP_SENDBODY }) ∧
    (∀ (t b : Bytes),
      (iodine_handle_request_in_GVL ext sx
        (some { rbresponse := some [VALUE.str t, VALUE.hash [], VALUE.str b],
                env := [] }) handle).1 =
        if to_uintptr (ext.fio_atol t) < 200 ∨ to_uintptr (ext.fio_atol t) = 204 ∨
            to_uintptr (ext.fio_atol t) = 304 then
          { set_status handle (to_uintptr (ext.fio_atol t)) with type := IODINE_HTTP_NONE }
        else
          { set_status handle (to_uintptr (ext.fio_atol t)) with
            body := if b.length ≠ 0 then some b else handle.body,
            type := IODINE_HTTP_SENDBODY }) ∧
    (∀ k : Nat, k < 18446744073709551616 → to_uintptr (k : Int) = k) := by
  refine ⟨?_, ?_, ?_, fun _ => rfl, fun _ => rfl,
    fun m b => handler_plain_status ext sx handle _ _ b rfl,
    fun t b => handler_plain_status ext sx handle _ _ b rfl, to_uintptr_nat⟩
  · intro hs
    apply handler_congr
    · simp [rb_ary_entry, response_status, hs]
    · rfl
    · rfl
  · intro h200 b
    have hfix : ∀ st0 : VALUE, response_status ext st0 = some 200 →
        (iodine_handle_request_in_GVL ext sx
          (some { rbresponse := some [st0, VALUE.hash [], VALUE.str b], env := [] }) handle).1 =
          { set_status handle 200 with
            body := if b.length ≠ 0 then some b else handle.body,
            type := IODINE_HTTP_SENDBODY } := by
      intro st0 hst0
      rw [handler_plain_status ext sx handle st0 200 b hst0, if_neg (by decide)]
    refine ⟨hfix _ ?_, hfix _ ?_⟩
    · simp only [response_status, h200]; rfl
    · rfl
  · intro xs h1 h2
    rw [handler_bad_status ext sx env handle xs]
    · rfl
    · cases h : rb_ary_entry xs 0 <;> simp_all [response_status, TYPE]

theorem status_integer_or_numeric_string_witness :
    (sample_ext.fio_atol "200".toList = 200 ∧
      TYPE (rb_ary_entry [VALUE.Qnil, VALUE.hash [], VALUE.str "x".toList] 0) ≠ T_STRING ∧
      TYPE (rb_ary_entry [VALUE.Qnil, VALUE.hash [], VALUE.str "x".toList] 0) ≠ T_FIXNUM) ∧
      (iodine_handle_request_in_GVL sample_ext false
          (some { rbresponse := some [VALUE.str "200".toList, VALUE.hash [],
                    VALUE.str "x".toList], env := [] })
          { h := { status := 0 }, body := none, type := IODINE_HTTP_NONE,
            upgrade := IODINE_UPGRADE_NONE } =
        iodine_handle_request_in_GVL sample_ext false
          (some { rbresponse := some [VALUE.fixnum 200, VALUE.hash [],
                    VALUE.str "x".toList], env := [] })
          { h := { status := 0 }, body := none, type := IODINE_HTTP_NONE,
            upgrade := IODINE_UPGRADE_NONE }) ∧
      (iodine_handle_request_in_GVL sample_ext false
          (some { rbresponse := some [VALUE.str "200".toList, VALUE.hash [],
                    VALUE.str "x".toList], env := [] })
          { h := { status := 0 }, body := none, type := IODINE_HTTP_NONE,
            upgrade := IODINE_UPGRADE_NONE }).1.h.status = 200 ∧
      (iodine_handle_request_in_GVL sample_ext false
          (some { rbresponse := some [VALUE.Qnil, VALUE.hash [], VALUE.str "x".toList],
                  env := [] })
          { h := { status := 0 }, body := none, type := IODINE_HTTP_NONE,
            upgrade := IODINE_UPGRADE_NONE }).1.type = IODINE_HTTP_ERROR ∧
      (iodine_handle_request_in_GVL sample_ext false
          (some { rbresponse := some [VALUE.fixnum 404, VALUE.hash [], VALUE.str "x".toList],
                  env := [] })
          { h := { status := 0 }, body := none, type := IODINE_HTTP_NONE,
            upgrade := IODINE_UPGRADE_NONE }).1 =
        { h := { status := 404 }, body := some "x".toList, type := IODINE_HTTP_SENDBODY,
          upgrade := IODINE_UPGRADE_NONE } ∧
      (iodine_handle_request_in_GVL sample_ext false
          (some { rbresponse := some [VALUE.str "404".toList, VALUE.hash [],
                    VALUE.str "x".toList], env := [] })
          { h := { status := 0 }, body := none, type := IODINE_HTTP_NONE,
            upgrade := IODINE_UPGRADE_NONE }).1 =
        { h := { status := 404 }, body := some "x".toList, type := IODINE_HTTP_SENDBODY,
          upgrade := IODINE_UPGRADE_NONE } := by
  have h := status_integer_or_numeric_string sample_ext false []
    { h := { status := 0 }, body := none, type := IODINE_HTTP_NONE,
      upgrade := IODINE_UPGRADE_NONE }
    [VALUE.hash [], VALUE.str "x".toList] "200".toList 200
  refine ⟨⟨by decide, by decide, by decide⟩, h.1 (by decide), ?_, ?_, ?_, ?_⟩
  · rw [(h.2.1 (by decide) "x".toList).1]; rfl
  · rw [h.2.2.1 [VALUE.Qnil, VALUE.hash [], VALUE.str "x".toList] (by decide) (by decide)]
  · rw [h.2.2.2.2.2.1 404 "x".toList]; decide
  · rw [h.2.2.2.2.2.2.1 "404".toList "x".toList]; decide

end Iodine
